import Mathlib

/-!
# go-wgnetlib: peer generation engine

A shallow embedding of `src/gen/generator.go`, `src/gen/models.go`,
`src/gen/constants.go` and `src/pkg/wgnetlib/helpers.go`, followed by theorems
about it.

Conventions of the embedding.

* Go `string` is `String`; text is processed through its list of characters.
* Go `[]byte`, `net.IP` and `net.IPMask` are `List Nat` holding bytes; a nil
  slice is the empty list.  Byte arithmetic that can wrap is written `% 256`.
* Go `uint`, `uint16` and `int` fields are only copied, compared with zero and
  printed, so they are `Nat` (`serverIPIndex`, which starts at `-1`, is `Int`).
  The shift of `EstimateNetworkSize` is computed on `Int` and reduced to the 64
  bits of a Go `int`.
* The Go standard library functions the program calls (`net.ParseCIDR`,
  `net.ParseIP`, `IPNet.Contains`, `IPNet.String`, `IP.String`, `IP.Equal`,
  `strings.ReplaceAll`, `strings.HasSuffix`) are embedded from their Go
  definitions under their Go names.
* The random source, gzip and the goroutine scheduler are the fields of `Env`.
-/

namespace WgNetLib

/-! ## Text helpers of the Go standard library -/

deriving instance DecidableEq for Except

/-- Go `strings.HasSuffix`: the last `len(suffix)` bytes of `s` are `suffix`. -/
def HasSuffix (s suffix : String) : Bool :=
  suffix.data.isSuffixOf s.data

/-- Worker of `ReplaceAll` with `skip` characters of a matched occurrence still
to drop. -/
def ReplaceAll.go (old new : List Char) : Nat → List Char → List Char
  | _, [] => []
  | skip + 1, _ :: cs => ReplaceAll.go old new skip cs
  | 0, c :: cs =>
    if old.isPrefixOf (c :: cs) then new ++ ReplaceAll.go old new (old.length - 1) cs
    else c :: ReplaceAll.go old new 0 cs

/-- Go `strings.ReplaceAll` for a non-empty `old` (the program only passes the
constants `${id}` and `${name}`): every non-overlapping occurrence, scanning
from the left, is replaced. -/
def ReplaceAll (s old new : String) : String :=
  ⟨ReplaceAll.go old.data new.data 0 s.data⟩

/-- Decimal text of a number: Go `strconv.FormatUint(n, 10)`, `%d` and `%v` on an
unsigned integer. -/
def itoa (n : Nat) : String := Nat.repr n

/-- Decimal text of a Go `int`. -/
def itoaInt : Int → String
  | Int.ofNat n => itoa n
  | Int.negSucc n => "-" ++ itoa (n + 1)

/-! ## Model of the Go `net` and `net/netip` packages -/

/-- Go `net.IPNet`. -/
structure IPNet where
  IP : List Nat
  Mask : List Nat
  deriving DecidableEq, Repr

/-- Go `net.v4InV6Prefix`. -/
def v4InV6Prefix : List Nat := [0, 0, 0, 0, 0, 0, 0, 0, 0, 0, 255, 255]

/-- Go `IP.To4`; `none` is the nil result. -/
def To4 (ip : List Nat) : Option (List Nat) :=
  if ip.length = 4 then some ip
  else if ip.length = 16 ∧ ip.take 12 = v4InV6Prefix then some (ip.drop 12)
  else none

/-- Go `IP.Equal`. -/
def IPEqual (ip x : List Nat) : Bool :=
  if ip.length = x.length then decide (ip = x)
  else if ip.length = 4 ∧ x.length = 16 then
    decide (x.take 12 = v4InV6Prefix) && decide (ip = x.drop 12)
  else if ip.length = 16 ∧ x.length = 4 then
    decide (ip.take 12 = v4InV6Prefix) && decide (ip.drop 12 = x)
  else false

/-- Bytes of `CIDRMask`: `l` bytes, the first `n` bits set. -/
def CIDRMask.bytes : Nat → Nat → List Nat
  | 0, _ => []
  | l + 1, n =>
    if n ≥ 8 then 255 :: CIDRMask.bytes l (n - 8)
    else (255 - 255 / 2 ^ n) :: CIDRMask.bytes l 0

/-- Go `net.CIDRMask(ones, bits)`. -/
def CIDRMask (ones bits : Nat) : List Nat :=
  if bits ≠ 32 ∧ bits ≠ 128 then []
  else if ones > bits then []
  else CIDRMask.bytes (bits / 8) ones

/-- The loop of `IP.Mask`: bytewise and. -/
def andBytes : List Nat → List Nat → List Nat
  | a :: as, m :: ms => (a &&& m) :: andBytes as ms
  | _, _ => []

/-- Go `net.allFF`. -/
def allFF (b : List Nat) : Bool := b.all (fun c => c == 255)

/-- Go `IP.Mask`. -/
def IPMask (ip mask : List Nat) : List Nat :=
  let mask := if mask.length = 16 ∧ ip.length = 4 ∧ allFF (mask.take 12) then mask.drop 12 else mask
  let ip := if mask.length = 4 ∧ ip.length = 16 ∧ ip.take 12 = v4InV6Prefix then ip.drop 12 else ip
  if ip.length ≠ mask.length then [] else andBytes ip mask

/-- Go `net.networkNumberAndMask`; a pair of empty lists is the `nil, nil` result. -/
def networkNumberAndMask (n : IPNet) : List Nat × List Nat :=
  match (match To4 n.IP with
         | some ip => some ip
         | none => if n.IP.length ≠ 16 then none else some n.IP) with
  | none => ([], [])
  | some ip =>
    if n.Mask.length = 4 then
      (if ip.length ≠ 4 then ([], []) else (ip, n.Mask))
    else if n.Mask.length = 16 then
      (if ip.length = 4 then (ip, n.Mask.drop 12) else (ip, n.Mask))
    else ([], [])

/-- The comparison loop of `IPNet.Contains`. -/
def maskedEq : List Nat → List Nat → List Nat → Bool
  | a :: as, m :: ms, b :: bs => if a &&& m ≠ b &&& m then false else maskedEq as ms bs
  | _, _, _ => true

/-- Go `IPNet.Contains`. -/
def Contains (n : IPNet) (ip : List Nat) : Bool :=
  let nm := networkNumberAndMask n
  let ip := match To4 ip with
    | some x => x
    | none => ip
  if ip.length ≠ nm.1.length then false else maskedEq nm.1 nm.2 ip

/-- Number of leading one bits of a byte whose remaining bits are zero, `none`
when a one bit follows a zero bit (inner loop of `simpleMaskLength`). -/
def maskByteOnes (v : Nat) : Option Nat :=
  if v = 0 then some 0 else if v = 128 then some 1 else if v = 192 then some 2
  else if v = 224 then some 3 else if v = 240 then some 4 else if v = 248 then some 5
  else if v = 252 then some 6 else if v = 254 then some 7 else if v = 255 then some 8
  else none

/-- Go `net.simpleMaskLength`; `none` is the result `-1`. -/
def simpleMaskLength : List Nat → Option Nat
  | [] => some 0
  | v :: rest =>
    if v = 255 then (simpleMaskLength rest).map (· + 8)
    else match maskByteOnes v with
      | none => none
      | some n => if rest.all (fun b => b == 0) then some n else none

/-- Go `IPMask.Size`: the number of leading ones, `0` for a mask that is not in
canonical form. -/
def maskSize (m : List Nat) : Nat := (simpleMaskLength m).getD 0

/-- One lower-case hexadecimal digit. -/
def hexDigit (n : Nat) : Char :=
  if n < 10 then Char.ofNat (48 + n) else Char.ofNat (87 + n)

/-- Go `net.hexString`: two hexadecimal digits for every byte. -/
def hexString (b : List Nat) : List Char :=
  b.flatMap (fun v => [hexDigit (v / 16), hexDigit (v % 16)])

/-- Go `netip.appendHex`: hexadecimal text of a 16-bit field, no leading zeros. -/
def appendHex (x : Nat) : List Char :=
  (if x ≥ 4096 then [hexDigit (x / 4096)] else []) ++
  (if x ≥ 256 then [hexDigit (x / 256 % 16)] else []) ++
  (if x ≥ 16 then [hexDigit (x / 16 % 16)] else []) ++
  [hexDigit (x % 16)]

/-- Dotted decimal text of four bytes (`netip.Addr.string4`). -/
def string4 : List Nat → String
  | [a, b, c, d] => itoa a ++ "." ++ itoa b ++ "." ++ itoa c ++ "." ++ itoa d
  | _ => ""

/-- The eight 16-bit fields of a 16-byte address. -/
def v6u16 : List Nat → List Nat
  | hi :: lo :: rest => (hi * 256 + lo) :: v6u16 rest
  | _ => []

/-- Length of the run of zero fields at the head of a list. -/
def zeroRun : List Nat → Nat
  | 0 :: rest => zeroRun rest + 1
  | _ => 0

/-- First loop of `netip.Addr.appendTo6`: start and end of the longest run of
at least two zero fields, the first such run on a tie.  `i` is the index of the
head of `fields`. -/
def longestZeroRun : List Nat → Nat → Nat × Nat → Nat × Nat
  | [], _, best => best
  | f :: rest, i, best =>
    let l := zeroRun (f :: rest)
    let best := if l ≥ 2 ∧ l > best.2 - best.1 then (i, i + l) else best
    longestZeroRun rest (i + 1) best

/-- Second loop of `netip.Addr.appendTo6`. -/
def appendTo6.go (zeroStart zeroEnd : Nat) : List Nat → Nat → List Char
  | [], _ => []
  | f :: rest, i =>
    if i = zeroStart then ':' :: ':' :: appendTo6.go zeroStart zeroEnd rest (i + 1)
    else if zeroStart < i ∧ i < zeroEnd then appendTo6.go zeroStart zeroEnd rest (i + 1)
    else if i > 0 ∧ i ≠ zeroEnd then ':' :: (appendHex f ++ appendTo6.go zeroStart zeroEnd rest (i + 1))
    else appendHex f ++ appendTo6.go zeroStart zeroEnd rest (i + 1)

/-- Text of a 16-byte address that is not IPv4-mapped (`netip.Addr.string6`). -/
def string6 (ip : List Nat) : String :=
  let fields := v6u16 ip
  let z := longestZeroRun fields 0 (255, 255)
  ⟨appendTo6.go z.1 z.2 fields 0⟩

/-- Go `IP.String`. -/
def IPString (ip : List Nat) : String :=
  if ip.length = 0 then "<nil>"
  else if ip.length ≠ 4 ∧ ip.length ≠ 16 then ⟨'?' :: hexString ip⟩
  else match To4 ip with
    | some p4 => string4 p4
    | none => string6 ip

/-- Go `IPNet.String`. -/
def IPNetString (n : IPNet) : String :=
  let nm := networkNumberAndMask n
  if nm.1 = [] ∨ nm.2 = [] then "<nil>"
  else match simpleMaskLength nm.2 with
    | none => IPString nm.1 ++ "/" ++ ⟨hexString nm.2⟩
    | some l => IPString nm.1 ++ "/" ++ itoa l

/-- Loop of Go `netip.parseIPv4Fields` over the remaining text: `val` and
`digLen` are the value and digit count of the current octet, `fields` the octets
already closed, `atStart` says that no character was read yet and `prevDot` that
the previous character was a dot. -/
def parseIPv4Fields : List Char → Nat → Nat → List Nat → Bool → Bool → Option (List Nat)
  | [], val, _, fields, _, _ =>
    if fields.length < 3 then none else some (fields ++ [val])
  | c :: cs, val, digLen, fields, atStart, prevDot =>
    if '0' ≤ c ∧ c ≤ '9' then
      if digLen = 1 ∧ val = 0 then none
      else
        let val := val * 10 + (c.toNat - 48)
        if val > 255 then none
        else parseIPv4Fields cs val (digLen + 1) fields false false
    else if c = '.' then
      if atStart ∨ cs = [] ∨ prevDot then none
      else if fields.length = 3 then none
      else parseIPv4Fields cs 0 0 (fields ++ [val]) false true
    else none

/-- Go `netip.parseIPv4`: the four octets of a dotted decimal address. -/
def parseIPv4 (s : List Char) : Option (List Nat) :=
  parseIPv4Fields s 0 0 [] true false

/-- Value of a hexadecimal digit. -/
def hexVal (c : Char) : Option Nat :=
  if '0' ≤ c ∧ c ≤ '9' then some (c.toNat - 48)
  else if 'a' ≤ c ∧ c ≤ 'f' then some (c.toNat - 87)
  else if 'A' ≤ c ∧ c ≤ 'F' then some (c.toNat - 55)
  else none

/-- Inner loop of Go `netip.parseIPv6`: reads the hexadecimal digits at the head
of the text.  The result is the value, the number of digits and the rest of the
text; `none` when a fifth digit is met. -/
def hexGroup : List Char → Nat → Nat → Option (Nat × Nat × List Char)
  | [], acc, off => some (acc, off, [])
  | c :: cs, acc, off =>
    match hexVal c with
    | none => some (acc, off, c :: cs)
    | some d =>
      if off > 3 then none
      else if acc * 16 + d > 65535 then none
      else hexGroup cs (acc * 16 + d) (off + 1)

/-- Main loop of Go `netip.parseIPv6`: `bytes` are the `i` bytes written so far,
`ellipsis` the position of `::`.  The fuel is the number of 16-bit fields that
still fit, `(16 - i) / 2`.  The result is the unread text, the bytes and the
ellipsis. -/
def parseIPv6Loop : Nat → List Char → List Nat → Option Nat →
    Option (List Char × List Nat × Option Nat)
  | 0, s, bytes, ellipsis => some (s, bytes, ellipsis)
  | fuel + 1, s, bytes, ellipsis =>
    match hexGroup s 0 0 with
    | none => none
    | some (acc, off, rest) =>
      if off = 0 then none
      else if rest.head? = some '.' then
        if ellipsis = none ∧ bytes.length ≠ 12 then none
        else if bytes.length + 4 > 16 then none
        else match parseIPv4 s with
          | none => none
          | some ip4 => some ([], bytes ++ ip4, ellipsis)
      else
        let bytes := bytes ++ [acc / 256, acc % 256]
        match rest with
        | [] => some ([], bytes, ellipsis)
        | c :: rest =>
          if c ≠ ':' then none
          else match rest with
            | [] => none
            | c2 :: rest2 =>
              if c2 = ':' then
                if ellipsis.isSome then none
                else if rest2 = [] then some ([], bytes, some bytes.length)
                else parseIPv6Loop fuel rest2 bytes (some bytes.length)
              else parseIPv6Loop fuel (c2 :: rest2) bytes ellipsis

/-- Go `netip.parseIPv6` for text without a zone: the sixteen bytes. -/
def parseIPv6 (s : List Char) : Option (List Nat) :=
  let lead := decide (s.take 2 = [':', ':'])
  let s := if lead then s.drop 2 else s
  if lead ∧ s = [] then some (List.replicate 16 0)
  else match parseIPv6Loop 8 s [] (if lead then some 0 else none) with
    | none => none
    | some (rest, bytes, ellipsis) =>
      if rest ≠ [] then none
      else if bytes.length < 16 then
        match ellipsis with
        | none => none
        | some e => some (bytes.take e ++ List.replicate (16 - bytes.length) 0 ++ bytes.drop e)
      else if ellipsis.isSome then none
      else some bytes

/-- Big-endian value of a list of bytes. -/
def bytesVal (b : List Nat) : Nat := b.foldl (fun acc v => acc * 256 + v) 0

/-- Go `netip.Addr.As16`: the sixteen bytes of a 128-bit address value. -/
def as16 (v : Nat) : List Nat :=
  (List.range 16).map (fun i => v / 256 ^ (15 - i) % 256)

/-- Dispatch of Go `netip.ParseAddr` on the first of `.`, `:` and `%` in the text
(`scan` is the unread part). -/
def ParseAddr.dispatch (s : List Char) : List Char → Option (Nat × Nat)
  | [] => none
  | c :: scan =>
    if c = '.' then (parseIPv4 s).map (fun f => (0xffff00000000 + bytesVal f, 32))
    else if c = ':' then (parseIPv6 s).map (fun b => (bytesVal b, 128))
    else if c = '%' then none
    else ParseAddr.dispatch s scan

/-- Go `netip.ParseAddr` composed with the test `ip.Zone() != ""` that both of its
callers in package `net` make: the 128-bit value of the address (`netip.Addr`
keeps an IPv4 address as its IPv4-mapped value) and its `BitLen`, `none` for
text that does not parse or that names a zone. -/
def ParseAddr (s : String) : Option (Nat × Nat) :=
  if '%' ∈ s.data then none else ParseAddr.dispatch s.data s.data

/-- Go `net.ParseIP`: the 16-byte form of the address, `none` for nil. -/
def ParseIP (s : String) : Option (List Nat) :=
  (ParseAddr s).map (fun a => as16 a.1)

/-- Go `net.dtoi`: the decimal number at the head of the text and the number of
characters read; `none` when there is no digit or the number reaches `0xFFFFFF`. -/
def dtoi : List Char → Nat → Nat → Option (Nat × Nat)
  | [], n, i => if i = 0 then none else some (n, i)
  | c :: cs, n, i =>
    if '0' ≤ c ∧ c ≤ '9' then
      let n := n * 10 + (c.toNat - 48)
      if n ≥ 0xFFFFFF then none else dtoi cs n (i + 1)
    else if i = 0 then none else some (n, i)

/-- Go `net.ParseCIDR`: the address in 16-byte form and the network. -/
def ParseCIDR (s : String) : Option (List Nat × IPNet) :=
  if '/' ∉ s.data then none
  else
    let addr := s.data.takeWhile (fun c => c != '/')
    let mask := (s.data.dropWhile (fun c => c != '/')).drop 1
    match ParseAddr ⟨addr⟩ with
    | none => none
    | some (v, bitLen) =>
      match dtoi mask 0 0 with
      | none => none
      | some (n, i) =>
        if i ≠ mask.length ∨ n > bitLen then none
        else
          let m := CIDRMask n bitLen
          some (as16 v, { IP := IPMask (as16 v) m, Mask := m })

/-! ## `src/pkg/wgnetlib/helpers.go` -/

/-- The loop of `NextIP` on the bytes from the last to the first: add one to a
byte and stop unless it wrapped to zero. -/
def NextIP.carry : List Nat → List Nat
  | [] => []
  | b :: bs =>
    if (b + 1) % 256 > 0 then (b + 1) % 256 :: bs
    else (b + 1) % 256 :: NextIP.carry bs

/-- The function `NextIP`: a copy of the address with one added. -/
def NextIP (ip : List Nat) : List Nat :=
  (NextIP.carry ip.reverse).reverse

/-- The two slices that a call of `NextIP` works on: the argument `ip` and the
slice `newIP` that the call makes and returns. -/
structure NextIP.Slices where
  ip : List Nat
  newIP : List Nat
  deriving DecidableEq, Repr

/-- The `for` loop of `NextIP` on the two slices, the first argument being
`i + 1`: the byte `newIP[i]` is incremented, and the loop goes on to the byte in
front of it when the byte wrapped to zero. -/
def NextIP.loop : Nat → NextIP.Slices → NextIP.Slices
  | 0, s => s
  | i + 1, s =>
    let s := { s with newIP := s.newIP.set i ((s.newIP.getD i 0 + 1) % 256) }
    if s.newIP.getD i 0 > 0 then s else NextIP.loop i s

/-- The body of `NextIP` on the two slices: `make` and `copy`, then the loop. -/
def NextIP.run (ip : List Nat) : NextIP.Slices :=
  NextIP.loop ip.length { ip := ip, newIP := ip }

/-- Go `x << s` on the type `int` of a 64-bit platform: the bits shifted beyond
bit 63 are lost, the 64 bits that remain are read as a signed number, and a
negative count is a run-time panic. -/
def shlInt (x s : Int) : Except String Int :=
  if s < 0 then .error "panic: runtime error: negative shift amount"
  else .ok ((x * Int.ofNat (2 ^ s.toNat) + 2 ^ 63) % 2 ^ 64 - 2 ^ 63)

/-- The function `EstimateNetworkSize`. -/
def EstimateNetworkSize (ipNet : IPNet) : Except String Int :=
  let prefixSize : Int := Int.ofNat (maskSize ipNet.Mask)
  if (To4 ipNet.IP).isSome then shlInt 1 (32 - prefixSize)
  else shlInt 1 (128 - prefixSize)

/-! ## `src/gen/models.go` and `src/gen/constants.go` -/

/-- The struct `WgConfig`: one generated peer or server record. -/
structure WgConfig where
  ID : Nat
  Config : String
  Name : String
  Description : String
  Extra : String
  IP : String
  AllowedIPs : String
  PersistentKeepAlive : Nat
  MTU : Nat
  Endpoint : String
  EndpointPort : Nat
  DNS : String
  IsServer : Bool
  PrivateKey : String
  PublicKey : String
  PreSharedKey : String
  deriving DecidableEq, Repr

/-- The zero value of `WgConfig`, which Go gives to `var w WgConfig` and to the
lookup of a key that is not in a map. -/
def WgConfig.zero : WgConfig :=
  { ID := 0, Config := "", Name := "", Description := "", Extra := "", IP := "",
    AllowedIPs := "", PersistentKeepAlive := 0, MTU := 0, Endpoint := "",
    EndpointPort := 0, DNS := "", IsServer := false, PrivateKey := "",
    PublicKey := "", PreSharedKey := "" }

/-- The struct `GenerationForm`. -/
structure GenerationForm where
  CIDR : String
  DNS : String
  Server : String
  ServerInterface : String
  Endpoint : String
  EndpointPort : Nat
  MTU : Nat
  AllowedIPs : String
  PersistentKeepAlive : Nat
  Name : String
  Description : String
  Extra : String
  RegenerateKeys : Bool
  ResetAll : Bool
  ForceAllowedIPs : Bool
  ForcePersistentKeepAlive : Bool
  ForceMTU : Bool
  ForceEndpoint : Bool
  ForceEndpointPort : Bool
  ForceDNS : Bool
  ForceName : Bool
  ForceDescription : Bool
  ForceExtra : Bool
  deriving DecidableEq, Repr

/-- The exported part of the struct `Configuration`.  Its unexported fields
`serverIP`, `firstIP`, `network` and `peers` only live during one call of
`Generate` and are local values of the embedding of `Generate`. -/
structure Configuration where
  GenerationParams : GenerationForm
  UseGzipDuringProcessing : Bool
  Peers : List WgConfig
  deriving DecidableEq, Repr

def DefaultAllowedIPs : String := "0.0.0.0/0"

def DefaultPersistentKeepAlive : Nat := 25

def DefaultEndpointPort : Nat := 51820

def DefaultMTU : Nat := 1280

/-! ## The collaborators of `Generate` -/

/-- What `Generate` consumes from outside the program.

* `GeneratePrivateKey n` is the result of `wgtypes.GeneratePrivateKey()` when it
  is the `n`-th draw from the random source: the text of the private key and of
  its public key, or the text of the error.
* `GeneratePreSharedKey n` is the result of `GeneratePreSharedKey()` as the `n`-th
  draw; `none` is its panic on a failed read of the random source.
* `GzipString` and `GunzipString` are the two gzip helpers of `helpers.go`, whose
  bodies are calls of `compress/gzip`.
* `sched` is the goroutine scheduler: `sched n % m` is the position, among the `m`
  tasks of a batch that have not run yet, of the task that runs as the `n`-th
  task of the whole run. -/
structure Env where
  GeneratePrivateKey : Nat → Except String (String × String)
  GeneratePreSharedKey : Nat → Option String
  GzipString : String → Except String String
  GunzipString : String → Except String String
  sched : Nat → Nat

/-! ## `src/gen/generator.go`: the rule merge engine -/

/-- The method `applySoftRules`.  The receiver contributes `GenerationParams`
only; the pointer `w` is never nil where the program calls it, so the result is
the record after the call. -/
def applySoftRules (p : GenerationForm) (w : WgConfig) : WgConfig :=
  let w := if w.Name = "" then
      { w with Name := ReplaceAll p.Name "${id}" (itoa w.ID) }
    else w
  let w := if w.Description = "" then
      { w with Description :=
          ReplaceAll (ReplaceAll p.Description "${id}" (itoa w.ID)) "${name}" w.Name }
    else w
  let w := if w.Extra = "" then
      { w with Extra := ReplaceAll (ReplaceAll p.Extra "${id}" (itoa w.ID)) "${name}" w.Name }
    else w
  let w := if w.AllowedIPs = "" then
      (if p.AllowedIPs = "" then { w with AllowedIPs := DefaultAllowedIPs }
       else { w with AllowedIPs := p.AllowedIPs })
    else w
  let w := if w.DNS = "" ∧ ¬ w.IsServer then { w with DNS := p.DNS } else w
  let w := if w.PersistentKeepAlive = 0 then
      { w with PersistentKeepAlive := p.PersistentKeepAlive }
    else w
  let w := if w.MTU = 0 then { w with MTU := DefaultMTU } else w
  let w := if w.Endpoint = "" then { w with Endpoint := p.Endpoint } else w
  let w := if w.EndpointPort = 0 then { w with EndpointPort := p.EndpointPort } else w
  w

/-- The method `applyKeyRules`.  `rng` counts the draws made from the random
source so far; the result is the record and the new count, or the error.  The
panic of `GeneratePreSharedKey` is an error whose text starts with `panic`. -/
def applyKeyRules (env : Env) (p : GenerationForm) (rng : Nat) (w : WgConfig) :
    Except String (WgConfig × Nat) :=
  let keyPair : Except String (WgConfig × Nat) :=
    if w.PrivateKey = "" ∨ w.PublicKey = "" ∨ p.RegenerateKeys then
      match env.GeneratePrivateKey rng with
      | .error e => .error ("error generating private key: " ++ e)
      | .ok (priv, pub) => .ok ({ w with PrivateKey := priv, PublicKey := pub }, rng + 1)
    else .ok (w, rng)
  match keyPair with
  | .error e => .error e
  | .ok (w, rng) =>
    if w.PreSharedKey = "" ∨ p.RegenerateKeys then
      match env.GeneratePreSharedKey rng with
      | none => .error "panic: failed to read the random source"
      | some psk => .ok ({ w with PreSharedKey := psk }, rng + 1)
    else .ok (w, rng)

/-- The method `applyForcedRules`. -/
def applyForcedRules (p : GenerationForm) (w : WgConfig) : WgConfig :=
  let w := if p.ForceAllowedIPs then { w with AllowedIPs := p.AllowedIPs } else w
  let w := if p.ForcePersistentKeepAlive then
      { w with PersistentKeepAlive := p.PersistentKeepAlive }
    else w
  let w := if p.ForceMTU then { w with MTU := p.MTU } else w
  let w := if p.ForceEndpoint then { w with Endpoint := p.Endpoint } else w
  let w := if p.ForceEndpointPort then { w with EndpointPort := p.EndpointPort } else w
  let w := if p.ForceDNS ∧ ¬ w.IsServer then { w with DNS := p.DNS } else w
  let w := if p.ForceName then { w with Name := p.Name } else w
  let w := if p.ForceDescription then { w with Description := p.Description } else w
  let w := if p.ForceExtra then { w with Extra := p.Extra } else w
  w

/-- The function `validateServer`: `none` is the nil error. -/
def validateServer (server : WgConfig) : Option String :=
  if server.ID = 0 then some "invalid configured server ID 0"
  else if server.PublicKey = "" ∨ server.PrivateKey = "" then
    some "configured server has empty public/private key"
  else if server.IP = "" then some "configured server has empty IP address"
  else none

/-! ## `src/gen/generator.go`: the renderer -/

/-- The method `WgConfig.GenerateConfig`. -/
def GenerateConfig (w server : WgConfig) : Except String String :=
  let persistentKeepAlive :=
    if w.PersistentKeepAlive > 0 then "\nPersistentKeepAlive = 25" else ""
  let extra := if w.Extra ≠ "" then "\n" ++ w.Extra else ""
  .ok ("[Interface]" ++ extra ++
    "\nPrivateKey = " ++ w.PrivateKey ++
    "\nAddress = " ++ w.IP ++ "/32" ++
    "\nDNS = " ++ w.DNS ++
    "\nMTU = " ++ itoa w.MTU ++
    "\n\n[Peer]" ++
    "\nPublicKey = " ++ server.PublicKey ++
    "\nPresharedKey = " ++ w.PreSharedKey ++
    "\nEndpoint = " ++ w.Endpoint ++ ":" ++ itoa w.EndpointPort ++
    "\nAllowedIPs = " ++ w.AllowedIPs ++ persistentKeepAlive ++
    "\n")

/-- The interface section that `GenerateServerConfig` writes first. -/
def serverInterface (w : WgConfig) (p : GenerationForm) (network : IPNet) : String :=
  let maskSize := maskSize network.Mask
  let extra := if w.Extra ≠ "" then "\n" ++ w.Extra else ""
  let dns := if w.DNS ≠ "" then "\nDNS = " ++ w.DNS else ""
  "[Interface]" ++ extra ++
    "\nPrivateKey = " ++ w.PrivateKey ++
    "\nAddress = " ++ w.IP ++ "/" ++ itoa maskSize ++
    "\nListenPort = " ++ itoa p.EndpointPort ++ dns ++
    "\nMTU = " ++ itoa p.MTU ++
    "\nPostUp = iptables -A FORWARD -i %i -j ACCEPT; iptables -A FORWARD -o %i -j ACCEPT; iptables -t nat -A POSTROUTING -o " ++
    p.ServerInterface ++ " -j MASQUERADE" ++
    "\nPostDown = iptables -D FORWARD -i %i -j ACCEPT; iptables -D FORWARD -o %i -j ACCEPT; iptables -t nat -D POSTROUTING -o " ++
    p.ServerInterface ++ " -j MASQUERADE" ++
    "\n\n"

/-- The loop of `GenerateServerConfig` over the spool: every stanza is appended,
after `GunzipString` when gzip is in use.  A failed `GunzipString` ends the
process (`log.Fatalf`) and is the error of the result. -/
def spoolText (env : Env) (useGzip : Bool) : List String → String → Except String String
  | [], config => .ok config
  | sgz :: rest, config =>
    if useGzip then
      match env.GunzipString sgz with
      | .error e => .error ("failed to gunzip string: " ++ e)
      | .ok s => spoolText env useGzip rest (config ++ s)
    else spoolText env useGzip rest (config ++ sgz)

/-- The method `WgConfig.GenerateServerConfig`. -/
def GenerateServerConfig (env : Env) (w : WgConfig) (conf : Configuration)
    (spgz : List String) (network : IPNet) : Except String String :=
  spoolText env conf.UseGzipDuringProcessing spgz
    (serverInterface w conf.GenerationParams network)

/-! ## `src/gen/generator.go`: the address walk of `Generate` -/

/-- The struct `IPAddress`. -/
structure IPAddress where
  S : String
  IP : List Nat
  IsServerIP : Bool
  deriving DecidableEq, Repr

/-- The `for` loop of `Generate` that fills `allIPs`, with its variables `ip`,
`allIPs`, `serverIPIndex` and `k` as arguments.  The Go loop has no bound; the
first argument bounds the number of iterations and `none` is the result when it
is used up. -/
def walkLoop (network : IPNet) (serverIP : List Nat) :
    Nat → List Nat → List IPAddress → Int → Nat → Option (List IPAddress × Int)
  | 0, _, _, _, _ => none
  | fuel + 1, ip, allIPs, serverIPIndex, k =>
    let ipa : IPAddress := { S := IPString ip, IP := ip, IsServerIP := false }
    if HasSuffix ipa.S ".0" || HasSuffix ipa.S ".255" then
      walkLoop network serverIP fuel (NextIP ip) allIPs serverIPIndex k
    else if !Contains network ip then some (allIPs, serverIPIndex)
    else if IPEqual ipa.IP serverIP then
      walkLoop network serverIP fuel (NextIP ip)
        (allIPs ++ [{ ipa with IsServerIP := true }]) (Int.ofNat k) (k + 1)
    else
      walkLoop network serverIP fuel (NextIP ip) (allIPs ++ [ipa]) serverIPIndex (k + 1)

/-- Bound on the iterations of the walk: an address has at most sixteen bytes, so
after `2 ^ 128` steps of `NextIP` every address has been visited. -/
def walkFuel : Nat := 2 ^ 128

/-- The address walk of `Generate` from `firstIP`: the list `allIPs` and
`serverIPIndex`. -/
def walk (network : IPNet) (serverIP firstIP : List Nat) : Option (List IPAddress × Int) :=
  walkLoop network serverIP walkFuel firstIP [] (-1) 0

/-! ## `src/gen/generator.go`: `Generate` -/

/-- The assignment `m[k] = v` on a Go map kept as a list of entries with distinct
keys. -/
def mapSet (m : List (Nat × WgConfig)) (k : Nat) (v : WgConfig) : List (Nat × WgConfig) :=
  if m.any (fun e => e.1 == k) then m.map (fun e => if e.1 == k then (k, v) else e)
  else m ++ [(k, v)]

/-- The lookup `m[k]` on a Go map: the zero value when the key is absent. -/
def mapGet (m : List (Nat × WgConfig)) (k : Nat) : WgConfig :=
  match m.find? (fun e => e.1 == k) with
  | some e => e.2
  | none => WgConfig.zero

/-- The variables that the tasks of `Generate` share: the map `conf.peers`, the
spool `spgz` and the number of draws made from the random source. -/
structure GenState where
  peers : List (Nat × WgConfig)
  spgz : List String
  rng : Nat
  deriving DecidableEq, Repr

/-- The closure `prepDevice` of `Generate`.  `peersIn` is `conf.Peers` as the loop
that clears the server flags left it and `server` is the variable `server`, `none`
while it is nil. -/
def prepDevice (env : Env) (conf : Configuration) (peersIn : List WgConfig)
    (server : Option WgConfig) (i : Nat) (ip : IPAddress) (st : GenState) :
    Except String GenState :=
  let w := if peersIn.length ≥ i then peersIn.getD (i - 1) WgConfig.zero else WgConfig.zero
  let w := { w with ID := i, IP := ip.S, IsServer := ip.IsServerIP }
  let w := applySoftRules conf.GenerationParams w
  let w := applyForcedRules conf.GenerationParams w
  match applyKeyRules env conf.GenerationParams st.rng w with
  | .error e => .error e
  | .ok (w, rng) =>
    match server with
    | some srv =>
      if ¬ w.IsServer then
        match GenerateConfig w srv with
        | .error e => .error ("error generating config for client " ++ itoa i ++ ": " ++ e)
        | .ok peerConf =>
          let w := { w with Config := peerConf }
          let serverPeer := "[Peer]\nPublicKey = " ++ w.PublicKey ++
            "\nAllowedIPs = " ++ w.IP ++ "/32\nPresharedKey = " ++ w.PreSharedKey ++ "\n\n"
          if conf.UseGzipDuringProcessing then
            match env.GzipString serverPeer with
            | .error e => .error ("failed to gzip server peer: " ++ e)
            | .ok serverPeerGz =>
              .ok { peers := mapSet st.peers i w, spgz := st.spgz ++ [serverPeerGz], rng := rng }
          else
            .ok { peers := mapSet st.peers i w, spgz := st.spgz ++ [serverPeer], rng := rng }
      else .ok { peers := mapSet st.peers i w, spgz := st.spgz, rng := rng }
    | none => .ok { peers := mapSet st.peers i w, spgz := st.spgz, rng := rng }

/-- The order in which the scheduler runs the tasks of one batch: `n` is the
number of tasks the run has started so far and the first argument bounds the
number of picks (the number of tasks). -/
def pickOrder {α : Type} (sched : Nat → Nat) : Nat → Nat → List α → List α
  | 0, _, _ => []
  | fuel + 1, n, pending =>
    match pending[sched n % pending.length]? with
    | none => []
    | some t => t :: pickOrder sched fuel (n + 1) (pending.eraseIdx (sched n % pending.length))

/-- The tasks that the batch starting at index `j` of `allIPs` starts: one for
every address of the batch that is not the server, with its index `l`. -/
def batchTasks (allIPs : List IPAddress) (j : Nat) : List (Nat × IPAddress) :=
  ((allIPs.enum.drop j).take 1000).filter (fun t => !t.2.IsServerIP)

/-- The batch loop of `Generate` (`chunkSize` is 1000): the tasks of all batches in
the order in which they run, one batch after the other and the tasks of a batch
in the order of the scheduler.  `n` is the number of tasks started before batch
`j`; the first argument bounds the number of batches. -/
def executionOrder (sched : Nat → Nat) (allIPs : List IPAddress) :
    Nat → Nat → Nat → List (Nat × IPAddress)
  | 0, _, _ => []
  | fuel + 1, j, n =>
    if j < allIPs.length then
      let tasks := batchTasks allIPs j
      pickOrder sched tasks.length n tasks ++
        executionOrder sched allIPs fuel (j + 1000) (n + tasks.length)
    else []

/-- Runs the tasks in order, each one `prepDevice` on the 1-based id `l + 1`; the
first failing task ends the process (`log.Fatalf` in `prepFnWrapped`). -/
def runTasks (env : Env) (conf : Configuration) (peersIn : List WgConfig)
    (server : Option WgConfig) : List (Nat × IPAddress) → GenState → Except String GenState
  | [], st => .ok st
  | t :: rest, st =>
    match prepDevice env conf peersIn server (t.1 + 1) t.2 st with
    | .error e => .error ("error generating keys and configuring peers: " ++ e)
    | .ok st => runTasks env conf peersIn server rest st

/-- What a call of `Generate` leaves: the configuration and the returned error
(`none` is nil).  An exit of the process through `log.Fatalf` or a panic is an
error too. -/
structure GenResult where
  conf : Configuration
  err : Option String
  deriving DecidableEq, Repr

/-- The part of `Generate` that follows the address walk.  The Go loop that looks
for the server ranges over the map `conf.peers` in an order that Go leaves open;
here it takes the first entry with the server flag in the order of the list.
The entries seeded from the prior collection have the flag cleared, so only the
entry that the server task has just stored can be found. -/
def generateDevices (env : Env) (conf : Configuration) (network : IPNet)
    (allIPs : List IPAddress) (serverIPIndex : Int) : GenResult :=
  let st : GenState := { peers := conf.Peers.enum, spgz := [], rng := 0 }
  if serverIPIndex ≥ 0 ∧ (allIPs.getD serverIPIndex.toNat ⟨"", [], false⟩).IsServerIP then
    match prepDevice env conf conf.Peers none (serverIPIndex.toNat + 1)
        (allIPs.getD serverIPIndex.toNat ⟨"", [], false⟩) st with
    | .error e => { conf := conf, err := some ("failed to write server: " ++ e) }
    | .ok st =>
      match st.peers.find? (fun e => e.2.IsServer) with
      | none => { conf := conf, err := some "failed to find generated server" }
      | some (serverIndex, server) =>
        match validateServer server with
        | some e => { conf := conf, err := some e }
        | none =>
          match runTasks env conf conf.Peers (some server)
              (executionOrder env.sched allIPs allIPs.length 0 0) st with
          | .error e => { conf := conf, err := some e }
          | .ok st =>
            match GenerateServerConfig env server conf st.spgz network with
            | .error e => { conf := conf, err := some e }
            | .ok config =>
              let peers := mapSet st.peers serverIndex { server with Config := config }
              let out := (List.range peers.length).map (fun i => mapGet peers (i + 1))
              { conf := { conf with Peers := out }, err := none }
  else { conf := conf, err := some ("index of server not valid: " ++ itoaInt serverIPIndex) }

/-- The method `Generate`.  The progress bars of the interactive mode only observe
the run and are left out; the call of `EstimateNetworkSize` that sizes them is
kept, since it can panic.  `none` is a walk that has not ended within `walkFuel`
iterations. -/
def Generate (env : Env) (conf : Configuration) : Option GenResult :=
  match ParseCIDR conf.GenerationParams.CIDR with
  | none =>
    some { conf := conf,
           err := some ("failed to parse cidr: invalid CIDR address: " ++ conf.GenerationParams.CIDR) }
  | some (firstIP, cidrNet) =>
    let actualCIDR := IPNetString cidrNet
    if actualCIDR ≠ conf.GenerationParams.CIDR then
      some { conf := conf,
             err := some ("cidr " ++ conf.GenerationParams.CIDR ++
               " is not a correctly aligned subnet; use the correctly aligned subnet " ++
               actualCIDR ++ " instead") }
    else
      match ParseIP conf.GenerationParams.Server with
      | none =>
        some { conf := conf,
               err := some ("server is not an ip address: " ++ conf.GenerationParams.Server) }
      | some parsedServer =>
        if ¬ Contains cidrNet parsedServer then
          some { conf := conf,
                 err := some ("server must be an ip address within the range " ++
                   conf.GenerationParams.CIDR ++ ": " ++ conf.GenerationParams.Server) }
        else
          let conf := if conf.GenerationParams.ResetAll then { conf with Peers := [] } else conf
          let conf := { conf with Peers := conf.Peers.map (fun w => { w with IsServer := false }) }
          match EstimateNetworkSize cidrNet with
          | .error e => some { conf := conf, err := some e }
          | .ok _ =>
            match walk cidrNet parsedServer firstIP with
            | none => none
            | some (allIPs, serverIPIndex) =>
              some (generateDevices env conf cidrNet allIPs serverIPIndex)

/-! ## Notions used to state the claims about the address walk -/

/-- The four bytes of a 32-bit address value, the first byte first. -/
def be4 (v : Nat) : List Nat :=
  [v / 2 ^ 24 % 256, v / 2 ^ 16 % 256, v / 2 ^ 8 % 256, v % 256]

/-- The 16-byte form of the IPv4 address with the 32-bit value `v`, as
`net.ParseCIDR` and `net.ParseIP` return it. -/
def ip4in6 (v : Nat) : List Nat := v4InV6Prefix ++ be4 v

/-- The final octet of the address value is neither 0 nor 255. -/
def usable (v : Nat) : Bool := v % 256 != 0 && v % 256 != 255

/-- The text of the IPv4 network with base address value `a` and prefix length
`p`, such as `10.0.0.0/24`. -/
def cidrText (a p : Nat) : String := string4 (be4 a) ++ "/" ++ itoa p

/-- The digits of one octet as the loop of `parseIPv4Fields` reads them: the value
and the digit count after a run of digits, `none` where the loop rejects the
text. -/
def ipv4Octet : List Char → Nat → Nat → Option (Nat × Nat)
  | [], val, digLen => some (val, digLen)
  | c :: cs, val, digLen =>
    if '0' ≤ c ∧ c ≤ '9' then
      if digLen = 1 ∧ val = 0 then none
      else if val * 10 + (c.toNat - 48) > 255 then none
      else ipv4Octet cs (val * 10 + (c.toNat - 48)) (digLen + 1)
    else none

/-- Value of a list of bytes whose first byte is the least significant one. -/
def leVal : List Nat → Nat
  | [] => 0
  | b :: bs => b + 256 * leVal bs

/-- The element of `allIPs` that the walk makes of the address `ip`. -/
def walkedAddr (serverIP ip : List Nat) : IPAddress :=
  { S := IPString ip, IP := ip, IsServerIP := IPEqual ip serverIP }

/-- The value of the variable `ip` of the walk once it has stepped to the address
value `v`: the step from `255.255.255.255` carries into the bytes in front of the
IPv4 address. -/
def ipAt (v : Nat) : List Nat :=
  if v < 2 ^ 32 then ip4in6 v else [0, 0, 0, 0, 0, 0, 0, 0, 0, 1, 0, 0, 0, 0, 0, 0]

/-- The element of `allIPs` that the walk makes of the IPv4 address value `v`. -/
def walkedIP (serverIP : List Nat) (v : Nat) : IPAddress :=
  { S := string4 (be4 v), IP := ip4in6 v, IsServerIP := IPEqual (ip4in6 v) serverIP }

/-- The value of `serverIPIndex` after the walk has appended the elements of a
list to `allIPs`: `k` is the index of the first of them and the last flagged
element wins. -/
def serverIndexAfter : List IPAddress → Int → Nat → Int
  | [], idx, _ => idx
  | e :: rest, idx, k => serverIndexAfter rest (if e.IsServerIP then Int.ofNat k else idx) (k + 1)

/-! ## Concrete inputs for the examples -/

/-- A deterministic stand-in for the collaborators: the `n`-th draw gives keys
named after `n`, gzip puts a three-letter mark in front of the text and the
scheduler always runs the first pending task. -/
def demoEnv : Env :=
  { GeneratePrivateKey := fun n => .ok ("priv" ++ itoa n, "pub" ++ itoa n),
    GeneratePreSharedKey := fun n => some ("psk" ++ itoa n),
    GzipString := fun s => .ok ("gz:" ++ s),
    GunzipString := fun s => .ok ⟨s.data.drop 3⟩,
    sched := fun _ => 0 }

/-- Generation parameters for the network `10.0.0.0/30` with server `10.0.0.1`. -/
def demoForm : GenerationForm :=
  { CIDR := "10.0.0.0/30", DNS := "1.1.1.1", Server := "10.0.0.1", ServerInterface := "eth0",
    Endpoint := "vpn.example.com", EndpointPort := 51820, MTU := 1280, AllowedIPs := "",
    PersistentKeepAlive := 25, Name := "device-${id}", Description := "for ${name}",
    Extra := "", RegenerateKeys := false, ResetAll := false, ForceAllowedIPs := false,
    ForcePersistentKeepAlive := false, ForceMTU := false, ForceEndpoint := false,
    ForceEndpointPort := false, ForceDNS := false, ForceName := false,
    ForceDescription := false, ForceExtra := false }

/-- The parameters `demoForm` with every force flag set and other values. -/
def forcedForm : GenerationForm :=
  { demoForm with
    DNS := "9.9.9.9", Endpoint := "vpn2.example.com", EndpointPort := 51821, MTU := 1400,
    AllowedIPs := "10.0.0.0/8", PersistentKeepAlive := 30, Name := "forced",
    Description := "forced description", Extra := "Table = off",
    ForceAllowedIPs := true, ForcePersistentKeepAlive := true, ForceMTU := true,
    ForceEndpoint := true, ForceEndpointPort := true, ForceDNS := true, ForceName := true,
    ForceDescription := true, ForceExtra := true }

/-- A configuration with the parameters `demoForm` and no prior record. -/
def demoConf : Configuration :=
  { GenerationParams := demoForm, UseGzipDuringProcessing := false, Peers := [] }

/-- A peer record in which every field is set. -/
def demoRecord : WgConfig :=
  { ID := 7, Config := "old config", Name := "laptop", Description := "my laptop",
    Extra := "Table = auto", IP := "10.0.0.2", AllowedIPs := "192.168.0.0/16",
    PersistentKeepAlive := 15, MTU := 1420, Endpoint := "old.example.com",
    EndpointPort := 4000, DNS := "8.8.8.8", IsServer := false, PrivateKey := "old-private",
    PublicKey := "old-public", PreSharedKey := "old-psk" }

/-- A server record that has no DNS value. -/
def demoServer : WgConfig :=
  { demoRecord with ID := 1, IP := "10.0.0.1", DNS := "", IsServer := true, Extra := "" }

/-- The collection that a first run of `Generate` on `demoConf` leaves (`demoConf`
itself if the run fails). -/
def demoResult : Configuration :=
  ((Generate demoEnv demoConf).map (fun r => r.conf)).getD demoConf

/-- The configuration `demoConf` with the server written as an IPv4-mapped IPv6
address. -/
def mappedServerConf : Configuration :=
  { demoConf with GenerationParams := { demoForm with Server := "::ffff:10.0.0.1" } }

/-- The configuration `demoConf` with a prior collection of five records, the
second of which carries the server flag. -/
def longerConf : Configuration :=
  { demoConf with
    Peers := [{ demoRecord with ID := 1, Name := "one" },
              { demoServer with ID := 2, Name := "two" },
              { demoRecord with ID := 3, Name := "three" },
              { demoRecord with ID := 4, Name := "four" },
              { demoRecord with ID := 5, Name := "five" }] }

/-- The collection that `Generate` leaves on `longerConf` (`longerConf` itself if
the run fails). -/
def longerResult : Configuration :=
  ((Generate demoEnv longerConf).map (fun r => r.conf)).getD longerConf

/-! ## Texts of the specification: templates and rendered blocks -/

/-- The texts `segs` written one after the other with `sep` between two
neighbours. -/
def joinWith (sep : List Char) : List (List Char) → List Char
  | [] => []
  | [a] => a
  | a :: b :: rest => a ++ sep ++ joinWith sep (b :: rest)

/-- The lines `ls` as one text, each line ended by a line feed. -/
def unlines : List String → String
  | [] => ""
  | l :: ls => l ++ "\n" ++ unlines ls

/-- The four lines of the interface section of a peer block. -/
def interfaceLines (w : WgConfig) : List String :=
  ["PrivateKey = " ++ w.PrivateKey, "Address = " ++ w.IP ++ "/32", "DNS = " ++ w.DNS,
   "MTU = " ++ itoa w.MTU]

/-- The verbatim extra fragment of a record: no line when `Extra` is empty. -/
def extraLines (w : WgConfig) : List String :=
  if w.Extra = "" then [] else [w.Extra]

/-- The keepalive line of a peer block: present when the value is positive. -/
def keepaliveLines (w : WgConfig) : List String :=
  if w.PersistentKeepAlive > 0 then ["PersistentKeepAlive = 25"] else []

/-- The lines of the peer section of a peer block. -/
def peerLines (w server : WgConfig) : List String :=
  ["PublicKey = " ++ server.PublicKey, "PresharedKey = " ++ w.PreSharedKey,
   "Endpoint = " ++ w.Endpoint ++ ":" ++ itoa w.EndpointPort,
   "AllowedIPs = " ++ w.AllowedIPs] ++ keepaliveLines w

/-- The peer block in the key order of the specification: the extra fragment
follows the MTU line. -/
def specPeerBlock (w server : WgConfig) : String :=
  unlines (["[Interface]"] ++ interfaceLines w ++ extraLines w ++ ["", "[Peer]"] ++
    peerLines w server)

/-- The peer block with the extra fragment directly after the section header. -/
def peerBlock (w server : WgConfig) : String :=
  unlines (["[Interface]"] ++ extraLines w ++ interfaceLines w ++ ["", "[Peer]"] ++
    peerLines w server)

/-- The test with which the walk passes over an address: the text of the address
ends in `.0` or `.255`. -/
def walkSkips (ip : List Nat) : Bool :=
  HasSuffix (IPString ip) ".0" || HasSuffix (IPString ip) ".255"

/-- The texts `ss` written one after the other. -/
def joinAll : List String → String
  | [] => ""
  | s :: rest => s ++ joinAll rest

/-- The compact stanza of a peer record in the server block: public key,
single-host allowed-ip route and pre-shared key. -/
def peerStanza (w : WgConfig) : String :=
  "[Peer]\nPublicKey = " ++ w.PublicKey ++
    "\nAllowedIPs = " ++ w.IP ++ "/32\nPresharedKey = " ++ w.PreSharedKey ++ "\n\n"

/-- The text `z` is what a task puts into the spool for the stanza `s`: the
result of `GzipString` when gzip is in use, the stanza itself otherwise. -/
def spooled (env : Env) (useGzip : Bool) (s z : String) : Prop :=
  if useGzip then env.GzipString s = .ok z else z = s

/-- The server block in the words of the specification: the interface section
followed by the stanzas of the records that are not the server, in the order of
the collection, which is the ascending order of the ids. -/
def specServerBlock (server : WgConfig) (p : GenerationForm) (network : IPNet)
    (peers : List WgConfig) : String :=
  serverInterface server p network ++
    joinAll ((peers.filter (fun w => !w.IsServer)).map peerStanza)

/-! ## Further concrete inputs -/

/-- The configuration `longerConf`, with its five prior records, and ResetAll
set. -/
def resetConf : Configuration :=
  { longerConf with GenerationParams := { demoForm with ResetAll := true } }

/-- The end-to-end example of the specification: the network `192.168.1.0/24`
with server `192.168.1.1` and no prior record. -/
def homeConf : Configuration :=
  { demoConf with
    GenerationParams := { demoForm with CIDR := "192.168.1.0/24", Server := "192.168.1.1" } }

/-- The collection that `Generate` leaves on `homeConf` (`homeConf` itself if the
run fails). -/
def homeResult : Configuration :=
  ((Generate demoEnv homeConf).map (fun r => r.conf)).getD homeConf

/-- The collaborators of `demoEnv` with a scheduler that runs the second pending
task of a batch first. -/
def lifoEnv : Env := { demoEnv with sched := fun _ => 1 }

/-- The collection that `Generate` leaves on `demoConf` with the scheduler of
`lifoEnv` (`demoConf` itself if the run fails). -/
def lifoResult : Configuration :=
  ((Generate lifoEnv demoConf).map (fun r => r.conf)).getD demoConf

/-- The configuration `demoConf` with gzip in use for the spool. -/
def gzipConf : Configuration := { demoConf with UseGzipDuringProcessing := true }

/-- The collection that `Generate` leaves on `gzipConf` (`gzipConf` itself if the
run fails). -/
def gzipResult : Configuration :=
  ((Generate demoEnv gzipConf).map (fun r => r.conf)).getD gzipConf

/-- The network `10.0.0.0/16` with the server `10.0.1.0`, an address inside the
network whose text ends in `.0`, and no prior record. -/
def skippedConf : Configuration :=
  { demoConf with
    GenerationParams := { demoForm with CIDR := "10.0.0.0/16", Server := "10.0.1.0" } }

/-- The network `10.0.0.0/24` with the server `10.0.0.255` and the five prior
records of `longerConf`, the second of which carries the server flag. -/
def lastServerConf : Configuration :=
  { longerConf with
    GenerationParams := { demoForm with CIDR := "10.0.0.0/24", Server := "10.0.0.255" } }

/-! ## The map `conf.peers` -/

theorem mapGet_nil (k : Nat) : mapGet [] k = WgConfig.zero := rfl

theorem mapGet_cons (e : Nat × WgConfig) (m : List (Nat × WgConfig)) (k : Nat) :
    mapGet (e :: m) k = if e.1 = k then e.2 else mapGet m k := by
  unfold mapGet
  by_cases h : e.1 = k
  · simp [List.find?_cons, h]
  · have hb : (e.1 == k) = false := by simpa using h
    simp [List.find?_cons, h, hb]

theorem mapGet_of_not_mem (m : List (Nat × WgConfig)) (k : Nat)
    (h : k ∉ m.map Prod.fst) : mapGet m k = WgConfig.zero := by
  induction m with
  | nil => rfl
  | cons e m ih =>
    simp only [List.map_cons, List.mem_cons, not_or] at h
    rw [mapGet_cons, if_neg (fun hc => h.1 hc.symm), ih h.2]

theorem any_key_iff (m : List (Nat × WgConfig)) (k : Nat) :
    m.any (fun e => e.1 == k) = true ↔ k ∈ m.map Prod.fst := by
  simp only [List.any_eq_true, beq_iff_eq, List.mem_map]

theorem mapGet_map_replace (m : List (Nat × WgConfig)) (k : Nat) (v : WgConfig) (k' : Nat) :
    mapGet (m.map (fun e => if e.1 == k then (k, v) else e)) k' =
      if k' = k ∧ k ∈ m.map Prod.fst then v else mapGet m k' := by
  induction m with
  | nil => simp [mapGet_nil]
  | cons e m ih =>
    rw [List.map_cons, mapGet_cons, ih, mapGet_cons]
    by_cases hek : e.1 = k
    · by_cases hkk : k' = k
      · subst hkk; simp [hek]
      · have : ¬ k = k' := fun h => hkk h.symm
        simp [hek, hkk, this]
    · have hb : (e.1 == k) = false := by simpa using hek
      simp only [hb, Bool.false_eq_true, if_false, List.map_cons, List.mem_cons]
      by_cases hkk : k' = k
      · subst hkk
        have h2 : ¬ k' = e.1 := fun h => hek h.symm
        simp only [h2, false_or, if_neg hek]
      · simp [hkk]

/-- Reading a map after an assignment. -/
theorem mapGet_mapSet (m : List (Nat × WgConfig)) (k : Nat) (v : WgConfig) (k' : Nat) :
    mapGet (mapSet m k v) k' = if k' = k then v else mapGet m k' := by
  unfold mapSet
  by_cases hany : m.any (fun e => e.1 == k) = true
  · rw [if_pos hany, mapGet_map_replace]
    have hmem := (any_key_iff m k).1 hany
    by_cases hkk : k' = k <;> simp [hkk, hmem]
  · rw [if_neg hany]
    have hnot : k ∉ m.map Prod.fst := fun h => hany ((any_key_iff m k).2 h)
    induction m with
    | nil =>
      simp only [List.nil_append, mapGet_cons, mapGet_nil]
      by_cases hkk : k' = k
      · subst hkk; simp
      · have : ¬ k = k' := fun h => hkk h.symm
        simp [hkk, this]
    | cons e m ih =>
      simp only [List.map_cons, List.mem_cons, not_or] at hnot
      have hany2 : ¬ m.any (fun e => e.1 == k) = true :=
        fun h => hnot.2 ((any_key_iff m k).1 h)
      rw [List.cons_append, mapGet_cons, ih hany2 hnot.2, mapGet_cons]
      by_cases hek : e.1 = k'
      · have : ¬ k' = k := fun h => hnot.1 (by rw [← h, hek])
        simp [hek, this]
      · simp [hek]

/-- The keys of a map after an assignment. -/
theorem mapSet_keys (m : List (Nat × WgConfig)) (k : Nat) (v : WgConfig) :
    (mapSet m k v).map Prod.fst =
      if k ∈ m.map Prod.fst then m.map Prod.fst else m.map Prod.fst ++ [k] := by
  unfold mapSet
  by_cases hmem : k ∈ m.map Prod.fst
  · rw [if_pos ((any_key_iff m k).2 hmem), if_pos hmem, List.map_map]
    apply List.map_congr_left
    intro e _
    by_cases hek : e.1 = k <;> simp [hek]
  · have hany : ¬ m.any (fun e => e.1 == k) = true := fun h => hmem ((any_key_iff m k).1 h)
    rw [if_neg hany, if_neg hmem, List.map_append]
    rfl

theorem mapSet_keys_nodup (m : List (Nat × WgConfig)) (k : Nat) (v : WgConfig)
    (h : (m.map Prod.fst).Nodup) : ((mapSet m k v).map Prod.fst).Nodup := by
  rw [mapSet_keys]
  by_cases hmem : k ∈ m.map Prod.fst
  · rw [if_pos hmem]; exact h
  · rw [if_neg hmem]
    exact List.Nodup.append h (List.nodup_singleton k) (by simpa using hmem)

theorem mem_mapSet_keys (m : List (Nat × WgConfig)) (k : Nat) (v : WgConfig) (k' : Nat) :
    k' ∈ (mapSet m k v).map Prod.fst ↔ k' = k ∨ k' ∈ m.map Prod.fst := by
  rw [mapSet_keys]
  by_cases hmem : k ∈ m.map Prod.fst
  · rw [if_pos hmem]
    constructor
    · exact Or.inr
    · rintro (rfl | h)
      · exact hmem
      · exact h
  · rw [if_neg hmem, List.mem_append, List.mem_singleton]
    tauto

/-! ## Bytes, text and containment of IPv4 addresses -/

theorem range16 : List.range 16 = [0, 1, 2, 3, 4, 5, 6, 7, 8, 9, 10, 11, 12, 13, 14, 15] := by
  decide

theorem as16_v4 (v : Nat) (hv : v < 2 ^ 32) : as16 (0xffff00000000 + v) = ip4in6 v := by
  unfold as16 ip4in6 v4InV6Prefix be4
  rw [range16]
  simp only [List.map, List.cons_append, List.nil_append]
  norm_num
  refine ⟨?_, ?_, ?_, ?_, ?_, ?_, ?_, ?_, ?_, ?_, ?_, ?_, ?_, ?_, ?_⟩ <;> omega

/-- The address that follows `255.255.255.255` in 16-byte form. -/
theorem NextIP_ip4in6 (v : Nat) (hv : v + 1 < 2 ^ 32) : NextIP (ip4in6 v) = ip4in6 (v + 1) := by
  unfold NextIP ip4in6 v4InV6Prefix be4
  simp only [List.cons_append, List.nil_append, List.reverse_cons, List.reverse_nil,
    List.append_assoc]
  by_cases h3 : v % 256 = 255
  · by_cases h2 : v / 2 ^ 8 % 256 = 255
    · by_cases h1 : v / 2 ^ 16 % 256 = 255
      · have e3 : (v % 256 + 1) % 256 = 0 := by omega
        have e2 : (v / 2 ^ 8 % 256 + 1) % 256 = 0 := by omega
        have e1 : (v / 2 ^ 16 % 256 + 1) % 256 = 0 := by omega
        have e0 : (v / 2 ^ 24 % 256 + 1) % 256 > 0 := by omega
        simp only [NextIP.carry, e3, e2, e1, e0, gt_iff_lt, lt_self_iff_false, if_false, if_true,
          List.reverse_cons, List.reverse_nil, List.nil_append, List.cons_append,
          List.append_assoc, List.cons.injEq, and_true, true_and]
        refine ⟨?_, ?_, ?_, ?_⟩ <;> omega
      · have e3 : (v % 256 + 1) % 256 = 0 := by omega
        have e2 : (v / 2 ^ 8 % 256 + 1) % 256 = 0 := by omega
        have e1 : (v / 2 ^ 16 % 256 + 1) % 256 > 0 := by omega
        simp only [NextIP.carry, e3, e2, e1, gt_iff_lt, lt_self_iff_false, if_false, if_true,
          List.reverse_cons, List.reverse_nil, List.nil_append, List.cons_append,
          List.append_assoc, List.cons.injEq, and_true, true_and]
        refine ⟨?_, ?_, ?_, ?_⟩ <;> omega
    · have e3 : (v % 256 + 1) % 256 = 0 := by omega
      have e2 : (v / 2 ^ 8 % 256 + 1) % 256 > 0 := by omega
      simp only [NextIP.carry, e3, e2, gt_iff_lt, lt_self_iff_false, if_false, if_true,
        List.reverse_cons, List.reverse_nil, List.nil_append, List.cons_append,
        List.append_assoc, List.cons.injEq, and_true, true_and]
      refine ⟨?_, ?_, ?_, ?_⟩ <;> omega
  · have e3 : (v % 256 + 1) % 256 > 0 := by omega
    simp only [NextIP.carry, e3, gt_iff_lt, if_true,
      List.reverse_cons, List.reverse_nil, List.nil_append, List.cons_append,
      List.append_assoc, List.cons.injEq, and_true, true_and]
    refine ⟨?_, ?_, ?_, ?_⟩ <;> omega

/-- The 16 bytes that `NextIP` makes of `255.255.255.255`. -/
theorem NextIP_ip4in6_last :
    NextIP (ip4in6 (2 ^ 32 - 1)) = [0, 0, 0, 0, 0, 0, 0, 0, 0, 1, 0, 0, 0, 0, 0, 0] := by
  decide

theorem IPString_ip4in6 (v : Nat) : IPString (ip4in6 v) = string4 (be4 v) := by
  unfold IPString To4 ip4in6
  simp [v4InV6Prefix, be4]

/-- Matching a text that ends in a dot against digits followed by a dot. -/
theorem isPrefixOf_dot (P D Y : List Char) (hP : '.' ∉ P) (hD : '.' ∉ D) :
    (P ++ ['.']).isPrefixOf (D ++ '.' :: Y) = decide (P = D) := by
  induction P generalizing D with
  | nil =>
    cases D with
    | nil => simp [List.isPrefixOf]
    | cons d D =>
      have hd : ¬ '.' = d := fun h => hD (List.mem_cons.2 (Or.inl h))
      have hd2 : ('.' == d) = false := by simpa using hd
      simp [List.isPrefixOf, hd2]
  | cons p P ih =>
    cases D with
    | nil =>
      have hp : ¬ p = '.' := fun h => hP (List.mem_cons.2 (Or.inl h.symm))
      have hp2 : (p == '.') = false := by simpa using hp
      simp [List.isPrefixOf, hp2]
    | cons d D =>
      have hP2 : '.' ∉ P := fun h => hP (List.mem_cons_of_mem _ h)
      have hD2 : '.' ∉ D := fun h => hD (List.mem_cons_of_mem _ h)
      rw [List.cons_append, List.cons_append, List.isPrefixOf_cons₂, ih D hP2 hD2]
      by_cases hpd : p = d
      · subst hpd; simp
      · have : (p == d) = false := by simpa using hpd
        simp [this, hpd]

set_option maxRecDepth 100000 in
theorem itoa_octet : ∀ d < 256, '.' ∉ (itoa d).data.reverse ∧
    (['0'] = (itoa d).data.reverse ↔ d = 0) ∧
    (['5', '5', '2'] = (itoa d).data.reverse ↔ d = 255) := by
  decide

theorem string4_data_reverse (a b c d : Nat) :
    (string4 [a, b, c, d]).data.reverse =
      (itoa d).data.reverse ++ '.' :: ((itoa a).data ++ '.' :: ((itoa b).data ++ '.' ::
        (itoa c).data)).reverse := by
  simp [string4, String.data_append]

/-- The walk skips an IPv4 address exactly when its last octet is 0 or 255. -/
theorem hasSuffix_ip4 (v : Nat) :
    (HasSuffix (string4 (be4 v)) ".0" || HasSuffix (string4 (be4 v)) ".255") = !usable v := by
  have hd : v % 256 < 256 := Nat.mod_lt _ (by norm_num)
  obtain ⟨h1, h2, h3⟩ := itoa_octet (v % 256) hd
  have e0 : HasSuffix (string4 (be4 v)) ".0" = decide (v % 256 = 0) := by
    unfold HasSuffix be4
    rw [List.isSuffixOf, string4_data_reverse]
    have : (".0" : String).data.reverse = ['0'] ++ ['.'] := by decide
    rw [this, isPrefixOf_dot _ _ _ (by decide) h1]
    exact decide_eq_decide.2 h2
  have e255 : HasSuffix (string4 (be4 v)) ".255" = decide (v % 256 = 255) := by
    unfold HasSuffix be4
    rw [List.isSuffixOf, string4_data_reverse]
    have : (".255" : String).data.reverse = ['5', '5', '2'] ++ ['.'] := by decide
    rw [this, isPrefixOf_dot _ _ _ (by decide) h1]
    exact decide_eq_decide.2 h3
  rw [e0, e255]
  unfold usable
  by_cases ha : v % 256 = 0
  · simp [ha]
  · by_cases hb : v % 256 = 255
    · simp [hb]
    · simp [ha, hb]

set_option maxRecDepth 1000000 in
theorem land_mask_byte : ∀ j < 9, ∀ x < 256,
    x &&& (255 - 255 / 2 ^ j) = x / 2 ^ (8 - j) * 2 ^ (8 - j) := by
  decide

theorem maskedEq4 (a0 a1 a2 a3 v0 v1 v2 v3 m0 m1 m2 m3 : Nat) :
    maskedEq [a0, a1, a2, a3] [m0, m1, m2, m3] [v0, v1, v2, v3] =
      decide (a0 &&& m0 = v0 &&& m0 ∧ a1 &&& m1 = v1 &&& m1 ∧ a2 &&& m2 = v2 &&& m2 ∧
        a3 &&& m3 = v3 &&& m3) := by
  simp only [maskedEq]
  by_cases h0 : a0 &&& m0 = v0 &&& m0 <;> by_cases h1 : a1 &&& m1 = v1 &&& m1 <;>
    by_cases h2 : a2 &&& m2 = v2 &&& m2 <;> by_cases h3 : a3 &&& m3 = v3 &&& m3 <;>
    simp [h0, h1, h2, h3]

set_option maxHeartbeats 4000000 in
theorem maskedEq_cidr (a0 a1 a2 a3 v0 v1 v2 v3 p : Nat)
    (ha0 : a0 < 256) (ha1 : a1 < 256) (ha2 : a2 < 256) (ha3 : a3 < 256)
    (hv0 : v0 < 256) (hv1 : v1 < 256) (hv2 : v2 < 256) (hv3 : v3 < 256) (hp : p ≤ 32)
    (hal : (16777216 * a0 + 65536 * a1 + 256 * a2 + a3) % 2 ^ (32 - p) = 0) :
    maskedEq [a0, a1, a2, a3] (CIDRMask.bytes 4 p) [v0, v1, v2, v3] =
      decide (16777216 * a0 + 65536 * a1 + 256 * a2 + a3 ≤
          16777216 * v0 + 65536 * v1 + 256 * v2 + v3 ∧
        16777216 * v0 + 65536 * v1 + 256 * v2 + v3 <
          16777216 * a0 + 65536 * a1 + 256 * a2 + a3 + 2 ^ (32 - p)) := by
  have L : ∀ j < 9, ∀ x < 256, x &&& (255 - 255 / 2 ^ j) = x / 2 ^ (8 - j) * 2 ^ (8 - j) :=
    land_mask_byte
  have l0 := L 0 (by norm_num); have l1 := L 1 (by norm_num); have l2 := L 2 (by norm_num)
  have l3 := L 3 (by norm_num); have l4 := L 4 (by norm_num); have l5 := L 5 (by norm_num)
  have l6 := L 6 (by norm_num); have l7 := L 7 (by norm_num); have l8 := L 8 (by norm_num)
  norm_num at l1 l2 l3 l4 l5 l6 l7 l8
  interval_cases p <;>
    simp only [CIDRMask.bytes, ge_iff_le, Nat.reduceLeDiff, if_true, if_false, Nat.reduceSub,
      Nat.reducePow, Nat.reduceDiv] at hal ⊢ <;>
    rw [maskedEq4] <;>
    apply decide_eq_decide.2 <;>
    simp only [l1 _ ha0, l2 _ ha0, l3 _ ha0, l4 _ ha0,
      l5 _ ha0, l6 _ ha0, l7 _ ha0, l8 _ ha0, l1 _ ha1, l2 _ ha1, l3 _ ha1, l4 _ ha1,
      l5 _ ha1, l6 _ ha1, l7 _ ha1, l8 _ ha1, l1 _ ha2, l2 _ ha2, l3 _ ha2, l4 _ ha2,
      l5 _ ha2, l6 _ ha2, l7 _ ha2, l8 _ ha2, l1 _ ha3, l2 _ ha3, l3 _ ha3, l4 _ ha3,
      l5 _ ha3, l6 _ ha3, l7 _ ha3, l8 _ ha3, l1 _ hv0, l2 _ hv0, l3 _ hv0, l4 _ hv0,
      l5 _ hv0, l6 _ hv0, l7 _ hv0, l8 _ hv0, l1 _ hv1, l2 _ hv1, l3 _ hv1, l4 _ hv1,
      l5 _ hv1, l6 _ hv1, l7 _ hv1, l8 _ hv1, l1 _ hv2, l2 _ hv2, l3 _ hv2, l4 _ hv2,
      l5 _ hv2, l6 _ hv2, l7 _ hv2, l8 _ hv2, l1 _ hv3, l2 _ hv3, l3 _ hv3, l4 _ hv3,
      l5 _ hv3, l6 _ hv3, l7 _ hv3, l8 _ hv3, Nat.and_zero, and_true, true_and, true_iff] <;>
    omega

theorem CIDRMask_bytes_length (l n : Nat) : (CIDRMask.bytes l n).length = l := by
  induction l generalizing n with
  | zero => rfl
  | succ l ih =>
    unfold CIDRMask.bytes
    split <;> simp [ih]

theorem CIDRMask_32 (p : Nat) (hp : p ≤ 32) : CIDRMask p 32 = CIDRMask.bytes 4 p := by
  unfold CIDRMask
  simp [Nat.not_lt.2 hp]

theorem be4_value (a : Nat) (ha : a < 2 ^ 32) :
    16777216 * (a / 2 ^ 24 % 256) + 65536 * (a / 2 ^ 16 % 256) + 256 * (a / 2 ^ 8 % 256) +
      a % 256 = a := by
  omega

/-- An aligned IPv4 network contains exactly the addresses of its range. -/
theorem Contains_ip4 (a p v : Nat) (hp : p ≤ 32) (ha : a < 2 ^ 32) (hv : v < 2 ^ 32)
    (hal : a % 2 ^ (32 - p) = 0) :
    Contains ⟨be4 a, CIDRMask p 32⟩ (ip4in6 v) = decide (a ≤ v ∧ v < a + 2 ^ (32 - p)) := by
  have hm : (CIDRMask.bytes 4 p).length = 4 := CIDRMask_bytes_length 4 p
  have hnm : networkNumberAndMask ⟨be4 a, CIDRMask p 32⟩ = (be4 a, CIDRMask.bytes 4 p) := by
    unfold networkNumberAndMask To4
    simp [be4, CIDRMask_32 p hp, hm]
  have h4 : To4 (ip4in6 v) = some (be4 v) := by
    unfold To4 ip4in6
    simp [v4InV6Prefix, be4]
  unfold Contains
  simp only [hnm, h4]
  have hl : (be4 v).length = (be4 a).length := rfl
  rw [if_neg (by simp [hl])]
  have key := maskedEq_cidr (a / 2 ^ 24 % 256) (a / 2 ^ 16 % 256) (a / 2 ^ 8 % 256) (a % 256)
    (v / 2 ^ 24 % 256) (v / 2 ^ 16 % 256) (v / 2 ^ 8 % 256) (v % 256) p
    (Nat.mod_lt _ (by norm_num)) (Nat.mod_lt _ (by norm_num)) (Nat.mod_lt _ (by norm_num))
    (Nat.mod_lt _ (by norm_num)) (Nat.mod_lt _ (by norm_num)) (Nat.mod_lt _ (by norm_num))
    (Nat.mod_lt _ (by norm_num)) (Nat.mod_lt _ (by norm_num)) hp
    (by rw [be4_value a ha]; exact hal)
  rw [be4_value a ha, be4_value v hv] at key
  exact key

/-- An IPv4 network does not contain the address that follows `255.255.255.255`. -/
theorem Contains_wrap (a p : Nat) (hp : p ≤ 32) :
    Contains ⟨be4 a, CIDRMask p 32⟩ [0, 0, 0, 0, 0, 0, 0, 0, 0, 1, 0, 0, 0, 0, 0, 0] = false := by
  have hm : (CIDRMask.bytes 4 p).length = 4 := CIDRMask_bytes_length 4 p
  have hnm : networkNumberAndMask ⟨be4 a, CIDRMask p 32⟩ = (be4 a, CIDRMask.bytes 4 p) := by
    unfold networkNumberAndMask To4
    simp [be4, CIDRMask_32 p hp, hm]
  unfold Contains
  simp only [hnm]
  have h4 : To4 [0, 0, 0, 0, 0, 0, 0, 0, 0, 1, 0, 0, 0, 0, 0, 0] = none := by decide
  rw [h4]
  simp [be4]

/-! ## The rule merge engine: what each pass does to each field -/

theorem applySoftRules_ID (p : GenerationForm) (w : WgConfig) :
    (applySoftRules p w).ID = w.ID := by
  simp only [applySoftRules, apply_ite WgConfig.ID, ite_self]

theorem applySoftRules_IP (p : GenerationForm) (w : WgConfig) :
    (applySoftRules p w).IP = w.IP := by
  simp only [applySoftRules, apply_ite WgConfig.IP, ite_self]

theorem applySoftRules_IsServer (p : GenerationForm) (w : WgConfig) :
    (applySoftRules p w).IsServer = w.IsServer := by
  simp only [applySoftRules, apply_ite WgConfig.IsServer, ite_self]

theorem applySoftRules_Config (p : GenerationForm) (w : WgConfig) :
    (applySoftRules p w).Config = w.Config := by
  simp only [applySoftRules, apply_ite WgConfig.Config, ite_self]

theorem applySoftRules_PrivateKey (p : GenerationForm) (w : WgConfig) :
    (applySoftRules p w).PrivateKey = w.PrivateKey := by
  simp only [applySoftRules, apply_ite WgConfig.PrivateKey, ite_self]

theorem applySoftRules_PublicKey (p : GenerationForm) (w : WgConfig) :
    (applySoftRules p w).PublicKey = w.PublicKey := by
  simp only [applySoftRules, apply_ite WgConfig.PublicKey, ite_self]

theorem applySoftRules_PreSharedKey (p : GenerationForm) (w : WgConfig) :
    (applySoftRules p w).PreSharedKey = w.PreSharedKey := by
  simp only [applySoftRules, apply_ite WgConfig.PreSharedKey, ite_self]

theorem applySoftRules_Name (p : GenerationForm) (w : WgConfig) :
    (applySoftRules p w).Name =
      if w.Name = "" then ReplaceAll p.Name "${id}" (itoa w.ID) else w.Name := by
  simp only [applySoftRules, apply_ite WgConfig.Name, ite_self]

theorem applySoftRules_Description (p : GenerationForm) (w : WgConfig) :
    (applySoftRules p w).Description =
      if w.Description = "" then
        ReplaceAll (ReplaceAll p.Description "${id}" (itoa w.ID)) "${name}"
          (applySoftRules p w).Name
      else w.Description := by
  simp only [applySoftRules, apply_ite WgConfig.Description, apply_ite WgConfig.Name,
    apply_ite WgConfig.ID, ite_self]

theorem applySoftRules_Extra (p : GenerationForm) (w : WgConfig) :
    (applySoftRules p w).Extra =
      if w.Extra = "" then
        ReplaceAll (ReplaceAll p.Extra "${id}" (itoa w.ID)) "${name}" (applySoftRules p w).Name
      else w.Extra := by
  simp only [applySoftRules, apply_ite WgConfig.Extra, apply_ite WgConfig.Name,
    apply_ite WgConfig.ID, ite_self]

theorem applySoftRules_AllowedIPs (p : GenerationForm) (w : WgConfig) :
    (applySoftRules p w).AllowedIPs =
      if w.AllowedIPs = "" then (if p.AllowedIPs = "" then DefaultAllowedIPs else p.AllowedIPs)
      else w.AllowedIPs := by
  simp only [applySoftRules, apply_ite WgConfig.AllowedIPs, ite_self]

theorem applySoftRules_DNS (p : GenerationForm) (w : WgConfig) :
    (applySoftRules p w).DNS = if w.DNS = "" ∧ ¬ w.IsServer then p.DNS else w.DNS := by
  simp only [applySoftRules, apply_ite WgConfig.DNS, apply_ite WgConfig.IsServer, ite_self]

theorem applySoftRules_PersistentKeepAlive (p : GenerationForm) (w : WgConfig) :
    (applySoftRules p w).PersistentKeepAlive =
      if w.PersistentKeepAlive = 0 then p.PersistentKeepAlive else w.PersistentKeepAlive := by
  simp only [applySoftRules, apply_ite WgConfig.PersistentKeepAlive, ite_self]

theorem applySoftRules_MTU (p : GenerationForm) (w : WgConfig) :
    (applySoftRules p w).MTU = if w.MTU = 0 then DefaultMTU else w.MTU := by
  simp only [applySoftRules, apply_ite WgConfig.MTU, ite_self]

theorem applySoftRules_Endpoint (p : GenerationForm) (w : WgConfig) :
    (applySoftRules p w).Endpoint = if w.Endpoint = "" then p.Endpoint else w.Endpoint := by
  simp only [applySoftRules, apply_ite WgConfig.Endpoint, ite_self]

theorem applySoftRules_EndpointPort (p : GenerationForm) (w : WgConfig) :
    (applySoftRules p w).EndpointPort =
      if w.EndpointPort = 0 then p.EndpointPort else w.EndpointPort := by
  simp only [applySoftRules, apply_ite WgConfig.EndpointPort, ite_self]

theorem applyForcedRules_ID (p : GenerationForm) (w : WgConfig) :
    (applyForcedRules p w).ID = w.ID := by
  simp only [applyForcedRules, apply_ite WgConfig.ID, ite_self]

theorem applyForcedRules_IP (p : GenerationForm) (w : WgConfig) :
    (applyForcedRules p w).IP = w.IP := by
  simp only [applyForcedRules, apply_ite WgConfig.IP, ite_self]

theorem applyForcedRules_IsServer (p : GenerationForm) (w : WgConfig) :
    (applyForcedRules p w).IsServer = w.IsServer := by
  simp only [applyForcedRules, apply_ite WgConfig.IsServer, ite_self]

theorem applyForcedRules_Config (p : GenerationForm) (w : WgConfig) :
    (applyForcedRules p w).Config = w.Config := by
  simp only [applyForcedRules, apply_ite WgConfig.Config, ite_self]

theorem applyForcedRules_PrivateKey (p : GenerationForm) (w : WgConfig) :
    (applyForcedRules p w).PrivateKey = w.PrivateKey := by
  simp only [applyForcedRules, apply_ite WgConfig.PrivateKey, ite_self]

theorem applyForcedRules_PublicKey (p : GenerationForm) (w : WgConfig) :
    (applyForcedRules p w).PublicKey = w.PublicKey := by
  simp only [applyForcedRules, apply_ite WgConfig.PublicKey, ite_self]

theorem applyForcedRules_PreSharedKey (p : GenerationForm) (w : WgConfig) :
    (applyForcedRules p w).PreSharedKey = w.PreSharedKey := by
  simp only [applyForcedRules, apply_ite WgConfig.PreSharedKey, ite_self]

theorem applyForcedRules_AllowedIPs (p : GenerationForm) (w : WgConfig) :
    (applyForcedRules p w).AllowedIPs =
      if p.ForceAllowedIPs then p.AllowedIPs else w.AllowedIPs := by
  simp only [applyForcedRules, apply_ite WgConfig.AllowedIPs, ite_self]

theorem applyForcedRules_PersistentKeepAlive (p : GenerationForm) (w : WgConfig) :
    (applyForcedRules p w).PersistentKeepAlive =
      if p.ForcePersistentKeepAlive then p.PersistentKeepAlive else w.PersistentKeepAlive := by
  simp only [applyForcedRules, apply_ite WgConfig.PersistentKeepAlive, ite_self]

theorem applyForcedRules_MTU (p : GenerationForm) (w : WgConfig) :
    (applyForcedRules p w).MTU = if p.ForceMTU then p.MTU else w.MTU := by
  simp only [applyForcedRules, apply_ite WgConfig.MTU, ite_self]

theorem applyForcedRules_Endpoint (p : GenerationForm) (w : WgConfig) :
    (applyForcedRules p w).Endpoint = if p.ForceEndpoint then p.Endpoint else w.Endpoint := by
  simp only [applyForcedRules, apply_ite WgConfig.Endpoint, ite_self]

theorem applyForcedRules_EndpointPort (p : GenerationForm) (w : WgConfig) :
    (applyForcedRules p w).EndpointPort =
      if p.ForceEndpointPort then p.EndpointPort else w.EndpointPort := by
  simp only [applyForcedRules, apply_ite WgConfig.EndpointPort, ite_self]

theorem applyForcedRules_DNS (p : GenerationForm) (w : WgConfig) :
    (applyForcedRules p w).DNS = if p.ForceDNS ∧ ¬ w.IsServer then p.DNS else w.DNS := by
  simp only [applyForcedRules, apply_ite WgConfig.DNS, apply_ite WgConfig.IsServer, ite_self]

theorem applyForcedRules_Name (p : GenerationForm) (w : WgConfig) :
    (applyForcedRules p w).Name = if p.ForceName then p.Name else w.Name := by
  simp only [applyForcedRules, apply_ite WgConfig.Name, ite_self]

theorem applyForcedRules_Description (p : GenerationForm) (w : WgConfig) :
    (applyForcedRules p w).Description =
      if p.ForceDescription then p.Description else w.Description := by
  simp only [applyForcedRules, apply_ite WgConfig.Description, ite_self]

theorem applyForcedRules_Extra (p : GenerationForm) (w : WgConfig) :
    (applyForcedRules p w).Extra = if p.ForceExtra then p.Extra else w.Extra := by
  simp only [applyForcedRules, apply_ite WgConfig.Extra, ite_self]

/-- The result of `applyKeyRules` when both generators succeed or are not called,
written out. -/
theorem applyKeyRules_eq (env : Env) (p : GenerationForm) (rng : Nat) (w : WgConfig) :
    applyKeyRules env p rng w =
      if w.PrivateKey = "" ∨ w.PublicKey = "" ∨ p.RegenerateKeys then
        match env.GeneratePrivateKey rng with
        | .error e => .error ("error generating private key: " ++ e)
        | .ok (priv, pub) =>
          if w.PreSharedKey = "" ∨ p.RegenerateKeys then
            match env.GeneratePreSharedKey (rng + 1) with
            | none => .error "panic: failed to read the random source"
            | some psk =>
              .ok ({ w with PrivateKey := priv, PublicKey := pub, PreSharedKey := psk }, rng + 2)
          else .ok ({ w with PrivateKey := priv, PublicKey := pub }, rng + 1)
      else if w.PreSharedKey = "" ∨ p.RegenerateKeys then
        match env.GeneratePreSharedKey rng with
        | none => .error "panic: failed to read the random source"
        | some psk => .ok ({ w with PreSharedKey := psk }, rng + 1)
      else .ok (w, rng) := by
  by_cases h1 : w.PrivateKey = "" ∨ w.PublicKey = "" ∨ p.RegenerateKeys = true <;>
    by_cases h2 : w.PreSharedKey = "" ∨ p.RegenerateKeys = true <;>
    rcases hg : env.GeneratePrivateKey rng with e | ⟨priv, pub⟩ <;>
    rcases hs1 : env.GeneratePreSharedKey (rng + 1) with _ | psk1 <;>
    rcases hs0 : env.GeneratePreSharedKey rng with _ | psk0 <;>
    simp only [applyKeyRules, h1, h2, hg, hs0, hs1, if_true, if_false]

/-! ## Claims about the rule merge engine -/

/-- C9: `validateServer` returns an error if and only if the record's ID is 0, or
its PublicKey is empty, or its PrivateKey is empty, or its IP is empty; for every
other record it returns nil. -/
theorem validateServer_error_iff (server : WgConfig) :
    validateServer server ≠ none ↔
      (server.ID = 0 ∨ server.PublicKey = "" ∨ server.PrivateKey = "" ∨ server.IP = "") := by
  unfold validateServer
  by_cases h0 : server.ID = 0
  · simp [h0]
  · by_cases hk : server.PublicKey = "" ∨ server.PrivateKey = ""
    · rcases hk with hk | hk <;> simp [h0, hk]
    · have hpub : server.PublicKey ≠ "" := fun h => hk (Or.inl h)
      have hpriv : server.PrivateKey ≠ "" := fun h => hk (Or.inr h)
      by_cases hip : server.IP = "" <;> simp [h0, hpub, hpriv, hip]

/-- C6: `applySoftRules` changes a field only when it is empty or zero: each of
Name, Description, Extra, AllowedIPs, DNS, Endpoint that is non-empty and each of
PersistentKeepAlive, MTU, EndpointPort that is non-zero has the same value
afterwards, and ID, IP, IsServer, Config, PrivateKey, PublicKey and PreSharedKey
are never changed. -/
theorem applySoftRules_frame (p : GenerationForm) (w : WgConfig) :
    (w.Name ≠ "" → (applySoftRules p w).Name = w.Name) ∧
    (w.Description ≠ "" → (applySoftRules p w).Description = w.Description) ∧
    (w.Extra ≠ "" → (applySoftRules p w).Extra = w.Extra) ∧
    (w.AllowedIPs ≠ "" → (applySoftRules p w).AllowedIPs = w.AllowedIPs) ∧
    (w.DNS ≠ "" → (applySoftRules p w).DNS = w.DNS) ∧
    (w.Endpoint ≠ "" → (applySoftRules p w).Endpoint = w.Endpoint) ∧
    (w.PersistentKeepAlive ≠ 0 →
      (applySoftRules p w).PersistentKeepAlive = w.PersistentKeepAlive) ∧
    (w.MTU ≠ 0 → (applySoftRules p w).MTU = w.MTU) ∧
    (w.EndpointPort ≠ 0 → (applySoftRules p w).EndpointPort = w.EndpointPort) ∧
    (applySoftRules p w).ID = w.ID ∧
    (applySoftRules p w).IP = w.IP ∧
    (applySoftRules p w).IsServer = w.IsServer ∧
    (applySoftRules p w).Config = w.Config ∧
    (applySoftRules p w).PrivateKey = w.PrivateKey ∧
    (applySoftRules p w).PublicKey = w.PublicKey ∧
    (applySoftRules p w).PreSharedKey = w.PreSharedKey := by
  refine ⟨?_, ?_, ?_, ?_, ?_, ?_, ?_, ?_, ?_, ?_, ?_, ?_, ?_, ?_, ?_, ?_⟩
  · intro h; rw [applySoftRules_Name, if_neg h]
  · intro h; rw [applySoftRules_Description, if_neg h]
  · intro h; rw [applySoftRules_Extra, if_neg h]
  · intro h; rw [applySoftRules_AllowedIPs, if_neg h]
  · intro h; rw [applySoftRules_DNS, if_neg (fun hc => h hc.1)]
  · intro h; rw [applySoftRules_Endpoint, if_neg h]
  · intro h; rw [applySoftRules_PersistentKeepAlive, if_neg h]
  · intro h; rw [applySoftRules_MTU, if_neg h]
  · intro h; rw [applySoftRules_EndpointPort, if_neg h]
  · exact applySoftRules_ID p w
  · exact applySoftRules_IP p w
  · exact applySoftRules_IsServer p w
  · exact applySoftRules_Config p w
  · exact applySoftRules_PrivateKey p w
  · exact applySoftRules_PublicKey p w
  · exact applySoftRules_PreSharedKey p w

/-- C5: after `applySoftRules` followed by `applyForcedRules`, each of AllowedIPs,
PersistentKeepAlive, MTU, Endpoint, EndpointPort, Name, Description and Extra
whose force flag is set equals the value of `GenerationParams`, whatever the
record held before and whatever the soft pass wrote; DNS equals
`GenerationParams.DNS` when ForceDNS is set and the record is not the server. -/
theorem forced_fields_win (p : GenerationForm) (w : WgConfig) :
    (p.ForceAllowedIPs = true →
      (applyForcedRules p (applySoftRules p w)).AllowedIPs = p.AllowedIPs) ∧
    (p.ForcePersistentKeepAlive = true →
      (applyForcedRules p (applySoftRules p w)).PersistentKeepAlive = p.PersistentKeepAlive) ∧
    (p.ForceMTU = true → (applyForcedRules p (applySoftRules p w)).MTU = p.MTU) ∧
    (p.ForceEndpoint = true →
      (applyForcedRules p (applySoftRules p w)).Endpoint = p.Endpoint) ∧
    (p.ForceEndpointPort = true →
      (applyForcedRules p (applySoftRules p w)).EndpointPort = p.EndpointPort) ∧
    (p.ForceName = true → (applyForcedRules p (applySoftRules p w)).Name = p.Name) ∧
    (p.ForceDescription = true →
      (applyForcedRules p (applySoftRules p w)).Description = p.Description) ∧
    (p.ForceExtra = true → (applyForcedRules p (applySoftRules p w)).Extra = p.Extra) ∧
    (p.ForceDNS = true → w.IsServer = false →
      (applyForcedRules p (applySoftRules p w)).DNS = p.DNS) := by
  refine ⟨?_, ?_, ?_, ?_, ?_, ?_, ?_, ?_, ?_⟩
  · intro h; rw [applyForcedRules_AllowedIPs, if_pos h]
  · intro h; rw [applyForcedRules_PersistentKeepAlive, if_pos h]
  · intro h; rw [applyForcedRules_MTU, if_pos h]
  · intro h; rw [applyForcedRules_Endpoint, if_pos h]
  · intro h; rw [applyForcedRules_EndpointPort, if_pos h]
  · intro h; rw [applyForcedRules_Name, if_pos h]
  · intro h; rw [applyForcedRules_Description, if_pos h]
  · intro h; rw [applyForcedRules_Extra, if_pos h]
  · intro h hs
    rw [applyForcedRules_DNS, applySoftRules_IsServer, if_pos ⟨h, by simp [hs]⟩]

/-- C4: for every record whose PrivateKey, PublicKey and PreSharedKey are all
non-empty, when RegenerateKeys is false, `applyKeyRules` returns the record as it
is and draws nothing from the key generator (the count of draws is unchanged),
and so does the whole merge (soft rules, forced rules, key rules), whose result
has the three key fields unchanged; and whenever `applyKeyRules` returns a record
whose key pair differs from the one it was given, PrivateKey or PublicKey was
empty or RegenerateKeys is set. -/
theorem applyKeyRules_keeps_keys (env : Env) (p : GenerationForm) (rng : Nat) (w : WgConfig) :
    (w.PrivateKey ≠ "" → w.PublicKey ≠ "" → w.PreSharedKey ≠ "" → p.RegenerateKeys = false →
      applyKeyRules env p rng w = .ok (w, rng) ∧
      applyKeyRules env p rng (applyForcedRules p (applySoftRules p w)) =
        .ok (applyForcedRules p (applySoftRules p w), rng) ∧
      (applyForcedRules p (applySoftRules p w)).PrivateKey = w.PrivateKey ∧
      (applyForcedRules p (applySoftRules p w)).PublicKey = w.PublicKey ∧
      (applyForcedRules p (applySoftRules p w)).PreSharedKey = w.PreSharedKey) ∧
    (∀ (w' : WgConfig) (rng' : Nat), applyKeyRules env p rng w = .ok (w', rng') →
      (w'.PrivateKey ≠ w.PrivateKey ∨ w'.PublicKey ≠ w.PublicKey) →
      (w.PrivateKey = "" ∨ w.PublicKey = "" ∨ p.RegenerateKeys = true)) := by
  have keep : ∀ v : WgConfig, v.PrivateKey ≠ "" → v.PublicKey ≠ "" → v.PreSharedKey ≠ "" →
      p.RegenerateKeys = false → applyKeyRules env p rng v = .ok (v, rng) := by
    intro v h1 h2 h3 h4
    rw [applyKeyRules_eq]
    simp [h1, h2, h3, h4]
  constructor
  · intro h1 h2 h3 h4
    refine ⟨keep w h1 h2 h3 h4, ?_, ?_, ?_, ?_⟩
    · apply keep
      · rw [applyForcedRules_PrivateKey, applySoftRules_PrivateKey]; exact h1
      · rw [applyForcedRules_PublicKey, applySoftRules_PublicKey]; exact h2
      · rw [applyForcedRules_PreSharedKey, applySoftRules_PreSharedKey]; exact h3
      · exact h4
    · rw [applyForcedRules_PrivateKey, applySoftRules_PrivateKey]
    · rw [applyForcedRules_PublicKey, applySoftRules_PublicKey]
    · rw [applyForcedRules_PreSharedKey, applySoftRules_PreSharedKey]
  · intro w' rng' hok hdiff
    by_contra hcond
    rw [applyKeyRules_eq, if_neg hcond] at hok
    by_cases h2 : w.PreSharedKey = "" ∨ p.RegenerateKeys = true
    · rw [if_pos h2] at hok
      cases hg : env.GeneratePreSharedKey rng with
      | none => rw [hg] at hok; cases hok
      | some psk =>
        rw [hg] at hok
        simp only [Except.ok.injEq, Prod.mk.injEq] at hok
        rcases hok with ⟨rfl, _⟩
        rcases hdiff with h | h <;> exact h rfl
    · rw [if_neg h2] at hok
      simp only [Except.ok.injEq, Prod.mk.injEq] at hok
      rcases hok with ⟨rfl, _⟩
      rcases hdiff with h | h <;> exact h rfl

/-- Witness of C4: the record `demoRecord` has its three keys and `demoForm` does
not regenerate keys. -/
theorem applyKeyRules_keeps_keys_witness :
    applyKeyRules demoEnv demoForm 5 demoRecord = .ok (demoRecord, 5) ∧
    applyKeyRules demoEnv demoForm 5 (applyForcedRules demoForm (applySoftRules demoForm demoRecord)) =
      .ok (applyForcedRules demoForm (applySoftRules demoForm demoRecord), 5) ∧
    (applyForcedRules demoForm (applySoftRules demoForm demoRecord)).PrivateKey = "old-private" ∧
    (applyForcedRules demoForm (applySoftRules demoForm demoRecord)).PublicKey = "old-public" ∧
    (applyForcedRules demoForm (applySoftRules demoForm demoRecord)).PreSharedKey = "old-psk" :=
  (applyKeyRules_keeps_keys demoEnv demoForm 5 demoRecord).1
    (by decide) (by decide) (by decide) rfl

/-- C10 as amended: `applyKeyRules` replaces the pre-shared key under a condition
of its own.  Whenever `applyKeyRules` succeeds, PreSharedKey is the value drawn
from the generator exactly when PreSharedKey was empty or RegenerateKeys is set,
and is unchanged otherwise, whatever PrivateKey and PublicKey hold; with
RegenerateKeys set all three keys are the values drawn. -/
theorem applyKeyRules_preSharedKey (env : Env) (p : GenerationForm) (rng : Nat)
    (w w' : WgConfig) (rng' : Nat) (h : applyKeyRules env p rng w = .ok (w', rng')) :
    ((w.PreSharedKey = "" ∨ p.RegenerateKeys = true) →
      env.GeneratePreSharedKey
          (if w.PrivateKey = "" ∨ w.PublicKey = "" ∨ p.RegenerateKeys = true then rng + 1
           else rng) = some w'.PreSharedKey) ∧
    (¬ (w.PreSharedKey = "" ∨ p.RegenerateKeys = true) → w'.PreSharedKey = w.PreSharedKey) ∧
    (p.RegenerateKeys = true →
      env.GeneratePrivateKey rng = .ok (w'.PrivateKey, w'.PublicKey) ∧
      env.GeneratePreSharedKey (rng + 1) = some w'.PreSharedKey ∧ rng' = rng + 2) := by
  rw [applyKeyRules_eq] at h
  by_cases h1 : w.PrivateKey = "" ∨ w.PublicKey = "" ∨ p.RegenerateKeys = true
  · rw [if_pos h1] at h
    cases hg : env.GeneratePrivateKey rng with
    | error e => rw [hg] at h; cases h
    | ok kp =>
      obtain ⟨priv, pub⟩ := kp
      rw [hg] at h
      simp only [] at h
      by_cases h2 : w.PreSharedKey = "" ∨ p.RegenerateKeys = true
      · rw [if_pos h2] at h
        cases hs : env.GeneratePreSharedKey (rng + 1) with
        | none => rw [hs] at h; cases h
        | some psk =>
          rw [hs] at h
          simp only [Except.ok.injEq, Prod.mk.injEq] at h
          obtain ⟨rfl, rfl⟩ := h
          refine ⟨fun _ => ?_, fun hn => absurd h2 hn, fun _ => ⟨rfl, rfl, rfl⟩⟩
          rw [if_pos h1, hs]
      · rw [if_neg h2] at h
        simp only [Except.ok.injEq, Prod.mk.injEq] at h
        obtain ⟨rfl, rfl⟩ := h
        exact ⟨fun hc => absurd hc h2, fun _ => rfl, fun hreg => absurd (Or.inr hreg) h2⟩
  · rw [if_neg h1] at h
    have hr : ¬ p.RegenerateKeys = true := fun hc => h1 (Or.inr (Or.inr hc))
    by_cases h2 : w.PreSharedKey = "" ∨ p.RegenerateKeys = true
    · rw [if_pos h2] at h
      cases hs : env.GeneratePreSharedKey rng with
      | none => rw [hs] at h; cases h
      | some psk =>
        rw [hs] at h
        simp only [Except.ok.injEq, Prod.mk.injEq] at h
        obtain ⟨rfl, rfl⟩ := h
        refine ⟨fun _ => ?_, fun hn => absurd h2 hn, fun hreg => absurd hreg hr⟩
        rw [if_neg h1, hs]
    · rw [if_neg h2] at h
      simp only [Except.ok.injEq, Prod.mk.injEq] at h
      obtain ⟨rfl, rfl⟩ := h
      exact ⟨fun hc => absurd hc h2, fun _ => rfl, fun hreg => absurd hreg hr⟩

/-- Witness of C10 as amended: a record without a pre-shared key gets the value
of the generator, here the first draw. -/
theorem applyKeyRules_preSharedKey_witness :
    demoEnv.GeneratePreSharedKey
        (if demoRecord.PrivateKey = "" ∨ demoRecord.PublicKey = "" ∨
            demoForm.RegenerateKeys = true then 0 + 1 else 0) = some "psk0" :=
  (applyKeyRules_preSharedKey demoEnv demoForm 0 { demoRecord with PreSharedKey := "" }
    { demoRecord with PreSharedKey := "psk0" } 1 (by decide)).1 (Or.inl rfl)

/-- Counterexample to C10 as stated: with RegenerateKeys false, a record with an
empty PrivateKey and a pre-shared key gets a new key pair but keeps its
pre-shared key, and a record with a key pair and no pre-shared key gets a new
pre-shared key. -/
theorem applyKeyRules_preSharedKey_own_condition :
    applyKeyRules demoEnv demoForm 0 { demoRecord with PrivateKey := "" } =
      .ok ({ demoRecord with PrivateKey := "priv0", PublicKey := "pub0",
                             PreSharedKey := "old-psk" }, 1) ∧
    applyKeyRules demoEnv demoForm 0 { demoRecord with PreSharedKey := "" } =
      .ok ({ demoRecord with PrivateKey := "old-private", PublicKey := "old-public",
                             PreSharedKey := "psk0" }, 1) := by
  decide

/-- C7: for every record with IsServer set and every parameters, `applySoftRules`
and `applyForcedRules` leave DNS as it was, so a server record whose DNS was empty
renders no DNS line: in the text of `GenerateServerConfig` the ListenPort line
is followed by the MTU line. -/
theorem server_dns_untouched (env : Env) (conf : Configuration) (w : WgConfig)
    (spgz : List String) (network : IPNet) (h : w.IsServer = true) :
    (applySoftRules conf.GenerationParams w).DNS = w.DNS ∧
    (applyForcedRules conf.GenerationParams (applySoftRules conf.GenerationParams w)).DNS =
      w.DNS ∧
    (w.DNS = "" →
      GenerateServerConfig env
          (applyForcedRules conf.GenerationParams (applySoftRules conf.GenerationParams w))
          conf spgz network =
        spoolText env conf.UseGzipDuringProcessing spgz
          ("[Interface]" ++
            (if (applyForcedRules conf.GenerationParams
                  (applySoftRules conf.GenerationParams w)).Extra ≠ "" then
              "\n" ++ (applyForcedRules conf.GenerationParams
                  (applySoftRules conf.GenerationParams w)).Extra
             else "") ++
            "\nPrivateKey = " ++ w.PrivateKey ++
            "\nAddress = " ++ w.IP ++ "/" ++ itoa (maskSize network.Mask) ++
            "\nListenPort = " ++ itoa conf.GenerationParams.EndpointPort ++
            "\nMTU = " ++ itoa conf.GenerationParams.MTU ++
            "\nPostUp = iptables -A FORWARD -i %i -j ACCEPT; iptables -A FORWARD -o %i -j ACCEPT; iptables -t nat -A POSTROUTING -o " ++
            conf.GenerationParams.ServerInterface ++ " -j MASQUERADE" ++
            "\nPostDown = iptables -D FORWARD -i %i -j ACCEPT; iptables -D FORWARD -o %i -j ACCEPT; iptables -t nat -D POSTROUTING -o " ++
            conf.GenerationParams.ServerInterface ++ " -j MASQUERADE" ++
            "\n\n")) := by
  have hsoft : (applySoftRules conf.GenerationParams w).DNS = w.DNS := by
    rw [applySoftRules_DNS, if_neg (fun hc => hc.2 h)]
  have hforced : (applyForcedRules conf.GenerationParams
      (applySoftRules conf.GenerationParams w)).DNS = w.DNS := by
    rw [applyForcedRules_DNS, applySoftRules_IsServer, if_neg (fun hc => hc.2 h), hsoft]
  refine ⟨hsoft, hforced, ?_⟩
  intro hdns
  unfold GenerateServerConfig serverInterface
  simp only [hforced, hdns, ne_eq, not_true_eq_false, if_false, String.append_empty,
    applyForcedRules_PrivateKey, applySoftRules_PrivateKey, applyForcedRules_IP,
    applySoftRules_IP]

set_option maxRecDepth 100000 in
/-- Witness of C7: the server record `demoServer` has no DNS and `forcedForm`
forces the DNS `9.9.9.9`; the rendered server block has no DNS line. -/
theorem server_dns_untouched_witness :
    (applyForcedRules forcedForm (applySoftRules forcedForm demoServer)).DNS = "" ∧
    GenerateServerConfig demoEnv (applyForcedRules forcedForm (applySoftRules forcedForm demoServer))
        { demoConf with GenerationParams := forcedForm } [] ⟨[10, 0, 0, 0], [255, 255, 255, 252]⟩ =
      .ok "[Interface]\nTable = off\nPrivateKey = old-private\nAddress = 10.0.0.1/30\nListenPort = 51821\nMTU = 1400\nPostUp = iptables -A FORWARD -i %i -j ACCEPT; iptables -A FORWARD -o %i -j ACCEPT; iptables -t nat -A POSTROUTING -o eth0 -j MASQUERADE\nPostDown = iptables -D FORWARD -i %i -j ACCEPT; iptables -D FORWARD -o %i -j ACCEPT; iptables -t nat -D POSTROUTING -o eth0 -j MASQUERADE\n\n" :=
  ⟨(server_dns_untouched demoEnv { demoConf with GenerationParams := forcedForm } demoServer []
      ⟨[10, 0, 0, 0], [255, 255, 255, 252]⟩ rfl).2.1, by decide⟩

/-- Example for C5: with every force flag set, the forced values replace the
fields of `demoRecord`. -/
theorem forced_fields_win_witness :
    (applyForcedRules forcedForm (applySoftRules forcedForm demoRecord)).MTU = 1400 ∧
    (applyForcedRules forcedForm (applySoftRules forcedForm demoRecord)).DNS = "9.9.9.9" :=
  ⟨(forced_fields_win forcedForm demoRecord).2.2.1 rfl,
   (forced_fields_win forcedForm demoRecord).2.2.2.2.2.2.2.2 rfl rfl⟩

/-- Example for C6: the soft rules leave the name and the MTU of `demoRecord`. -/
theorem applySoftRules_frame_witness :
    (applySoftRules demoForm demoRecord).Name = "laptop" ∧
    (applySoftRules demoForm demoRecord).MTU = 1420 :=
  ⟨(applySoftRules_frame demoForm demoRecord).1 (by decide),
   (applySoftRules_frame demoForm demoRecord).2.2.2.2.2.2.2.1 (by decide)⟩

/-! ## Input validation of `Generate` -/

/-- C8: `Generate` returns an error and leaves the configuration, `conf.Peers`
included, as it was whenever the CIDR cannot be parsed, the CIDR is not the text
of its own network (a host bit is set), the server address cannot be parsed, or
the server address lies outside the CIDR. -/
theorem Generate_rejects_bad_input (env : Env) (conf : Configuration)
    (h : ParseCIDR conf.GenerationParams.CIDR = none ∨
      (∃ ip net, ParseCIDR conf.GenerationParams.CIDR = some (ip, net) ∧
        IPNetString net ≠ conf.GenerationParams.CIDR) ∨
      ParseIP conf.GenerationParams.Server = none ∨
      (∃ ip net srv, ParseCIDR conf.GenerationParams.CIDR = some (ip, net) ∧
        ParseIP conf.GenerationParams.Server = some srv ∧ Contains net srv = false)) :
    ∃ e, Generate env conf = some { conf := conf, err := some e } := by
  unfold Generate
  cases hp : ParseCIDR conf.GenerationParams.CIDR with
  | none => exact ⟨_, rfl⟩
  | some r =>
    obtain ⟨firstIP, cidrNet⟩ := r
    simp only []
    by_cases ha : IPNetString cidrNet ≠ conf.GenerationParams.CIDR
    · rw [if_pos ha]; exact ⟨_, rfl⟩
    · rw [if_neg ha]
      cases hs : ParseIP conf.GenerationParams.Server with
      | none => exact ⟨_, rfl⟩
      | some srv =>
        simp only []
        by_cases hc : ¬ Contains cidrNet srv = true
        · rw [if_pos hc]; exact ⟨_, rfl⟩
        · exfalso
          rcases h with h | ⟨ip, net, h1, h2⟩ | h | ⟨ip, net, srv2, h1, h2, h3⟩
          · rw [hp] at h; cases h
          · rw [hp] at h1
            simp only [Option.some.injEq, Prod.mk.injEq] at h1
            obtain ⟨_, rfl⟩ := h1
            exact ha h2
          · rw [hs] at h; cases h
          · rw [hp] at h1
            rw [hs] at h2
            simp only [Option.some.injEq, Prod.mk.injEq] at h1 h2
            obtain ⟨_, rfl⟩ := h1
            subst h2
            rw [h3] at hc
            exact hc (by simp)

set_option maxRecDepth 100000 in
/-- Witness of C8: the four kinds of rejected input, each with a prior record
that comes back unchanged, and the error text for the CIDR `10.0.0.1/24`. -/
theorem Generate_rejects_bad_input_witness :
    (∃ e, Generate demoEnv
        { GenerationParams := { demoForm with CIDR := "10.0.0.0" }, UseGzipDuringProcessing := false,
          Peers := [demoServer, demoRecord] } =
      some { conf := { GenerationParams := { demoForm with CIDR := "10.0.0.0" },
                       UseGzipDuringProcessing := false, Peers := [demoServer, demoRecord] },
             err := some e }) ∧
    (∃ e, Generate demoEnv
        { GenerationParams := { demoForm with CIDR := "10.0.0.1/24" },
          UseGzipDuringProcessing := false, Peers := [demoServer, demoRecord] } =
      some { conf := { GenerationParams := { demoForm with CIDR := "10.0.0.1/24" },
                       UseGzipDuringProcessing := false, Peers := [demoServer, demoRecord] },
             err := some e }) ∧
    (∃ e, Generate demoEnv
        { GenerationParams := { demoForm with Server := "server" },
          UseGzipDuringProcessing := false, Peers := [demoServer, demoRecord] } =
      some { conf := { GenerationParams := { demoForm with Server := "server" },
                       UseGzipDuringProcessing := false, Peers := [demoServer, demoRecord] },
             err := some e }) ∧
    (∃ e, Generate demoEnv
        { GenerationParams := { demoForm with Server := "10.0.0.4" },
          UseGzipDuringProcessing := false, Peers := [demoServer, demoRecord] } =
      some { conf := { GenerationParams := { demoForm with Server := "10.0.0.4" },
                       UseGzipDuringProcessing := false, Peers := [demoServer, demoRecord] },
             err := some e }) ∧
    Generate demoEnv
        { GenerationParams := { demoForm with CIDR := "10.0.0.1/24" },
          UseGzipDuringProcessing := false, Peers := [demoServer, demoRecord] } =
      some { conf := { GenerationParams := { demoForm with CIDR := "10.0.0.1/24" },
                       UseGzipDuringProcessing := false, Peers := [demoServer, demoRecord] },
             err := some "cidr 10.0.0.1/24 is not a correctly aligned subnet; use the correctly aligned subnet 10.0.0.0/24 instead" } :=
  ⟨Generate_rejects_bad_input demoEnv _ (Or.inl (by decide)),
   Generate_rejects_bad_input demoEnv _
     (Or.inr (Or.inl ⟨[0, 0, 0, 0, 0, 0, 0, 0, 0, 0, 255, 255, 10, 0, 0, 1],
       ⟨[10, 0, 0, 0], [255, 255, 255, 0]⟩, by decide, by decide⟩)),
   Generate_rejects_bad_input demoEnv _ (Or.inr (Or.inr (Or.inl (by decide)))),
   Generate_rejects_bad_input demoEnv _
     (Or.inr (Or.inr (Or.inr ⟨[0, 0, 0, 0, 0, 0, 0, 0, 0, 0, 255, 255, 10, 0, 0, 0],
       ⟨[10, 0, 0, 0], [255, 255, 255, 252]⟩,
       [0, 0, 0, 0, 0, 0, 0, 0, 0, 0, 255, 255, 10, 0, 0, 4], by decide, by decide, by decide⟩))),
   by decide⟩

/-! ## The text of an aligned IPv4 network and `net.ParseCIDR` -/

/-- The octet loop of `parseIPv4Fields` run over the digits of one octet. -/
theorem parseIPv4Fields_octet (cs rest : List Char) :
    ∀ (c : Char) (val digLen : Nat) (fields : List Nat) (atStart prevDot : Bool)
      (val' digLen' : Nat), ipv4Octet (c :: cs) val digLen = some (val', digLen') →
      parseIPv4Fields (c :: (cs ++ rest)) val digLen fields atStart prevDot =
        parseIPv4Fields rest val' digLen' fields false false := by
  induction cs with
  | nil =>
    intro c val digLen fields atStart prevDot val' digLen' h
    simp only [ipv4Octet] at h
    rw [List.nil_append, parseIPv4Fields]
    split_ifs at h with h1 h2 h3
    simp only [Option.some.injEq, Prod.mk.injEq] at h
    obtain ⟨rfl, rfl⟩ := h
    simp only [h1, and_self, if_true, h2, if_false, h3]
  | cons c2 cs ih =>
    intro c val digLen fields atStart prevDot val' digLen' h
    rw [ipv4Octet] at h
    rw [List.cons_append, parseIPv4Fields]
    split_ifs at h with h1 h2 h3
    simp only [h1, and_self, if_true, h2, if_false, h3]
    exact ih c2 _ _ fields false false val' digLen' h

/-- The step of `parseIPv4Fields` at a dot between two octets. -/
theorem parseIPv4Fields_dot (c : Char) (rest : List Char) (val digLen : Nat)
    (fields : List Nat) (hf : fields.length < 3) :
    parseIPv4Fields ('.' :: c :: rest) val digLen fields false false =
      parseIPv4Fields (c :: rest) 0 0 (fields ++ [val]) false true := by
  rw [parseIPv4Fields]
  have h1 : ¬ ('0' ≤ '.' ∧ '.' ≤ '9') := by decide
  have h3 : ¬ fields.length = 3 := by omega
  simp [h1, h3]

set_option maxRecDepth 100000 in
theorem itoa_octet_digits : ∀ d < 256, (itoa d).data ≠ [] ∧
    ipv4Octet (itoa d).data 0 0 = some (d, (itoa d).data.length) ∧
    (∀ x ∈ (itoa d).data, x ≠ '.' ∧ x ≠ ':' ∧ x ≠ '%' ∧ x ≠ '/') := by
  decide

theorem itoa_octet_parse (d : Nat) (hd : d < 256) : ∃ c cs, (itoa d).data = c :: cs ∧
    ipv4Octet (c :: cs) 0 0 = some (d, (c :: cs).length) ∧
    (∀ x ∈ c :: cs, x ≠ '.' ∧ x ≠ ':' ∧ x ≠ '%' ∧ x ≠ '/') := by
  obtain ⟨h1, h2, h3⟩ := itoa_octet_digits d hd
  cases hc : (itoa d).data with
  | nil => exact absurd hc h1
  | cons c cs =>
    rw [hc] at h2 h3
    exact ⟨c, cs, rfl, h2, h3⟩

/-- Go `netip.parseIPv4` reads back the dotted decimal text of four bytes. -/
theorem parseIPv4_string4 (a0 a1 a2 a3 : Nat) (h0 : a0 < 256) (h1 : a1 < 256) (h2 : a2 < 256)
    (h3 : a3 < 256) : parseIPv4 (string4 [a0, a1, a2, a3]).data = some [a0, a1, a2, a3] := by
  obtain ⟨c0, r0, e0, p0, _⟩ := itoa_octet_parse a0 h0
  obtain ⟨c1, r1, e1, p1, _⟩ := itoa_octet_parse a1 h1
  obtain ⟨c2, r2, e2, p2, _⟩ := itoa_octet_parse a2 h2
  obtain ⟨c3, r3, e3, p3, _⟩ := itoa_octet_parse a3 h3
  have hd : (string4 [a0, a1, a2, a3]).data =
      c0 :: (r0 ++ ('.' :: c1 :: (r1 ++ ('.' :: c2 :: (r2 ++ ('.' :: c3 :: (r3 ++ []))))))) := by
    simp [string4, String.data_append, e0, e1, e2, e3]
  rw [hd, parseIPv4, parseIPv4Fields_octet r0 _ c0 0 0 [] true false _ _ p0,
    parseIPv4Fields_dot _ _ _ _ _ (by simp),
    parseIPv4Fields_octet r1 _ c1 0 0 _ false true _ _ p1,
    parseIPv4Fields_dot _ _ _ _ _ (by simp),
    parseIPv4Fields_octet r2 _ c2 0 0 _ false true _ _ p2,
    parseIPv4Fields_dot _ _ _ _ _ (by simp),
    parseIPv4Fields_octet r3 _ c3 0 0 _ false true _ _ p3, parseIPv4Fields]
  simp

/-- The text of four bytes has no `%` and no `/`, and `ParseAddr` reads it as
IPv4. -/
theorem string4_chars (a0 a1 a2 a3 : Nat) (h0 : a0 < 256) (h1 : a1 < 256) (h2 : a2 < 256)
    (h3 : a3 < 256) :
    (∀ x ∈ (string4 [a0, a1, a2, a3]).data, x ≠ '%' ∧ x ≠ '/') ∧
    ∀ s, ParseAddr.dispatch s (string4 [a0, a1, a2, a3]).data =
      (parseIPv4 s).map (fun f => (0xffff00000000 + bytesVal f, 32)) := by
  obtain ⟨c0, r0, e0, _, q0⟩ := itoa_octet_parse a0 h0
  obtain ⟨c1, r1, e1, _, q1⟩ := itoa_octet_parse a1 h1
  obtain ⟨c2, r2, e2, _, q2⟩ := itoa_octet_parse a2 h2
  obtain ⟨c3, r3, e3, _, q3⟩ := itoa_octet_parse a3 h3
  have hd : (string4 [a0, a1, a2, a3]).data =
      (itoa a0).data ++ ('.' :: ((itoa a1).data ++ ('.' :: ((itoa a2).data ++
        ('.' :: (itoa a3).data))))) := by
    simp [string4, String.data_append]
  constructor
  · intro x hx
    rw [hd, e0, e1, e2, e3] at hx
    simp only [List.mem_append, List.mem_cons] at hx
    have d1 : ('.' : Char) ≠ '%' ∧ ('.' : Char) ≠ '/' := by decide
    rcases hx with hx | hx | hx | hx | hx | hx | hx
    · exact ⟨(q0 x (List.mem_cons.2 hx)).2.2.1, (q0 x (List.mem_cons.2 hx)).2.2.2⟩
    · rw [hx]; exact d1
    · exact ⟨(q1 x (List.mem_cons.2 hx)).2.2.1, (q1 x (List.mem_cons.2 hx)).2.2.2⟩
    · rw [hx]; exact d1
    · exact ⟨(q2 x (List.mem_cons.2 hx)).2.2.1, (q2 x (List.mem_cons.2 hx)).2.2.2⟩
    · rw [hx]; exact d1
    · exact ⟨(q3 x (List.mem_cons.2 hx)).2.2.1, (q3 x (List.mem_cons.2 hx)).2.2.2⟩
  · intro s
    have scan : ∀ (ds rest : List Char), (∀ x ∈ ds, x ≠ '.' ∧ x ≠ ':' ∧ x ≠ '%' ∧ x ≠ '/') →
        ParseAddr.dispatch s (ds ++ '.' :: rest) =
          (parseIPv4 s).map (fun f => (0xffff00000000 + bytesVal f, 32)) := by
      intro ds rest
      induction ds with
      | nil => intro _; simp [ParseAddr.dispatch]
      | cons c ds ih =>
        intro hq
        have hc := hq c (List.mem_cons_self _ _)
        rw [List.cons_append, ParseAddr.dispatch, if_neg hc.1, if_neg hc.2.1, if_neg hc.2.2.1]
        exact ih (fun x hx => hq x (List.mem_cons_of_mem _ hx))
    rw [hd, e0]
    exact scan _ _ q0

set_option maxHeartbeats 4000000 in
/-- Masking an aligned base address with the mask of its network changes nothing. -/
theorem andBytes_cidr (a0 a1 a2 a3 p : Nat)
    (ha0 : a0 < 256) (ha1 : a1 < 256) (ha2 : a2 < 256) (ha3 : a3 < 256) (hp : p ≤ 32)
    (hal : (16777216 * a0 + 65536 * a1 + 256 * a2 + a3) % 2 ^ (32 - p) = 0) :
    andBytes [a0, a1, a2, a3] (CIDRMask.bytes 4 p) = [a0, a1, a2, a3] := by
  have L : ∀ j < 9, ∀ x < 256, x &&& (255 - 255 / 2 ^ j) = x / 2 ^ (8 - j) * 2 ^ (8 - j) :=
    land_mask_byte
  have l1 := L 1 (by norm_num); have l2 := L 2 (by norm_num)
  have l3 := L 3 (by norm_num); have l4 := L 4 (by norm_num); have l5 := L 5 (by norm_num)
  have l6 := L 6 (by norm_num); have l7 := L 7 (by norm_num); have l8 := L 8 (by norm_num)
  norm_num at l1 l2 l3 l4 l5 l6 l7 l8
  interval_cases p <;>
    simp only [CIDRMask.bytes, andBytes, ge_iff_le, Nat.reduceLeDiff, if_true, if_false,
      Nat.reduceSub, Nat.reducePow, Nat.reduceDiv, l1 _ ha0, l2 _ ha0, l3 _ ha0, l4 _ ha0,
      l5 _ ha0, l6 _ ha0, l7 _ ha0, l8 _ ha0, l1 _ ha1, l2 _ ha1, l3 _ ha1, l4 _ ha1,
      l5 _ ha1, l6 _ ha1, l7 _ ha1, l8 _ ha1, l1 _ ha2, l2 _ ha2, l3 _ ha2, l4 _ ha2,
      l5 _ ha2, l6 _ ha2, l7 _ ha2, l8 _ ha2, l1 _ ha3, l2 _ ha3, l3 _ ha3, l4 _ ha3,
      l5 _ ha3, l6 _ ha3, l7 _ ha3, l8 _ ha3, Nat.and_zero, List.cons.injEq, and_true,
      true_and] at hal ⊢ <;>
    omega

theorem networkNumberAndMask_ip4 (a p : Nat) (hp : p ≤ 32) :
    networkNumberAndMask ⟨be4 a, CIDRMask p 32⟩ = (be4 a, CIDRMask.bytes 4 p) := by
  have hm : (CIDRMask.bytes 4 p).length = 4 := CIDRMask_bytes_length 4 p
  unfold networkNumberAndMask To4
  simp [be4, CIDRMask_32 p hp, hm]

set_option maxRecDepth 100000 in
theorem prefixLength_text : ∀ p < 33,
    dtoi (itoa p).data 0 0 = some (p, (itoa p).data.length) ∧
    simpleMaskLength (CIDRMask.bytes 4 p) = some p ∧ CIDRMask.bytes 4 p ≠ [] := by
  decide

theorem bytesVal_be4 (a : Nat) (ha : a < 2 ^ 32) : bytesVal (be4 a) = a := by
  unfold bytesVal be4
  simp only [List.foldl]
  omega

/-- Go `IPNet.String` of an IPv4 network is its text. -/
theorem IPNetString_ip4 (a p : Nat) (hp : p ≤ 32) :
    IPNetString ⟨be4 a, CIDRMask p 32⟩ = cidrText a p := by
  obtain ⟨_, h2, h3⟩ := prefixLength_text p (by omega)
  unfold IPNetString
  simp only [networkNumberAndMask_ip4 a p hp, h2]
  have h4 : IPString (be4 a) = string4 (be4 a) := by
    unfold IPString To4
    simp [be4]
  rw [if_neg (by simp [h3, be4]), h4]
  rfl

/-- Go `net.ParseCIDR` reads the text of an aligned IPv4 network as the base
address in 16-byte form and the network of that base address and prefix length. -/
theorem ParseCIDR_cidrText (a p : Nat) (hp : p ≤ 32) (ha : a < 2 ^ 32)
    (hal : a % 2 ^ (32 - p) = 0) :
    ParseCIDR (cidrText a p) = some (ip4in6 a, ⟨be4 a, CIDRMask p 32⟩) := by
  have b0 : a / 2 ^ 24 % 256 < 256 := Nat.mod_lt _ (by norm_num)
  have b1 : a / 2 ^ 16 % 256 < 256 := Nat.mod_lt _ (by norm_num)
  have b2 : a / 2 ^ 8 % 256 < 256 := Nat.mod_lt _ (by norm_num)
  have b3 : a % 256 < 256 := Nat.mod_lt _ (by norm_num)
  obtain ⟨hch, hdisp⟩ := string4_chars _ _ _ _ b0 b1 b2 b3
  have hparse := parseIPv4_string4 _ _ _ _ b0 b1 b2 b3
  obtain ⟨hdtoi, _, _⟩ := prefixLength_text p (by omega)
  have hdata : (cidrText a p).data = (string4 (be4 a)).data ++ '/' :: (itoa p).data := by
    simp [cidrText, String.data_append]
  have hpos : ∀ x ∈ (string4 (be4 a)).data, (fun c => c != '/') x = true := by
    intro x hx
    simpa using (hch x hx).2
  have htake : (cidrText a p).data.takeWhile (fun c => c != '/') = (string4 (be4 a)).data := by
    rw [hdata, List.takeWhile_append_of_pos hpos]
    simp
  have hdrop : ((cidrText a p).data.dropWhile (fun c => c != '/')).drop 1 = (itoa p).data := by
    rw [hdata, List.dropWhile_append_of_pos hpos]
    simp
  have haddr : ParseAddr ⟨(string4 (be4 a)).data⟩ = some (0xffff00000000 + a, 32) := by
    unfold ParseAddr
    have hno : ¬ '%' ∈ (string4 (be4 a)).data := fun h => (hch _ h).1 rfl
    simp only [hno, if_false]
    rw [show (be4 a) = [a / 2 ^ 24 % 256, a / 2 ^ 16 % 256, a / 2 ^ 8 % 256, a % 256] from rfl,
      hdisp, hparse]
    simp only [Option.map_some']
    rw [show [a / 2 ^ 24 % 256, a / 2 ^ 16 % 256, a / 2 ^ 8 % 256, a % 256] = be4 a from rfl,
      bytesVal_be4 a ha]
  have hmask : IPMask (ip4in6 a) (CIDRMask p 32) = be4 a := by
    have hm : (CIDRMask.bytes 4 p).length = 4 := CIDRMask_bytes_length 4 p
    have h16 : (ip4in6 a).length = 16 := rfl
    have ht : (ip4in6 a).take 12 = v4InV6Prefix := rfl
    have hd : (ip4in6 a).drop 12 = be4 a := rfl
    have hb : (be4 a).length = 4 := rfl
    have key : andBytes (be4 a) (CIDRMask.bytes 4 p) = be4 a :=
      andBytes_cidr _ _ _ _ p b0 b1 b2 b3 hp (by rw [be4_value a ha]; exact hal)
    unfold IPMask
    rw [CIDRMask_32 p hp]
    simp [hm, h16, ht, hd, hb, key]
  unfold ParseCIDR
  have hin : ¬ '/' ∉ (cidrText a p).data := by
    rw [hdata]; simp
  rw [if_neg hin]
  simp only [htake, hdrop, haddr, hdtoi]
  rw [if_neg (by simp; omega), as16_v4 a ha, hmask]

/-! ## The address walk over an aligned IPv4 network -/

theorem NextIP_ipAt (v : Nat) (hv : v < 2 ^ 32) : NextIP (ipAt v) = ipAt (v + 1) := by
  unfold ipAt
  rw [if_pos hv]
  by_cases h : v + 1 < 2 ^ 32
  · rw [if_pos h, NextIP_ip4in6 v h]
  · rw [if_neg h]
    have : v = 2 ^ 32 - 1 := by omega
    rw [this]
    exact NextIP_ip4in6_last

/-- One iteration of the walk at an IPv4 address. -/
theorem walkLoop_ip4 (a p : Nat) (srv : List Nat) (hp : p ≤ 32) (ha : a < 2 ^ 32)
    (hal : a % 2 ^ (32 - p) = 0) (v : Nat) (hv : v < 2 ^ 32) (fuel : Nat)
    (acc : List IPAddress) (idx : Int) (k : Nat) :
    walkLoop ⟨be4 a, CIDRMask p 32⟩ srv (fuel + 1) (ipAt v) acc idx k =
      if usable v = false then walkLoop ⟨be4 a, CIDRMask p 32⟩ srv fuel (ipAt (v + 1)) acc idx k
      else if ¬ (a ≤ v ∧ v < a + 2 ^ (32 - p)) then some (acc, idx)
      else walkLoop ⟨be4 a, CIDRMask p 32⟩ srv fuel (ipAt (v + 1)) (acc ++ [walkedIP srv v])
        (if (walkedIP srv v).IsServerIP then Int.ofNat k else idx) (k + 1) := by
  rw [walkLoop, NextIP_ipAt v hv]
  have hip : ipAt v = ip4in6 v := by unfold ipAt; rw [if_pos hv]
  simp only [hip, IPString_ip4in6, hasSuffix_ip4, Contains_ip4 a p v hp ha hv hal]
  by_cases hu : usable v = false
  · simp [hu]
  · have hu2 : usable v = true := by simpa using hu
    simp only [hu2, Bool.not_true, Bool.false_eq_true, if_false]
    by_cases hc : a ≤ v ∧ v < a + 2 ^ (32 - p)
    · simp only [hc, and_self, decide_True, Bool.not_true, Bool.false_eq_true, if_false,
        not_true_eq_false]
      unfold walkedIP
      by_cases hs : IPEqual (ip4in6 v) srv = true
      · simp [hs]
      · simp [hs]
    · simp [hc]

/-- The walk stops at the address that follows `255.255.255.255`. -/
theorem walkLoop_wrap (a p : Nat) (srv : List Nat) (hp : p ≤ 32) (fuel : Nat)
    (acc : List IPAddress) (idx : Int) (k : Nat) :
    walkLoop ⟨be4 a, CIDRMask p 32⟩ srv (fuel + 1) (ipAt (2 ^ 32)) acc idx k =
      some (acc, idx) := by
  have hip : ipAt (2 ^ 32) = [0, 0, 0, 0, 0, 0, 0, 0, 0, 1, 0, 0, 0, 0, 0, 0] := by decide
  have hs : (HasSuffix (IPString [0, 0, 0, 0, 0, 0, 0, 0, 0, 1, 0, 0, 0, 0, 0, 0]) ".0" ||
      HasSuffix (IPString [0, 0, 0, 0, 0, 0, 0, 0, 0, 1, 0, 0, 0, 0, 0, 0]) ".255") = false := by
    decide
  rw [walkLoop, hip]
  simp only [hs, Contains_wrap a p hp, Bool.false_eq_true, if_false, Bool.not_false, if_true]

/-- The walk stops within three iterations once it has left the network. -/
theorem walkLoop_stop (a p : Nat) (srv : List Nat) (hp : p ≤ 32) (ha : a < 2 ^ 32)
    (hal : a % 2 ^ (32 - p) = 0) (v : Nat) (hv1 : a + 2 ^ (32 - p) ≤ v) (hv2 : v ≤ 2 ^ 32)
    (fuel : Nat) (acc : List IPAddress) (idx : Int) (k : Nat) :
    walkLoop ⟨be4 a, CIDRMask p 32⟩ srv (fuel + 3) (ipAt v) acc idx k = some (acc, idx) := by
  have stop1 : ∀ w f, a + 2 ^ (32 - p) ≤ w → w < 2 ^ 32 → usable w = true →
      walkLoop ⟨be4 a, CIDRMask p 32⟩ srv (f + 1) (ipAt w) acc idx k = some (acc, idx) := by
    intro w f h1 h2 h3
    rw [walkLoop_ip4 a p srv hp ha hal w h2, if_neg (by simp [h3]), if_pos (by omega)]
  have stop2 : ∀ w f, a + 2 ^ (32 - p) ≤ w → w < 2 ^ 32 → w % 256 = 0 →
      walkLoop ⟨be4 a, CIDRMask p 32⟩ srv (f + 2) (ipAt w) acc idx k = some (acc, idx) := by
    intro w f h1 h2 h3
    rw [walkLoop_ip4 a p srv hp ha hal w h2, if_pos (by simp [usable, h3])]
    exact stop1 (w + 1) f (by omega) (by omega) (by simp [usable]; omega)
  by_cases hlast : v = 2 ^ 32
  · rw [hlast]; exact walkLoop_wrap a p srv hp _ acc idx k
  · have hv : v < 2 ^ 32 := by omega
    by_cases h0 : v % 256 = 0
    · exact stop2 v (fuel + 1) hv1 hv h0
    · by_cases h255 : v % 256 = 255
      · rw [walkLoop_ip4 a p srv hp ha hal v hv, if_pos (by simp [usable, h255])]
        by_cases hw : v + 1 = 2 ^ 32
        · rw [hw]; exact walkLoop_wrap a p srv hp _ acc idx k
        · exact stop2 (v + 1) fuel (by omega) (by omega) (by omega)
      · exact stop1 v (fuel + 2) hv1 hv (by simp [usable, h0, h255])

/-- The walk from an address of the network appends the usable addresses that
remain, in order. -/
theorem walkLoop_range (a p : Nat) (srv : List Nat) (hp : p ≤ 32) (ha : a < 2 ^ 32)
    (hal : a % 2 ^ (32 - p) = 0) (hend : a + 2 ^ (32 - p) ≤ 2 ^ 32) :
    ∀ (n v fuel : Nat) (acc : List IPAddress) (idx : Int) (k : Nat), a ≤ v →
      v + n = a + 2 ^ (32 - p) →
      walkLoop ⟨be4 a, CIDRMask p 32⟩ srv (fuel + n + 3) (ipAt v) acc idx k =
        some (acc ++ ((List.range' v n).filter usable).map (walkedIP srv),
          serverIndexAfter (((List.range' v n).filter usable).map (walkedIP srv)) idx k) := by
  intro n
  induction n with
  | zero =>
    intro v fuel acc idx k hav hvn
    simp only [List.range'_zero, List.filter_nil, List.map_nil, List.append_nil,
      serverIndexAfter, Nat.add_zero]
    exact walkLoop_stop a p srv hp ha hal v (by omega) (by omega) fuel acc idx k
  | succ n ih =>
    intro v fuel acc idx k hav hvn
    have hv : v < 2 ^ 32 := by omega
    have hfuel : fuel + (n + 1) + 3 = (fuel + n + 3) + 1 := by omega
    rw [hfuel, walkLoop_ip4 a p srv hp ha hal v hv, List.range'_succ]
    by_cases hu : usable v = false
    · rw [if_pos hu, ih (v + 1) fuel acc idx k (by omega) (by omega)]
      simp [List.filter_cons, hu]
    · have hu2 : usable v = true := by simpa using hu
      rw [if_neg hu, if_neg (by simp; omega),
        ih (v + 1) fuel _ _ (k + 1) (by omega) (by omega)]
      simp [List.filter_cons, hu2, serverIndexAfter]

theorem aligned_end (a p : Nat) (hp : p ≤ 32) (ha : a < 2 ^ 32)
    (hal : a % 2 ^ (32 - p) = 0) : a + 2 ^ (32 - p) ≤ 2 ^ 32 := by
  interval_cases p <;> omega

/-- C1: for every aligned IPv4 CIDR with prefix length `p` (base address value
`a`, text `cidrText a p`) and every server address, `net.ParseCIDR` accepts the
text, the alignment test of `Generate` passes, and the list of addresses walked
by `Generate` is exactly the addresses of the CIDR whose final octet is neither 0
nor 255, each once, in strictly increasing integer order; its length is at most
`2 ^ (32 - p)`. -/
theorem walk_usable_addresses (a p : Nat) (serverIP : List Nat) (hp : p ≤ 32)
    (ha : a < 2 ^ 32) (hal : a % 2 ^ (32 - p) = 0) :
    ParseCIDR (cidrText a p) = some (ip4in6 a, ⟨be4 a, CIDRMask p 32⟩) ∧
    IPNetString ⟨be4 a, CIDRMask p 32⟩ = cidrText a p ∧
    walk ⟨be4 a, CIDRMask p 32⟩ serverIP (ip4in6 a) =
      some (((List.range' a (2 ^ (32 - p))).filter usable).map (walkedIP serverIP),
        serverIndexAfter (((List.range' a (2 ^ (32 - p))).filter usable).map
          (walkedIP serverIP)) (-1) 0) ∧
    ((List.range' a (2 ^ (32 - p))).filter usable).Pairwise (· < ·) ∧
    (((List.range' a (2 ^ (32 - p))).filter usable).map (walkedIP serverIP)).length ≤
      2 ^ (32 - p) := by
  have hend := aligned_end a p hp ha hal
  refine ⟨ParseCIDR_cidrText a p hp ha hal, IPNetString_ip4 a p hp, ?_, ?_, ?_⟩
  · have hpow : 2 ^ (32 - p) ≤ 2 ^ 32 := by omega
    have hfuel : walkFuel = (2 ^ 128 - 2 ^ (32 - p) - 3) + 2 ^ (32 - p) + 3 := by
      unfold walkFuel
      have : (2 : Nat) ^ 32 + 3 ≤ 2 ^ 128 := by norm_num
      omega
    have hip : ip4in6 a = ipAt a := by unfold ipAt; rw [if_pos ha]
    unfold walk
    rw [hfuel, hip, walkLoop_range a p serverIP hp ha hal hend (2 ^ (32 - p)) a _ [] (-1) 0
      (Nat.le_refl a) rfl]
    simp
  · exact List.Pairwise.filter _ (List.pairwise_lt_range' a (2 ^ (32 - p)))
  · rw [List.length_map]
    calc ((List.range' a (2 ^ (32 - p))).filter usable).length
        ≤ (List.range' a (2 ^ (32 - p))).length := List.length_filter_le _ _
      _ = 2 ^ (32 - p) := List.length_range' _ _ _

set_option maxRecDepth 100000 in
/-- Witness of C1: the network `10.0.0.0/30` with server `10.0.0.1`; the walk
yields `10.0.0.1`, `10.0.0.2` and `10.0.0.3`. -/
theorem walk_usable_addresses_witness :
    cidrText 167772160 30 = "10.0.0.0/30" ∧
    ParseCIDR "10.0.0.0/30" =
      some (ip4in6 167772160, ⟨[10, 0, 0, 0], [255, 255, 255, 252]⟩) ∧
    walk ⟨[10, 0, 0, 0], [255, 255, 255, 252]⟩ (ip4in6 167772161) (ip4in6 167772160) =
      some ([⟨"10.0.0.1", ip4in6 167772161, true⟩, ⟨"10.0.0.2", ip4in6 167772162, false⟩,
        ⟨"10.0.0.3", ip4in6 167772163, false⟩], 0) :=
  ⟨by decide,
   (walk_usable_addresses 167772160 30 (ip4in6 167772161) (by decide) (by decide)
      (by decide)).1,
   (walk_usable_addresses 167772160 30 (ip4in6 167772161) (by decide) (by decide)
      (by decide)).2.2.1.trans (by decide)⟩

/-! ## `NextIP` as addition of one -/

theorem leVal_lt (l : List Nat) (h : ∀ b ∈ l, b < 256) : leVal l < 256 ^ l.length := by
  induction l with
  | nil => simp [leVal]
  | cons b bs ih =>
    have hb : b < 256 := h b (List.mem_cons_self _ _)
    have hbs := ih (fun x hx => h x (List.mem_cons_of_mem _ hx))
    simp only [leVal, List.length_cons, pow_succ]
    omega

theorem bytesVal_append (l : List Nat) (b : Nat) : bytesVal (l ++ [b]) = bytesVal l * 256 + b := by
  simp [bytesVal, List.foldl_append]

theorem leVal_eq_bytesVal_reverse (l : List Nat) : leVal l = bytesVal l.reverse := by
  induction l with
  | nil => rfl
  | cons b bs ih =>
    rw [List.reverse_cons, bytesVal_append, ← ih, leVal]
    omega

theorem bytesVal_eq_leVal_reverse (l : List Nat) : bytesVal l = leVal l.reverse := by
  rw [leVal_eq_bytesVal_reverse, List.reverse_reverse]

theorem carry_length (l : List Nat) : (NextIP.carry l).length = l.length := by
  induction l with
  | nil => rfl
  | cons b bs ih =>
    unfold NextIP.carry
    split <;> simp [ih]

theorem carry_lt (l : List Nat) (h : ∀ b ∈ l, b < 256) : ∀ b ∈ NextIP.carry l, b < 256 := by
  induction l with
  | nil => intro b hb; simp [NextIP.carry] at hb
  | cons c cs ih =>
    have hcs : ∀ x ∈ cs, x < 256 := fun x hx => h x (List.mem_cons_of_mem _ hx)
    intro b hb
    unfold NextIP.carry at hb
    split at hb
    · rcases List.mem_cons.1 hb with hb | hb
      · rw [hb]; exact Nat.mod_lt _ (by norm_num)
      · exact hcs b hb
    · rcases List.mem_cons.1 hb with hb | hb
      · rw [hb]; exact Nat.mod_lt _ (by norm_num)
      · exact ih hcs b hb

theorem carry_val (l : List Nat) (h : ∀ b ∈ l, b < 256) :
    leVal (NextIP.carry l) = (leVal l + 1) % 256 ^ l.length := by
  induction l with
  | nil => simp [NextIP.carry, leVal]
  | cons b bs ih =>
    have hb : b < 256 := h b (List.mem_cons_self _ _)
    have hbs : ∀ x ∈ bs, x < 256 := fun x hx => h x (List.mem_cons_of_mem _ hx)
    have hlt := leVal_lt bs hbs
    unfold NextIP.carry
    by_cases hc : (b + 1) % 256 > 0
    · rw [if_pos hc]
      have hb2 : b < 255 := by omega
      have hmod : (b + 1) % 256 = b + 1 := by omega
      simp only [leVal, hmod, List.length_cons, pow_succ]
      rw [Nat.mod_eq_of_lt (by omega)]
      omega
    · rw [if_neg hc]
      have hb2 : b = 255 := by omega
      have hmod : (b + 1) % 256 = 0 := by omega
      simp only [leVal, hmod, ih hbs, List.length_cons, pow_succ, hb2]
      have e : 255 + 256 * leVal bs + 1 = 256 * (leVal bs + 1) := by omega
      rw [e, Nat.mul_comm (256 ^ bs.length) 256, Nat.mul_mod_mul_left]
      omega

theorem NextIP_length (ip : List Nat) : (NextIP ip).length = ip.length := by
  simp [NextIP, carry_length]

theorem NextIP_lt (ip : List Nat) (h : ∀ b ∈ ip, b < 256) : ∀ b ∈ NextIP ip, b < 256 := by
  intro b hb
  unfold NextIP at hb
  rw [List.mem_reverse] at hb
  exact carry_lt ip.reverse (fun x hx => h x (List.mem_reverse.1 hx)) b hb

/-- The value of `NextIP ip` as a big-endian number is the value of `ip` plus
one, modulo `256 ^ len(ip)`. -/
theorem NextIP_val (ip : List Nat) (h : ∀ b ∈ ip, b < 256) :
    bytesVal (NextIP ip) = (bytesVal ip + 1) % 256 ^ ip.length := by
  rw [bytesVal_eq_leVal_reverse, bytesVal_eq_leVal_reverse ip]
  unfold NextIP
  rw [List.reverse_reverse, carry_val ip.reverse (fun x hx => h x (List.mem_reverse.1 hx)),
    List.length_reverse]

theorem iterate_NextIP (ip : List Nat) (h : ∀ b ∈ ip, b < 256) (j : Nat) :
    (NextIP^[j] ip).length = ip.length ∧ (∀ b ∈ NextIP^[j] ip, b < 256) ∧
    bytesVal (NextIP^[j] ip) = (bytesVal ip + j) % 256 ^ ip.length := by
  induction j with
  | zero =>
    refine ⟨rfl, h, ?_⟩
    have := leVal_lt ip.reverse (fun x hx => h x (List.mem_reverse.1 hx))
    rw [List.length_reverse, ← bytesVal_eq_leVal_reverse] at this
    simp only [Function.iterate_zero, id_eq, Nat.add_zero]
    exact (Nat.mod_eq_of_lt this).symm
  | succ j ih =>
    obtain ⟨h1, h2, h3⟩ := ih
    rw [Function.iterate_succ_apply']
    refine ⟨by rw [NextIP_length, h1], NextIP_lt _ h2, ?_⟩
    rw [NextIP_val _ h2, h3, h1, Nat.mod_add_mod, Nat.add_assoc]

/-! ## The address walk over any network -/

/-- What the walk appends: the elements made of the addresses `NextIP^[j] ip`
for an increasing list of step counts `j` below the bound on the iterations. -/
theorem walkLoop_steps (net : IPNet) (srv : List Nat) :
    ∀ (fuel : Nat) (ip : List Nat) (acc : List IPAddress) (idx : Int) (k : Nat)
      (L : List IPAddress) (idx' : Int),
      walkLoop net srv fuel ip acc idx k = some (L, idx') →
      ∃ js : List Nat, js.Pairwise (· < ·) ∧ (∀ j ∈ js, j < fuel) ∧
        L = acc ++ js.map (fun j => walkedAddr srv (NextIP^[j] ip)) ∧
        idx' = serverIndexAfter (js.map (fun j => walkedAddr srv (NextIP^[j] ip))) idx k := by
  intro fuel
  induction fuel with
  | zero => intro ip acc idx k L idx' h; simp [walkLoop] at h
  | succ fuel ih =>
    intro ip acc idx k L idx' h
    have shift : ∀ js : List Nat,
        (js.map (fun j => j + 1)).map (fun j => walkedAddr srv (NextIP^[j] ip)) =
          js.map (fun j => walkedAddr srv (NextIP^[j] (NextIP ip))) := by
      intro js
      rw [List.map_map]
      apply List.map_congr_left
      intro j _
      simp [Function.iterate_succ_apply]
    have shiftPw : ∀ js : List Nat, js.Pairwise (· < ·) →
        (js.map (fun j => j + 1)).Pairwise (· < ·) := by
      intro js hjs
      rw [List.pairwise_map]
      exact hjs.imp (fun hab => Nat.succ_lt_succ hab)
    have shiftLt : ∀ js : List Nat, (∀ j ∈ js, j < fuel) →
        ∀ j ∈ js.map (fun j => j + 1), j < fuel + 1 := by
      intro js hjs j hj
      obtain ⟨j', hj', rfl⟩ := List.mem_map.1 hj
      exact Nat.succ_lt_succ (hjs j' hj')
    rw [walkLoop] at h
    simp only [] at h
    split_ifs at h with h1 h2 h3
    · obtain ⟨js, hpw, hlt, hL, hidx⟩ := ih _ _ _ _ _ _ h
      exact ⟨js.map (fun j => j + 1), shiftPw js hpw, shiftLt js hlt,
        by rw [shift]; exact hL, by rw [shift]; exact hidx⟩
    · simp only [Option.some.injEq, Prod.mk.injEq] at h
      obtain ⟨rfl, rfl⟩ := h
      exact ⟨[], List.Pairwise.nil, by simp, by simp, by simp [serverIndexAfter]⟩
    · obtain ⟨js, hpw, hlt, hL, hidx⟩ := ih _ _ _ _ _ _ h
      refine ⟨0 :: js.map (fun j => j + 1), ?_, ?_, ?_, ?_⟩
      · rw [List.pairwise_cons]
        refine ⟨?_, shiftPw js hpw⟩
        intro j hj
        obtain ⟨j', _, rfl⟩ := List.mem_map.1 hj
        exact Nat.succ_pos j'
      · intro j hj
        rcases List.mem_cons.1 hj with rfl | hj
        · exact Nat.succ_pos fuel
        · exact shiftLt js hlt j hj
      · rw [List.map_cons, shift, hL]
        simp [walkedAddr, h3]
      · rw [List.map_cons, shift, hidx]
        simp [walkedAddr, h3, serverIndexAfter]
    · obtain ⟨js, hpw, hlt, hL, hidx⟩ := ih _ _ _ _ _ _ h
      refine ⟨0 :: js.map (fun j => j + 1), ?_, ?_, ?_, ?_⟩
      · rw [List.pairwise_cons]
        refine ⟨?_, shiftPw js hpw⟩
        intro j hj
        obtain ⟨j', _, rfl⟩ := List.mem_map.1 hj
        exact Nat.succ_pos j'
      · intro j hj
        rcases List.mem_cons.1 hj with rfl | hj
        · exact Nat.succ_pos fuel
        · exact shiftLt js hlt j hj
      · rw [List.map_cons, shift, hL]
        simp [walkedAddr, h3]
      · rw [List.map_cons, shift, hidx]
        simp [walkedAddr, h3, serverIndexAfter]

theorem as16_length (v : Nat) : (as16 v).length = 16 := by
  simp [as16]

theorem as16_lt (v : Nat) : ∀ b ∈ as16 v, b < 256 := by
  intro b hb
  simp only [as16, List.mem_map] at hb
  obtain ⟨i, _, rfl⟩ := hb
  exact Nat.mod_lt _ (by norm_num)

theorem ParseCIDR_as16 (s : String) (ip : List Nat) (net : IPNet)
    (h : ParseCIDR s = some (ip, net)) : ∃ v, ip = as16 v := by
  unfold ParseCIDR at h
  split_ifs at h
  simp only [] at h
  split at h
  · cases h
  · split at h
    · cases h
    · split_ifs at h
      simp only [Option.some.injEq, Prod.mk.injEq] at h
      exact ⟨_, h.1.symm⟩

theorem ParseIP_as16 (s : String) (ip : List Nat) (h : ParseIP s = some ip) :
    ∃ v, ip = as16 v := by
  unfold ParseIP at h
  cases hp : ParseAddr s with
  | none => rw [hp] at h; cases h
  | some r =>
    rw [hp] at h
    simp only [Option.map_some', Option.some.injEq] at h
    exact ⟨_, h.symm⟩

/-- Two addresses of the same length that `IP.Equal` finds equal to the same
address are the same bytes. -/
theorem IPEqual_unique (x y srv : List Nat) (hx : IPEqual x srv = true)
    (hy : IPEqual y srv = true) (hlen : x.length = y.length) : x = y := by
  unfold IPEqual at hx hy
  by_cases h1 : x.length = srv.length
  · have h2 : y.length = srv.length := by omega
    rw [if_pos h1] at hx
    rw [if_pos h2] at hy
    simp only [decide_eq_true_eq] at hx hy
    rw [hx, hy]
  · have h2 : ¬ y.length = srv.length := by omega
    rw [if_neg h1] at hx
    rw [if_neg h2] at hy
    by_cases h3 : x.length = 4 ∧ srv.length = 16
    · have h4 : y.length = 4 ∧ srv.length = 16 := ⟨by omega, h3.2⟩
      rw [if_pos h3] at hx
      rw [if_pos h4] at hy
      simp only [Bool.and_eq_true, decide_eq_true_eq] at hx hy
      rw [hx.2, hy.2]
    · have h4 : ¬ (y.length = 4 ∧ srv.length = 16) := fun hc => h3 ⟨by omega, hc.2⟩
      rw [if_neg h3] at hx
      rw [if_neg h4] at hy
      by_cases h5 : x.length = 16 ∧ srv.length = 4
      · have h6 : y.length = 16 ∧ srv.length = 4 := ⟨by omega, h5.2⟩
        rw [if_pos h5] at hx
        rw [if_pos h6] at hy
        simp only [Bool.and_eq_true, decide_eq_true_eq] at hx hy
        rw [← List.take_append_drop 12 x, ← List.take_append_drop 12 y, hx.1, hx.2, hy.1, hy.2]
      · rw [if_neg h5] at hx
        cases hx

/-- The facts about the result of the walk that `Generate` relies on.  From a
first address of sixteen bytes, every element of `allIPs` is made of its own
address, all addresses have sixteen bytes, and at most one element is flagged as
the server. -/
theorem walk_result (net : IPNet) (srv : List Nat) (v : Nat) (allIPs : List IPAddress)
    (idx : Int) (h : walk net srv (as16 v) = some (allIPs, idx)) :
    (∀ e ∈ allIPs, e = walkedAddr srv e.IP ∧ e.IP.length = 16) ∧
    (∀ i j : Nat, ∀ hi : i < allIPs.length, ∀ hj : j < allIPs.length,
      (allIPs.get ⟨i, hi⟩).IsServerIP = true → (allIPs.get ⟨j, hj⟩).IsServerIP = true → i = j) ∧
    idx = serverIndexAfter allIPs (-1) 0 := by
  unfold walk at h
  obtain ⟨js, hpw, hlt, hL, hidx⟩ := walkLoop_steps net srv _ _ _ _ _ _ _ h
  rw [List.nil_append] at hL
  subst hL
  have hit := iterate_NextIP (as16 v) (as16_lt v)
  refine ⟨?_, ?_, hidx⟩
  · intro e he
    obtain ⟨j, _, rfl⟩ := List.mem_map.1 he
    exact ⟨rfl, by rw [walkedAddr, (hit j).1, as16_length]⟩
  · intro i j hi hj h1 h2
    simp only [List.length_map] at hi hj
    simp only [List.get_eq_getElem, List.getElem_map, walkedAddr] at h1 h2
    have hlen : (NextIP^[js[i]] (as16 v)).length = (NextIP^[js[j]] (as16 v)).length := by
      rw [(hit _).1, (hit _).1]
    have heq := IPEqual_unique _ _ srv h1 h2 hlen
    have hval : (bytesVal (as16 v) + js[i]) % 256 ^ 16 = (bytesVal (as16 v) + js[j]) % 256 ^ 16 := by
      have e1 := (hit js[i]).2.2
      have e2 := (hit js[j]).2.2
      rw [as16_length] at e1 e2
      rw [← e1, ← e2, heq]
    have hi2 : js[i] < 2 ^ 128 := hlt _ (List.getElem_mem _)
    have hj2 : js[j] < 2 ^ 128 := hlt _ (List.getElem_mem _)
    have hjs : js[i] = js[j] := by
      have hM : (256 : Nat) ^ 16 = 2 ^ 128 := by norm_num
      rw [hM] at hval
      omega
    by_contra hne
    rcases Nat.lt_or_gt_of_ne hne with hlt2 | hlt2
    · have := List.pairwise_iff_getElem.1 hpw i j hi hj hlt2
      omega
    · have := List.pairwise_iff_getElem.1 hpw j i hj hi hlt2
      omega

/-! ## The order of the tasks -/

theorem perm_cons_eraseIdx {α : Type} (l : List α) (i : Nat) (t : α) (h : l[i]? = some t) :
    l.Perm (t :: l.eraseIdx i) := by
  induction l generalizing i with
  | nil => simp at h
  | cons a l ih =>
    cases i with
    | zero =>
      simp only [List.getElem?_cons_zero, Option.some.injEq] at h
      subst h
      simp
    | succ i =>
      simp only [List.getElem?_cons_succ] at h
      rw [List.eraseIdx_cons_succ]
      exact ((ih i h).cons a).trans (List.Perm.swap t a _)

/-- Every scheduler runs each pending task of a batch exactly once. -/
theorem pickOrder_perm {α : Type} (sched : Nat → Nat) :
    ∀ (fuel n : Nat) (pending : List α), pending.length ≤ fuel →
      (pickOrder sched fuel n pending).Perm pending := by
  intro fuel
  induction fuel with
  | zero =>
    intro n pending h
    have : pending = [] := List.length_eq_zero.1 (Nat.le_zero.1 h)
    subst this
    simp [pickOrder]
  | succ fuel ih =>
    intro n pending h
    rw [pickOrder]
    cases hp : pending[sched n % pending.length]? with
    | none =>
      simp only []
      have hge := List.getElem?_eq_none_iff.1 hp
      by_cases hpos : 0 < pending.length
      · have := Nat.mod_lt (sched n) hpos
        omega
      · have : pending = [] := List.length_eq_zero.1 (by omega)
        subst this
        exact List.Perm.refl _
    | some t =>
      simp only []
      have hlt : sched n % pending.length < pending.length := by
        by_contra hc
        rw [List.getElem?_eq_none_iff.2 (by omega)] at hp
        cases hp
      have hlen : (pending.eraseIdx (sched n % pending.length)).length ≤ fuel := by
        rw [List.length_eraseIdx]
        simp only [hlt, if_true]
        omega
      exact ((ih (n + 1) _ hlen).cons t).trans (perm_cons_eraseIdx pending _ t hp).symm

/-- The tasks that run are the addresses that are not flagged as the server, each
once. -/
theorem executionOrder_perm (sched : Nat → Nat) (allIPs : List IPAddress) :
    ∀ (fuel j n : Nat), allIPs.length ≤ j + 1000 * fuel →
      (executionOrder sched allIPs fuel j n).Perm
        ((allIPs.enum.drop j).filter (fun t => !t.2.IsServerIP)) := by
  intro fuel
  induction fuel with
  | zero =>
    intro j n h
    have : allIPs.enum.drop j = [] := by
      apply List.drop_eq_nil_of_le
      rw [List.enum_length]
      omega
    simp [executionOrder, this]
  | succ fuel ih =>
    intro j n h
    rw [executionOrder]
    by_cases hj : j < allIPs.length
    · rw [if_pos hj]
      simp only []
      have hsplit : (allIPs.enum.drop j).filter (fun t => !t.2.IsServerIP) =
          batchTasks allIPs j ++ (allIPs.enum.drop (j + 1000)).filter (fun t => !t.2.IsServerIP) := by
        unfold batchTasks
        rw [← List.filter_append, ← List.drop_drop, List.take_append_drop]
      rw [hsplit]
      exact List.Perm.append (pickOrder_perm sched _ n _ (Nat.le_refl _))
        (ih (j + 1000) _ (by omega))
    · rw [if_neg hj]
      have : allIPs.enum.drop j = [] := by
        apply List.drop_eq_nil_of_le
        rw [List.enum_length]
        omega
      simp [this]

/-- Membership in the run: a task runs exactly when its address is in `allIPs`
at its index and is not flagged as the server. -/
theorem mem_executionOrder (sched : Nat → Nat) (allIPs : List IPAddress) (t : Nat × IPAddress) :
    t ∈ executionOrder sched allIPs allIPs.length 0 0 ↔
      allIPs[t.1]? = some t.2 ∧ t.2.IsServerIP = false := by
  rw [(executionOrder_perm sched allIPs allIPs.length 0 0 (by omega)).mem_iff]
  simp [List.mem_filter, List.mem_enum_iff_getElem?]

/-! ## The tasks of `Generate` -/

/-- The key rules change nothing but the three keys. -/
theorem applyKeyRules_frame (env : Env) (p : GenerationForm) (rng : Nat) (w w' : WgConfig)
    (rng' : Nat) (h : applyKeyRules env p rng w = .ok (w', rng')) :
    w'.ID = w.ID ∧ w'.IP = w.IP ∧ w'.IsServer = w.IsServer ∧ w'.Config = w.Config ∧
    w'.Name = w.Name ∧ w'.Description = w.Description ∧ w'.Extra = w.Extra ∧
    w'.AllowedIPs = w.AllowedIPs ∧ w'.PersistentKeepAlive = w.PersistentKeepAlive ∧
    w'.MTU = w.MTU ∧ w'.Endpoint = w.Endpoint ∧ w'.EndpointPort = w.EndpointPort ∧
    w'.DNS = w.DNS := by
  rw [applyKeyRules_eq] at h
  by_cases h1 : w.PrivateKey = "" ∨ w.PublicKey = "" ∨ p.RegenerateKeys = true
  · rw [if_pos h1] at h
    cases hg : env.GeneratePrivateKey rng with
    | error e => rw [hg] at h; cases h
    | ok kp =>
      obtain ⟨priv, pub⟩ := kp
      rw [hg] at h
      simp only [] at h
      by_cases h2 : w.PreSharedKey = "" ∨ p.RegenerateKeys = true
      · rw [if_pos h2] at h
        cases hs : env.GeneratePreSharedKey (rng + 1) with
        | none => rw [hs] at h; cases h
        | some psk =>
          rw [hs] at h
          simp only [Except.ok.injEq, Prod.mk.injEq] at h
          obtain ⟨rfl, _⟩ := h
          exact ⟨rfl, rfl, rfl, rfl, rfl, rfl, rfl, rfl, rfl, rfl, rfl, rfl, rfl⟩
      · rw [if_neg h2] at h
        simp only [Except.ok.injEq, Prod.mk.injEq] at h
        obtain ⟨rfl, _⟩ := h
        exact ⟨rfl, rfl, rfl, rfl, rfl, rfl, rfl, rfl, rfl, rfl, rfl, rfl, rfl⟩
  · rw [if_neg h1] at h
    by_cases h2 : w.PreSharedKey = "" ∨ p.RegenerateKeys = true
    · rw [if_pos h2] at h
      cases hs : env.GeneratePreSharedKey rng with
      | none => rw [hs] at h; cases h
      | some psk =>
        rw [hs] at h
        simp only [Except.ok.injEq, Prod.mk.injEq] at h
        obtain ⟨rfl, _⟩ := h
        exact ⟨rfl, rfl, rfl, rfl, rfl, rfl, rfl, rfl, rfl, rfl, rfl, rfl, rfl⟩
    · rw [if_neg h2] at h
      simp only [Except.ok.injEq, Prod.mk.injEq] at h
      obtain ⟨rfl, _⟩ := h
      exact ⟨rfl, rfl, rfl, rfl, rfl, rfl, rfl, rfl, rfl, rfl, rfl, rfl, rfl⟩

/-- A task that succeeds stores one record under its id: the record has that id,
the text of the task's address and the task's server flag. -/
theorem prepDevice_ok (env : Env) (conf : Configuration) (peersIn : List WgConfig)
    (server : Option WgConfig) (i : Nat) (ip : IPAddress) (st st' : GenState)
    (h : prepDevice env conf peersIn server i ip st = .ok st') :
    ∃ w, st'.peers = mapSet st.peers i w ∧ w.ID = i ∧ w.IP = ip.S ∧
      w.IsServer = ip.IsServerIP := by
  unfold prepDevice at h
  simp only [] at h
  split at h
  · cases h
  · rename_i w rng hk
    obtain ⟨h1, h2, h3, _⟩ := applyKeyRules_frame _ _ _ _ _ _ hk
    rw [applyForcedRules_ID, applySoftRules_ID] at h1
    rw [applyForcedRules_IP, applySoftRules_IP] at h2
    rw [applyForcedRules_IsServer, applySoftRules_IsServer] at h3
    simp only [] at h1 h2 h3
    cases server with
    | none =>
      simp only [Except.ok.injEq] at h
      subst h
      exact ⟨_, rfl, h1, h2, h3⟩
    | some srv =>
      simp only [GenerateConfig] at h
      by_cases hs : ¬ w.IsServer = true
      · rw [if_pos hs] at h
        by_cases hz : conf.UseGzipDuringProcessing = true
        · rw [if_pos hz] at h
          split at h
          · cases h
          · simp only [Except.ok.injEq] at h
            subst h
            exact ⟨_, rfl, h1, h2, h3⟩
        · rw [if_neg hz] at h
          simp only [Except.ok.injEq] at h
          subst h
          exact ⟨_, rfl, h1, h2, h3⟩
      · rw [if_neg hs] at h
        simp only [Except.ok.injEq] at h
        subst h
        exact ⟨_, rfl, h1, h2, h3⟩

/-- What a run of tasks leaves in the map `conf.peers`: the keys are the old keys
and the ids of the tasks, a key that is no task's id keeps its record, and the
record under a task's id has that id and the address text and server flag of a
task with that id. -/
theorem runTasks_ok (env : Env) (conf : Configuration) (peersIn : List WgConfig)
    (server : Option WgConfig) :
    ∀ (tasks : List (Nat × IPAddress)) (st st' : GenState),
      runTasks env conf peersIn server tasks st = .ok st' →
      (∀ k, k ∈ st'.peers.map Prod.fst ↔
        (k ∈ st.peers.map Prod.fst ∨ ∃ t ∈ tasks, t.1 + 1 = k)) ∧
      ((st.peers.map Prod.fst).Nodup → (st'.peers.map Prod.fst).Nodup) ∧
      (∀ k, (∀ t ∈ tasks, t.1 + 1 ≠ k) → mapGet st'.peers k = mapGet st.peers k) ∧
      (∀ k, (∃ t ∈ tasks, t.1 + 1 = k) → ∃ t ∈ tasks, t.1 + 1 = k ∧
        (mapGet st'.peers k).ID = k ∧ (mapGet st'.peers k).IP = t.2.S ∧
        (mapGet st'.peers k).IsServer = t.2.IsServerIP) := by
  intro tasks
  induction tasks with
  | nil =>
    intro st st' h
    simp only [runTasks, Except.ok.injEq] at h
    subst h
    simp
  | cons t rest ih =>
    intro st st' h
    rw [runTasks] at h
    split at h
    · cases h
    · rename_i st1 hp
      obtain ⟨w, hw, hid, hip, hsrv⟩ := prepDevice_ok _ _ _ _ _ _ _ _ hp
      obtain ⟨ih1, ih2, ih3, ih4⟩ := ih st1 st' h
      refine ⟨?_, ?_, ?_, ?_⟩
      · intro k
        rw [ih1 k, hw, mem_mapSet_keys]
        constructor
        · rintro ((rfl | hk) | ⟨t', ht', rfl⟩)
          · exact Or.inr ⟨t, List.mem_cons_self _ _, rfl⟩
          · exact Or.inl hk
          · exact Or.inr ⟨t', List.mem_cons_of_mem _ ht', rfl⟩
        · rintro (hk | ⟨t', ht', rfl⟩)
          · exact Or.inl (Or.inr hk)
          · rcases List.mem_cons.1 ht' with rfl | ht'
            · exact Or.inl (Or.inl rfl)
            · exact Or.inr ⟨t', ht', rfl⟩
      · intro hnd
        apply ih2
        rw [hw]
        exact mapSet_keys_nodup _ _ _ hnd
      · intro k hk
        rw [ih3 k (fun t' ht' => hk t' (List.mem_cons_of_mem _ ht')), hw, mapGet_mapSet,
          if_neg (fun hc => hk t (List.mem_cons_self _ _) hc.symm)]
      · intro k hk
        by_cases hr : ∃ t' ∈ rest, t'.1 + 1 = k
        · obtain ⟨t', ht', hrest⟩ := ih4 k hr
          exact ⟨t', List.mem_cons_of_mem _ ht', hrest⟩
        · have hr2 : ∀ t' ∈ rest, t'.1 + 1 ≠ k := fun t' ht' hc => hr ⟨t', ht', hc⟩
          obtain ⟨t', ht', hk'⟩ := hk
          rcases List.mem_cons.1 ht' with rfl | ht'
          · refine ⟨t', List.mem_cons_self _ _, hk', ?_⟩
            rw [ih3 k hr2, hw, mapGet_mapSet, if_pos hk'.symm]
            exact ⟨by rw [hid, hk'], hip, hsrv⟩
          · exact absurd hk' (hr2 t' ht')

theorem mem_mapSet (m : List (Nat × WgConfig)) (k : Nat) (v : WgConfig) (e : Nat × WgConfig)
    (h : e ∈ mapSet m k v) : e = (k, v) ∨ e ∈ m := by
  unfold mapSet at h
  split_ifs at h
  · obtain ⟨e', he', rfl⟩ := List.mem_map.1 h
    by_cases hk : e'.1 = k
    · simp [hk]
    · have : (e'.1 == k) = false := by simpa using hk
      simp [this, he']
  · rcases List.mem_append.1 h with h | h
    · exact Or.inr h
    · exact Or.inl (List.mem_singleton.1 h)

/-- A lookup gives the zero value or the record of an entry of the map. -/
theorem mapGet_mem (m : List (Nat × WgConfig)) (k : Nat) :
    mapGet m k = WgConfig.zero ∨ (k, mapGet m k) ∈ m := by
  induction m with
  | nil => exact Or.inl rfl
  | cons e m ih =>
    rw [mapGet_cons]
    by_cases h : e.1 = k
    · rw [if_pos h]
      right
      rw [← h]
      exact List.mem_cons_self _ _
    · rw [if_neg h]
      rcases ih with ih | ih
      · exact Or.inl ih
      · exact Or.inr (List.mem_cons_of_mem _ ih)

theorem mapSet_length_of_mem (m : List (Nat × WgConfig)) (k : Nat) (v : WgConfig)
    (h : k ∈ m.map Prod.fst) : (mapSet m k v).length = m.length := by
  unfold mapSet
  rw [if_pos ((any_key_iff m k).2 h), List.length_map]

/-! ## The collection that `Generate` leaves -/

/-- What the part of `Generate` after the walk leaves when it succeeds, given that
the server flags of the prior collection are cleared and that at most one walked
address is flagged: the flagged address has index `serverIPIndex`, the
collection has at least as many records as there are walked addresses (exactly
as many when the prior collection is empty), the record at the position of a
walked address has the next id and the text of that address, and the record at
the position of the flagged address is the only one with the server flag. -/
theorem generateDevices_ok (env : Env) (conf : Configuration) (net : IPNet)
    (allIPs : List IPAddress) (idx : Int) (conf' : Configuration)
    (hclear : ∀ w ∈ conf.Peers, w.IsServer = false)
    (huniq : ∀ i j : Nat, ∀ hi : i < allIPs.length, ∀ hj : j < allIPs.length,
      (allIPs.get ⟨i, hi⟩).IsServerIP = true → (allIPs.get ⟨j, hj⟩).IsServerIP = true → i = j)
    (h : generateDevices env conf net allIPs idx = { conf := conf', err := none }) :
    ∃ i0 : Nat, idx = Int.ofNat i0 ∧ i0 < allIPs.length ∧
      (allIPs.getD i0 ⟨"", [], false⟩).IsServerIP = true ∧
      conf'.GenerationParams = conf.GenerationParams ∧
      allIPs.length ≤ conf'.Peers.length ∧
      (conf.Peers = [] → conf'.Peers.length = allIPs.length) ∧
      (∀ l, l < allIPs.length →
        (conf'.Peers.getD l WgConfig.zero).ID = l + 1 ∧
        (conf'.Peers.getD l WgConfig.zero).IP = (allIPs.getD l ⟨"", [], false⟩).S) ∧
      (∀ l, l < conf'.Peers.length →
        ((conf'.Peers.getD l WgConfig.zero).IsServer = true ↔ l = i0)) := by
  unfold generateDevices at h
  simp only [] at h
  by_cases hidx : idx ≥ 0 ∧ (allIPs.getD idx.toNat ⟨"", [], false⟩).IsServerIP = true
  swap
  · rw [if_neg hidx] at h
    simp at h
  rw [if_pos hidx] at h
  obtain ⟨hnn, hflag⟩ := hidx
  have hi0 : idx.toNat < allIPs.length := by
    by_contra hc
    rw [List.getD_eq_default _ _ (by omega)] at hflag
    cases hflag
  have hidxeq : idx = Int.ofNat idx.toNat := by
    simp only [Int.ofNat_eq_coe]
    omega
  generalize idx.toNat = i0 at h hflag hi0 hidxeq
  -- the flagged addresses
  have hget : ∀ l (hl : l < allIPs.length), allIPs.getD l ⟨"", [], false⟩ = allIPs.get ⟨l, hl⟩ := by
    intro l hl
    simp [List.getD_eq_getElem?_getD, List.getElem?_eq_getElem hl]
  have honly : ∀ l, l < allIPs.length →
      (allIPs.getD l ⟨"", [], false⟩).IsServerIP = true → l = i0 := by
    intro l hl hf
    rw [hget l hl] at hf
    rw [hget i0 hi0] at hflag
    exact huniq l i0 hl hi0 hf hflag
  split at h
  · simp at h
  rename_i st1 hp
  obtain ⟨ws, hws, hsid, hsip, hssrv⟩ := prepDevice_ok _ _ _ _ _ _ _ _ hp
  simp only [] at hws
  rw [hflag] at hssrv
  -- the entries of the seeded map carry no server flag
  have hseed : ∀ e ∈ conf.Peers.enum, e.2.IsServer = false := fun e he =>
    hclear e.2 (List.snd_mem_of_mem_enum he)
  split at h
  · simp at h
  rename_i sI server hf
  have hfound := List.find?_some hf
  have hmem := List.mem_of_find?_eq_some hf
  simp only [] at hfound
  rw [hws] at hmem
  have hsrv : (sI, server) = (i0 + 1, ws) := by
    rcases mem_mapSet _ _ _ _ hmem with hm | hm
    · exact hm
    · have := hseed _ hm
      simp only [] at this
      rw [this] at hfound
      cases hfound
  simp only [Prod.mk.injEq] at hsrv
  obtain ⟨rfl, rfl⟩ := hsrv
  split at h
  · simp at h
  split at h
  · simp at h
  rename_i st2 hr
  obtain ⟨r1, r2, r3, r4⟩ := runTasks_ok _ _ _ _ _ _ _ hr
  split at h
  · simp at h
  rename_i config hc
  simp only [GenResult.mk.injEq, and_true] at h
  subst h
  -- the keys of the maps
  have hk0 : (conf.Peers.enum.map Prod.fst).Nodup := by
    rw [List.enum_map_fst]
    exact List.nodup_range _
  have hk1 : (st1.peers.map Prod.fst).Nodup := by
    rw [hws]
    exact mapSet_keys_nodup _ _ _ hk0
  have hk2 := r2 hk1
  have hs1 : i0 + 1 ∈ st1.peers.map Prod.fst := by
    rw [hws, mem_mapSet_keys]
    exact Or.inl rfl
  have hs2 : i0 + 1 ∈ st2.peers.map Prod.fst := (r1 _).2 (Or.inl hs1)
  have htask : ∀ l, l < allIPs.length → l ≠ i0 →
      ∃ t ∈ executionOrder env.sched allIPs allIPs.length 0 0, t.1 + 1 = l + 1 := by
    intro l hl hne
    refine ⟨(l, allIPs.getD l ⟨"", [], false⟩), ?_, rfl⟩
    rw [mem_executionOrder]
    refine ⟨?_, ?_⟩
    · simp [List.getD_eq_getElem?_getD, List.getElem?_eq_getElem hl]
    · by_contra hc2
      exact hne (honly l hl (by simpa using hc2))
  have htaskmem : ∀ t ∈ executionOrder env.sched allIPs allIPs.length 0 0,
      t.1 < allIPs.length ∧ t.2 = allIPs.getD t.1 ⟨"", [], false⟩ ∧ t.2.IsServerIP = false ∧
        t.1 ≠ i0 := by
    intro t ht
    obtain ⟨ht1, ht2⟩ := (mem_executionOrder _ _ _).1 ht
    have hlt : t.1 < allIPs.length := by
      by_contra hc2
      rw [List.getElem?_eq_none_iff.2 (by omega)] at ht1
      cases ht1
    have heq : t.2 = allIPs.getD t.1 ⟨"", [], false⟩ := by
      simp [List.getD_eq_getElem?_getD, ht1]
    refine ⟨hlt, heq, ht2, ?_⟩
    intro hc2
    rw [hc2] at heq
    rw [heq, hflag] at ht2
    cases ht2
  have hkeys : ∀ l, l < allIPs.length → l + 1 ∈ st2.peers.map Prod.fst := by
    intro l hl
    by_cases hne : l = i0
    · rw [hne]; exact hs2
    · exact (r1 _).2 (Or.inr (htask l hl hne))
  have hlen2 : allIPs.length ≤ st2.peers.length := by
    have hsub : List.range' 1 allIPs.length ⊆ st2.peers.map Prod.fst := by
      intro k hk
      rw [List.mem_range'_1] at hk
      have := hkeys (k - 1) (by omega)
      rwa [show k - 1 + 1 = k by omega] at this
    have := (List.subperm_of_subset (List.nodup_range' 1 allIPs.length) hsub).length_le
    simpa using this
  -- the record under each key
  have hserver2 : mapGet st2.peers (i0 + 1) = server := by
    rw [r3 (i0 + 1) (fun t ht hc2 => (htaskmem t ht).2.2.2 (by omega)), hws, mapGet_mapSet,
      if_pos rfl]
  have hout : ∀ l, l < (mapSet st2.peers (i0 + 1) { server with Config := config }).length →
      ((List.range (mapSet st2.peers (i0 + 1) { server with Config := config }).length).map
        (fun i => mapGet (mapSet st2.peers (i0 + 1) { server with Config := config }) (i + 1))).getD l
          WgConfig.zero =
        if l = i0 then { server with Config := config } else mapGet st2.peers (l + 1) := by
    intro l hl
    rw [List.getD_eq_getElem?_getD, List.getElem?_map, List.getElem?_range hl]
    simp only [Option.map_some', Option.getD_some, mapGet_mapSet]
    by_cases hli : l = i0
    · simp [hli]
    · have : ¬ l + 1 = i0 + 1 := by omega
      simp [hli, this]
  have hlenout : (mapSet st2.peers (i0 + 1) { server with Config := config }).length =
      st2.peers.length := mapSet_length_of_mem _ _ _ hs2
  refine ⟨i0, hidxeq, hi0, hflag, rfl, ?_, ?_, ?_, ?_⟩
  · simp only [List.length_map, List.length_range, hlenout]
    exact hlen2
  · intro hempty
    simp only [List.length_map, List.length_range, hlenout]
    apply Nat.le_antisymm _ hlen2
    have hsub : st2.peers.map Prod.fst ⊆ List.range' 1 allIPs.length := by
      intro k hk
      rw [List.mem_range'_1]
      rcases (r1 k).1 hk with hk1 | ⟨t, ht, rfl⟩
      · rw [hws, mem_mapSet_keys, hempty] at hk1
        rcases hk1 with rfl | hk1
        · omega
        · simp at hk1
      · have := (htaskmem t ht).1
        omega
    have := (List.subperm_of_subset hk2 hsub).length_le
    simpa using this
  · intro l hl
    have hl2 : l < (mapSet st2.peers (i0 + 1) { server with Config := config }).length := by
      rw [hlenout]; omega
    rw [hout l hl2]
    by_cases hli : l = i0
    · rw [if_pos hli, hli]
      exact ⟨hsid, hsip⟩
    · rw [if_neg hli]
      obtain ⟨t, ht, hk, hid, hip, _⟩ := r4 (l + 1) (htask l hl hli)
      have htl : t.1 = l := by omega
      obtain ⟨_, heq, _, _⟩ := htaskmem t ht
      rw [htl] at heq
      rw [← heq]
      exact ⟨hid, hip⟩
  · intro l hl
    simp only [List.length_map, List.length_range] at hl
    rw [hout l hl]
    by_cases hli : l = i0
    · rw [if_pos hli]
      simp [hli, hssrv]
    · rw [if_neg hli]
      simp only [hli, iff_false, Bool.not_eq_true]
      by_cases htk : ∃ t ∈ executionOrder env.sched allIPs allIPs.length 0 0, t.1 + 1 = l + 1
      · obtain ⟨t, ht, _, _, _, hsv⟩ := r4 (l + 1) htk
        rw [hsv]
        exact (htaskmem t ht).2.2.1
      · rw [r3 (l + 1) (fun t ht hc2 => htk ⟨t, ht, hc2⟩), hws, mapGet_mapSet,
          if_neg (by omega)]
        rcases mapGet_mem conf.Peers.enum (l + 1) with hz | hm
        · rw [hz]; rfl
        · exact hseed _ hm

/-! ## Successful runs of `Generate` -/

/-- The steps behind a successful `Generate`: the CIDR and the server parse, the
walk ends, and the part after the walk succeeds on the collection whose server
flags are cleared. -/
theorem Generate_ok_steps (env : Env) (conf conf' : Configuration)
    (h : Generate env conf = some { conf := conf', err := none }) :
    ∃ firstIP cidrNet srv allIPs idx,
      ParseCIDR conf.GenerationParams.CIDR = some (firstIP, cidrNet) ∧
      IPNetString cidrNet = conf.GenerationParams.CIDR ∧
      ParseIP conf.GenerationParams.Server = some srv ∧
      Contains cidrNet srv = true ∧
      walk cidrNet srv firstIP = some (allIPs, idx) ∧
      generateDevices env
        { GenerationParams := conf.GenerationParams,
          UseGzipDuringProcessing := conf.UseGzipDuringProcessing,
          Peers := (if conf.GenerationParams.ResetAll then [] else conf.Peers).map
            (fun w => { w with IsServer := false }) } cidrNet allIPs idx =
        { conf := conf', err := none } := by
  unfold Generate at h
  cases hp : ParseCIDR conf.GenerationParams.CIDR with
  | none => rw [hp] at h; simp at h
  | some r =>
    obtain ⟨firstIP, cidrNet⟩ := r
    rw [hp] at h
    simp only [] at h
    by_cases ha : IPNetString cidrNet ≠ conf.GenerationParams.CIDR
    · rw [if_pos ha] at h; simp at h
    · rw [if_neg ha] at h
      cases hs : ParseIP conf.GenerationParams.Server with
      | none => rw [hs] at h; simp at h
      | some srv =>
        rw [hs] at h
        simp only [] at h
        by_cases hc : ¬ Contains cidrNet srv = true
        · rw [if_pos hc] at h; simp at h
        · rw [if_neg hc] at h
          cases he : EstimateNetworkSize cidrNet with
          | error e => rw [he] at h; simp at h
          | ok n =>
            rw [he] at h
            simp only [] at h
            cases hw : walk cidrNet srv firstIP with
            | none => rw [hw] at h; simp at h
            | some r2 =>
              obtain ⟨allIPs, idx⟩ := r2
              rw [hw] at h
              simp only [Option.some.injEq] at h
              refine ⟨firstIP, cidrNet, srv, allIPs, idx, rfl, by simpa using ha, rfl,
                by simpa using hc, hw, ?_⟩
              rw [← h]
              by_cases hr : conf.GenerationParams.ResetAll = true <;> simp [hr]


theorem cleared_flags (l : List WgConfig) :
    ∀ w ∈ l.map (fun w => { w with IsServer := false }), w.IsServer = false := by
  intro w hw
  obtain ⟨w0, _, rfl⟩ := List.mem_map.1 hw
  rfl

/-- C2 as amended: after every successful `Generate`, for every prior collection
and parameters, exactly one record of `conf.Peers` has IsServer set, and the IP
of that record is the canonical text (`IP.String`) of the parsed
`GenerationParams.Server`; no other record, carried from the prior collection or
not, has the flag. -/
theorem Generate_one_server (env : Env) (conf conf' : Configuration)
    (h : Generate env conf = some { conf := conf', err := none }) :
    ∃ srv, ParseIP conf.GenerationParams.Server = some srv ∧
      ∃ i0, i0 < conf'.Peers.length ∧
        (conf'.Peers.getD i0 WgConfig.zero).IsServer = true ∧
        (conf'.Peers.getD i0 WgConfig.zero).IP = IPString srv ∧
        ∀ l, l < conf'.Peers.length →
          (conf'.Peers.getD l WgConfig.zero).IsServer = true → l = i0 := by
  obtain ⟨firstIP, cidrNet, srv, allIPs, idx, hp, _, hs, _, hw, hg⟩ :=
    Generate_ok_steps env conf conf' h
  obtain ⟨v, rfl⟩ := ParseCIDR_as16 _ _ _ hp
  obtain ⟨vs, rfl⟩ := ParseIP_as16 _ _ hs
  obtain ⟨w1, w2, _⟩ := walk_result cidrNet (as16 vs) v allIPs idx hw
  obtain ⟨i0, _, hi0, hflag, _, hlen, _, hrec, hsrv⟩ :=
    generateDevices_ok env _ cidrNet allIPs idx conf' (cleared_flags _) w2 hg
  refine ⟨as16 vs, hs, i0, by omega, (hsrv i0 (by omega)).2 rfl, ?_, ?_⟩
  · rw [(hrec i0 hi0).2]
    have hmem : allIPs.getD i0 ⟨"", [], false⟩ ∈ allIPs := by
      rw [List.getD_eq_getElem?_getD, List.getElem?_eq_getElem hi0]
      exact List.getElem_mem _
    obtain ⟨he, hl⟩ := w1 _ hmem
    rw [he] at hflag
    rw [he]
    simp only [walkedAddr] at hflag ⊢
    unfold IPEqual at hflag
    rw [if_pos (by rw [hl, as16_length])] at hflag
    rw [of_decide_eq_true hflag]
  · intro l hl hf
    exact (hsrv l hl).1 hf

/-- C3 as amended: after every successful `Generate`, for every prior collection,
`conf.Peers` has at least `N` records, where `N` is the number of addresses
walked, and for every `i` from 1 to `N` the record at position `i` has ID `i`
and the `i`-th walked address; when the prior collection is empty or ResetAll is
set, `conf.Peers` has exactly `N` records. -/
theorem Generate_ids (env : Env) (conf conf' : Configuration)
    (h : Generate env conf = some { conf := conf', err := none }) :
    ∃ firstIP cidrNet srv allIPs idx,
      ParseCIDR conf.GenerationParams.CIDR = some (firstIP, cidrNet) ∧
      ParseIP conf.GenerationParams.Server = some srv ∧
      walk cidrNet srv firstIP = some (allIPs, idx) ∧
      allIPs.length ≤ conf'.Peers.length ∧
      ((conf.Peers = [] ∨ conf.GenerationParams.ResetAll = true) →
        conf'.Peers.length = allIPs.length) ∧
      ∀ l, l < allIPs.length →
        (conf'.Peers.getD l WgConfig.zero).ID = l + 1 ∧
        (conf'.Peers.getD l WgConfig.zero).IP = (allIPs.getD l ⟨"", [], false⟩).S := by
  obtain ⟨firstIP, cidrNet, srv, allIPs, idx, hp, _, hs, _, hw, hg⟩ :=
    Generate_ok_steps env conf conf' h
  obtain ⟨v, hv⟩ := ParseCIDR_as16 _ _ _ hp
  have hw' := hw
  rw [hv] at hw'
  obtain ⟨_, w2, _⟩ := walk_result cidrNet srv v allIPs idx hw'
  obtain ⟨i0, _, _, _, _, hlen, hempty, hrec, _⟩ :=
    generateDevices_ok env _ cidrNet allIPs idx conf' (cleared_flags _) w2 hg
  refine ⟨firstIP, cidrNet, srv, allIPs, idx, hp, hs, hw, hlen, ?_, hrec⟩
  intro hc
  apply hempty
  rcases hc with hc | hc
  · simp [hc]
  · simp [hc]

set_option maxRecDepth 100000 in
/-- Witness of C2 as amended: a run on a prior collection of five records whose
second record carries the server flag leaves the flag on the first record only,
the one with the address `10.0.0.1` of the server. -/
theorem Generate_one_server_witness :
    (∃ srv, ParseIP longerConf.GenerationParams.Server = some srv ∧
      ∃ i0, i0 < longerResult.Peers.length ∧
        (longerResult.Peers.getD i0 WgConfig.zero).IsServer = true ∧
        (longerResult.Peers.getD i0 WgConfig.zero).IP = IPString srv ∧
        ∀ l, l < longerResult.Peers.length →
          (longerResult.Peers.getD l WgConfig.zero).IsServer = true → l = i0) ∧
    longerResult.Peers.map (fun w => (w.IsServer, w.IP)) =
      [(true, "10.0.0.1"), (false, "10.0.0.2"), (false, "10.0.0.3"), (false, "10.0.0.2"),
        (false, "")] :=
  ⟨Generate_one_server demoEnv longerConf longerResult (by decide), by decide⟩

set_option maxRecDepth 100000 in
/-- Counterexample to C2 as stated: with CIDR `10.0.0.0/30` and the server written
`::ffff:10.0.0.1`, `Generate` succeeds and the IP of the server record is
`10.0.0.1`, not `GenerationParams.Server`. -/
theorem Generate_server_text_differs :
    mappedServerConf.GenerationParams.Server = "::ffff:10.0.0.1" ∧
    (Generate demoEnv mappedServerConf).map
        (fun r => (r.err, r.conf.Peers.map (fun w => (w.IsServer, w.IP)))) =
      some (none, [(true, "10.0.0.1"), (false, "10.0.0.2"), (false, "10.0.0.3")]) := by
  decide

set_option maxRecDepth 100000 in
/-- Witness of C3 as amended: the run on `demoConf`, whose prior collection is
empty, walks three addresses and leaves three records with the ids 1, 2, 3. -/
theorem Generate_ids_witness :
    (∃ firstIP cidrNet srv allIPs idx,
      ParseCIDR demoConf.GenerationParams.CIDR = some (firstIP, cidrNet) ∧
      ParseIP demoConf.GenerationParams.Server = some srv ∧
      walk cidrNet srv firstIP = some (allIPs, idx) ∧
      allIPs.length ≤ demoResult.Peers.length ∧
      ((demoConf.Peers = [] ∨ demoConf.GenerationParams.ResetAll = true) →
        demoResult.Peers.length = allIPs.length) ∧
      ∀ l, l < allIPs.length →
        (demoResult.Peers.getD l WgConfig.zero).ID = l + 1 ∧
        (demoResult.Peers.getD l WgConfig.zero).IP = (allIPs.getD l ⟨"", [], false⟩).S) ∧
    demoResult.Peers.map (fun w => (w.ID, w.IP)) =
      [(1, "10.0.0.1"), (2, "10.0.0.2"), (3, "10.0.0.3")] :=
  ⟨Generate_ids demoEnv demoConf demoResult (by decide), by decide⟩

set_option maxRecDepth 100000 in
/-- Counterexample to C3 as stated: the network `10.0.0.0/30` has three walked
addresses.  A second run on the three records of a first run leaves four
records, the last with ID 0; a run on a prior collection of five records leaves
five records, among them the prior record with ID 5. -/
theorem Generate_record_count :
    demoResult.Peers.map (fun w => w.ID) = [1, 2, 3] ∧
    (Generate demoEnv demoResult).map
        (fun r => (r.err, r.conf.Peers.map (fun w => (w.ID, w.Name)))) =
      some (none, [(1, "device-1"), (2, "device-2"), (3, "device-3"), (0, "")]) ∧
    (Generate demoEnv longerConf).map
        (fun r => (r.err, r.conf.Peers.map (fun w => (w.ID, w.Name)))) =
      some (none, [(1, "one"), (2, "two"), (3, "three"), (5, "five"), (0, "")]) := by
  decide

/-! ## Templates: `strings.ReplaceAll` on a template -/

theorem ReplaceAll_go_skip (old new : List Char) (xs rest : List Char) :
    ReplaceAll.go old new xs.length (xs ++ rest) = ReplaceAll.go old new 0 rest := by
  induction xs with
  | nil => rfl
  | cons x xs ih => simpa [ReplaceAll.go] using ih

theorem ReplaceAll_go_match (o : Char) (old new rest : List Char) :
    ReplaceAll.go (o :: old) new 0 ((o :: old) ++ rest) =
      new ++ ReplaceAll.go (o :: old) new 0 rest := by
  have h : (o :: old).isPrefixOf (o :: (old ++ rest)) = true := by
    simp [List.isPrefixOf]
  show ReplaceAll.go (o :: old) new 0 (o :: (old ++ rest)) = _
  rw [ReplaceAll.go]
  rw [if_pos h]
  have := ReplaceAll_go_skip (o :: old) new old rest
  simpa using this

theorem ReplaceAll_go_plain (o : Char) (old new pre rest : List Char) (h : o ∉ pre) :
    ReplaceAll.go (o :: old) new 0 (pre ++ rest) =
      pre ++ ReplaceAll.go (o :: old) new 0 rest := by
  induction pre with
  | nil => rfl
  | cons c cs ih =>
    have hc : c ≠ o := fun e => h (by simp [e])
    have hcs : o ∉ cs := fun e => h (by simp [e])
    show ReplaceAll.go (o :: old) new 0 (c :: (cs ++ rest)) = _
    rw [ReplaceAll.go]
    have hp : (o :: old).isPrefixOf (c :: (cs ++ rest)) = false := by
      simp [List.isPrefixOf, Ne.symm hc]
    simp [hp, ih hcs]

theorem ReplaceAll_go_nil (old new : List Char) : ReplaceAll.go old new 0 [] = [] := by
  cases old <;> rfl

theorem ReplaceAll_go_joinWith (o : Char) (old new : List Char) (segs : List (List Char))
    (h : ∀ s ∈ segs, o ∉ s) :
    ReplaceAll.go (o :: old) new 0 (joinWith (o :: old) segs) = joinWith new segs := by
  induction segs with
  | nil => rfl
  | cons a rest ih =>
    cases rest with
    | nil =>
      have := ReplaceAll_go_plain o old new a [] (h a (by simp))
      simpa [joinWith, ReplaceAll_go_nil] using this
    | cons b rest =>
      have ha := h a (by simp)
      have ih2 := ih (fun s hs => h s (by simp [hs]))
      simp only [joinWith, List.append_assoc] at ih2 ⊢
      rw [ReplaceAll_go_plain o old new a _ ha, ReplaceAll_go_match, ih2]

/-- On a template made of pieces without a dollar sign, joined by a placeholder
that starts with a dollar sign, `ReplaceAll` puts the new text at every joint. -/
theorem ReplaceAll_joinWith (old new : List Char) (segs : List (List Char))
    (h : ∀ s ∈ segs, '$' ∉ s) :
    ReplaceAll ⟨joinWith ('$' :: old) segs⟩ ⟨'$' :: old⟩ ⟨new⟩ = ⟨joinWith new segs⟩ := by
  simp only [ReplaceAll, ReplaceAll_go_joinWith '$' old new segs h]

/-- Claim C12: for a record with empty `Name` and `Description`, `applySoftRules`
sets `Name` to the Name template with every `${id}` replaced by the decimal id
and `Description` to the Description template with every `${id}` replaced by the
id and then every `${name}` replaced by that resolved name; on a template whose
pieces hold no dollar sign the id stands at every joint, and the templates
`device-${id}` and `for ${name}` on id 7 give `device-7` and `for device-7`. -/
theorem applySoftRules_templates (p : GenerationForm) (w : WgConfig)
    (hn : w.Name = "") (hd : w.Description = "") :
    (applySoftRules p w).Name = ReplaceAll p.Name "${id}" (itoa w.ID) ∧
    (applySoftRules p w).Description =
      ReplaceAll (ReplaceAll p.Description "${id}" (itoa w.ID)) "${name}"
        (ReplaceAll p.Name "${id}" (itoa w.ID)) ∧
    (∀ segs : List (List Char), (∀ s ∈ segs, '$' ∉ s) →
      p.Name = ⟨joinWith "${id}".data segs⟩ →
      (applySoftRules p w).Name = ⟨joinWith (itoa w.ID).data segs⟩) ∧
    (∀ segs : List (List Char), (∀ s ∈ segs, '$' ∉ s) →
      ReplaceAll p.Description "${id}" (itoa w.ID) = ⟨joinWith "${name}".data segs⟩ →
      (applySoftRules p w).Description = ⟨joinWith (applySoftRules p w).Name.data segs⟩) ∧
    (p.Name = "device-${id}" → p.Description = "for ${name}" → w.ID = 7 →
      (applySoftRules p w).Name = "device-7" ∧
      (applySoftRules p w).Description = "for device-7") := by
  have h1 : (applySoftRules p w).Name = ReplaceAll p.Name "${id}" (itoa w.ID) := by
    rw [applySoftRules_Name, if_pos hn]
  have h2 : (applySoftRules p w).Description =
      ReplaceAll (ReplaceAll p.Description "${id}" (itoa w.ID)) "${name}"
        (ReplaceAll p.Name "${id}" (itoa w.ID)) := by
    rw [applySoftRules_Description, if_pos hd, h1]
  refine ⟨h1, h2, ?_, ?_, ?_⟩
  · intro segs hs hp
    rw [h1, hp]
    exact ReplaceAll_joinWith "{id}".data (itoa w.ID).data segs hs
  · intro segs hs hp
    rw [h2, hp, h1]
    exact ReplaceAll_joinWith "{name}".data _ segs hs
  · intro hp hq hi
    rw [h1, h2, hp, hq, hi]
    exact ⟨by decide, by decide⟩

/-- Witness of C12: the templates of `demoForm` on a record with id 7. -/
theorem applySoftRules_templates_witness :
    (applySoftRules demoForm { demoRecord with Name := "", Description := "" }).Name
      = "device-7" ∧
    (applySoftRules demoForm { demoRecord with Name := "", Description := "" }).Description
      = "for device-7" :=
  (applySoftRules_templates demoForm { demoRecord with Name := "", Description := "" }
    rfl rfl).2.2.2.2 rfl rfl rfl

/-! ## The renderer of a peer block -/

theorem GenerateConfig_peerBlock (w server : WgConfig) :
    GenerateConfig w server = .ok (peerBlock w server) := by
  have e1 : "\nPrivateKey = " = "\n" ++ "PrivateKey = " := by decide
  have e2 : "\nAddress = " = "\n" ++ "Address = " := by decide
  have e3 : "\nDNS = " = "\n" ++ "DNS = " := by decide
  have e4 : "\nMTU = " = "\n" ++ "MTU = " := by decide
  have e5 : "\n\n[Peer]" = "\n" ++ ("" ++ ("\n" ++ "[Peer]")) := by decide
  have e6 : "\nPublicKey = " = "\n" ++ "PublicKey = " := by decide
  have e7 : "\nPresharedKey = " = "\n" ++ "PresharedKey = " := by decide
  have e8 : "\nEndpoint = " = "\n" ++ "Endpoint = " := by decide
  have e9 : "\nAllowedIPs = " = "\n" ++ "AllowedIPs = " := by decide
  have e10 : "\nPersistentKeepAlive = 25" = "\n" ++ "PersistentKeepAlive = 25" := by decide
  by_cases hx : w.Extra = "" <;> by_cases hk : w.PersistentKeepAlive > 0 <;>
    simp only [GenerateConfig, peerBlock, extraLines, keepaliveLines, peerLines, interfaceLines,
      hx, hk, if_true, if_false, ne_eq, not_true_eq_false, not_false_eq_true,
      List.cons_append, List.nil_append, List.append_nil, unlines,
      e1, e2, e3, e4, e5, e6, e7, e8, e9, e10, String.append_assoc, String.append_empty,
      String.empty_append]

theorem peerBlock_no_extra (w server : WgConfig) (h : w.Extra = "") :
    peerBlock w server = specPeerBlock w server := by
  simp only [peerBlock, specPeerBlock, extraLines, h, if_true, List.append_nil]

/-- Claim C16 (amended): `GenerateConfig` never returns an error and its text is
the header `[Interface]`, the optional extra fragment, the lines of the private
key, the address, DNS and MTU, an empty line, the header `[Peer]` and the lines
of the server's public key, the pre-shared key, the endpoint, the allowed IPs and
the optional keepalive line; it is the text in the key order of the
specification when `Extra` is empty, and two records that agree on these fields,
with servers that agree on the public key, render the same text. -/
theorem GenerateConfig_text (w server : WgConfig) :
    GenerateConfig w server =
      .ok (unlines (["[Interface]"] ++ extraLines w ++ interfaceLines w ++ ["", "[Peer]"] ++
        peerLines w server)) ∧
    (w.Extra = "" → GenerateConfig w server = .ok (specPeerBlock w server)) ∧
    (∀ w2 server2 : WgConfig,
      w2.Extra = w.Extra → w2.PrivateKey = w.PrivateKey → w2.IP = w.IP → w2.DNS = w.DNS →
      w2.MTU = w.MTU → w2.PreSharedKey = w.PreSharedKey → w2.Endpoint = w.Endpoint →
      w2.EndpointPort = w.EndpointPort → w2.AllowedIPs = w.AllowedIPs →
      w2.PersistentKeepAlive = w.PersistentKeepAlive → server2.PublicKey = server.PublicKey →
      GenerateConfig w2 server2 = GenerateConfig w server) := by
  refine ⟨GenerateConfig_peerBlock w server, ?_, ?_⟩
  · intro h
    rw [GenerateConfig_peerBlock, peerBlock_no_extra w server h]
  · intro w2 server2 h1 h2 h3 h4 h5 h6 h7 h8 h9 h10 h11
    simp only [GenerateConfig, h1, h2, h3, h4, h5, h6, h7, h8, h9, h10, h11]

/-- Witness of C16 as amended: a record without extra fragment renders in the key
order of the specification, and a change of ID, Name and Config of the record and
of the private key of the server leaves the text as it is. -/
theorem GenerateConfig_text_witness :
    GenerateConfig { demoRecord with Extra := "" } demoServer =
      .ok (specPeerBlock { demoRecord with Extra := "" } demoServer) ∧
    GenerateConfig { demoRecord with ID := 9, Name := "other", Config := "" }
      { demoServer with PrivateKey := "other" } = GenerateConfig demoRecord demoServer :=
  ⟨(GenerateConfig_text { demoRecord with Extra := "" } demoServer).2.1 rfl,
   (GenerateConfig_text demoRecord demoServer).2.2
     { demoRecord with ID := 9, Name := "other", Config := "" }
     { demoServer with PrivateKey := "other" }
     rfl rfl rfl rfl rfl rfl rfl rfl rfl rfl rfl⟩

set_option maxRecDepth 100000 in
/-- Counterexample to C16 as stated: on a record with an extra fragment the
rendered text has the fragment before the private key and is not the text in the
key order of the specification. -/
theorem GenerateConfig_extra_first :
    GenerateConfig demoRecord demoServer =
      .ok ("[Interface]\nTable = auto\nPrivateKey = old-private\nAddress = 10.0.0.2/32" ++
        "\nDNS = 8.8.8.8\nMTU = 1420\n\n[Peer]\nPublicKey = old-public" ++
        "\nPresharedKey = old-psk\nEndpoint = old.example.com:4000" ++
        "\nAllowedIPs = 192.168.0.0/16\nPersistentKeepAlive = 25\n") ∧
    specPeerBlock demoRecord demoServer =
      "[Interface]\nPrivateKey = old-private\nAddress = 10.0.0.2/32" ++
        "\nDNS = 8.8.8.8\nMTU = 1420\nTable = auto\n\n[Peer]\nPublicKey = old-public" ++
        "\nPresharedKey = old-psk\nEndpoint = old.example.com:4000" ++
        "\nAllowedIPs = 192.168.0.0/16\nPersistentKeepAlive = 25\n" ∧
    GenerateConfig demoRecord demoServer ≠ .ok (specPeerBlock demoRecord demoServer) := by
  decide

/-- Claim C17: the text of `GenerateConfig` is a head that ends with the
AllowedIPs line and does not depend on the keepalive value, followed by nothing
but the final line feed when the value is 0 and by the one line
`PersistentKeepAlive = 25` when it is positive. -/
theorem GenerateConfig_keepalive (w server : WgConfig) :
    ∃ head : String, ∀ k : Nat,
      GenerateConfig { w with PersistentKeepAlive := k } server =
        .ok (head ++ "\nAllowedIPs = " ++ w.AllowedIPs ++
          (if k = 0 then "" else "\nPersistentKeepAlive = 25") ++ "\n") := by
  refine ⟨"[Interface]" ++ (if w.Extra ≠ "" then "\n" ++ w.Extra else "") ++
    "\nPrivateKey = " ++ w.PrivateKey ++
    "\nAddress = " ++ w.IP ++ "/32" ++
    "\nDNS = " ++ w.DNS ++
    "\nMTU = " ++ itoa w.MTU ++
    "\n\n[Peer]" ++
    "\nPublicKey = " ++ server.PublicKey ++
    "\nPresharedKey = " ++ w.PreSharedKey ++
    "\nEndpoint = " ++ w.Endpoint ++ ":" ++ itoa w.EndpointPort, ?_⟩
  intro k
  rcases Nat.eq_zero_or_pos k with hk | hk
  · subst hk
    simp only [GenerateConfig, gt_iff_lt, Nat.lt_irrefl, if_false, if_true]
  · have hk0 : k ≠ 0 := Nat.pos_iff_ne_zero.mp hk
    simp only [GenerateConfig, gt_iff_lt, hk, hk0, if_false, if_true]

/-! ## `EstimateNetworkSize` -/

set_option maxRecDepth 100000 in
theorem maskSize_CIDRMask : ∀ p < 129,
    maskSize (CIDRMask p 128) = p ∧ (p < 33 → maskSize (CIDRMask p 32) = p) := by
  decide

set_option maxRecDepth 100000 in
theorem shlInt_one : ∀ n < 63, shlInt 1 (Int.ofNat n) = .ok (Int.ofNat (2 ^ n)) := by
  decide

/-- On an IPv4 network with prefix length `p` the estimate is `2 ^ (32 - p)`. -/
theorem EstimateNetworkSize_ip4 (a p : Nat) (hp : p ≤ 32) :
    EstimateNetworkSize ⟨be4 a, CIDRMask p 32⟩ = .ok (Int.ofNat (2 ^ (32 - p))) := by
  have hm := (maskSize_CIDRMask p (by omega)).2 (by omega)
  have h4 : (To4 (be4 a)).isSome = true := by simp [To4, be4]
  have hs : (32 : Int) - Int.ofNat p = Int.ofNat (32 - p) := by
    simp only [Int.ofNat_eq_coe]
    omega
  unfold EstimateNetworkSize
  simp only [hm, h4, if_true, hs]
  exact shlInt_one (32 - p) (by omega)

/-- On an IPv6 network (no IPv4-mapped base address) with prefix length `p` of at
least 66 the estimate is `2 ^ (128 - p)`. -/
theorem EstimateNetworkSize_ip6 (ip : List Nat) (p : Nat) (hp : p ≤ 128) (hp2 : 66 ≤ p)
    (h4 : To4 ip = none) :
    EstimateNetworkSize ⟨ip, CIDRMask p 128⟩ = .ok (Int.ofNat (2 ^ (128 - p))) := by
  have hm := (maskSize_CIDRMask p (by omega)).1
  have hs : (128 : Int) - Int.ofNat p = Int.ofNat (128 - p) := by
    simp only [Int.ofNat_eq_coe]
    omega
  unfold EstimateNetworkSize
  simp only [hm, h4, Option.isSome_none, Bool.false_eq_true, if_false, hs]
  exact shlInt_one (128 - p) (by omega)

set_option maxRecDepth 100000 in
/-- Claim C20: `EstimateNetworkSize` on the networks of parsed CIDRs.  The IPv4
networks `10.0.0.0/8` and `0.0.0.0/0` and the IPv6 network `fd00::/66` give
`2 ^ (bits - p)`; the IPv6 networks `fd00::/64` and `::/0` give 0, `fd00::/65`
gives `- 2 ^ 63`, and the network of `::ffff:10.0.0.0/104`, whose base address
is IPv4-mapped, makes the shift count negative, which panics. -/
theorem EstimateNetworkSize_overflow :
    (ParseCIDR "10.0.0.0/8").map (fun r => EstimateNetworkSize r.2) = some (.ok (2 ^ 24)) ∧
    (ParseCIDR "0.0.0.0/0").map (fun r => EstimateNetworkSize r.2) = some (.ok (2 ^ 32)) ∧
    (ParseCIDR "fd00::/66").map (fun r => EstimateNetworkSize r.2) = some (.ok (2 ^ 62)) ∧
    (ParseCIDR "fd00::/64").map (fun r => (IPNetString r.2, EstimateNetworkSize r.2)) =
      some ("fd00::/64", .ok 0) ∧
    (ParseCIDR "fd00::/65").map (fun r => EstimateNetworkSize r.2) = some (.ok (- 2 ^ 63)) ∧
    (ParseCIDR "::/0").map (fun r => EstimateNetworkSize r.2) = some (.ok 0) ∧
    (ParseCIDR "::ffff:10.0.0.0/104").map (fun r => EstimateNetworkSize r.2) =
      some (.error "panic: runtime error: negative shift amount") := by
  decide

/-! ## ResetAll -/

/-- With ResetAll set, a run whose input passes the validation is the run on the
empty prior collection. -/
theorem Generate_reset_valid (env : Env) (conf : Configuration) (P : List WgConfig)
    (hr : conf.GenerationParams.ResetAll = true)
    (firstIP : List Nat) (cidrNet : IPNet) (srv : List Nat)
    (hp : ParseCIDR conf.GenerationParams.CIDR = some (firstIP, cidrNet))
    (ha : IPNetString cidrNet = conf.GenerationParams.CIDR)
    (hs : ParseIP conf.GenerationParams.Server = some srv)
    (hc : Contains cidrNet srv = true) :
    Generate env { conf with Peers := P } = Generate env { conf with Peers := [] } := by
  unfold Generate
  simp only [hp, ha, hs, hc, hr, ne_eq, not_true_eq_false, if_false, if_true,
    List.map_nil]

/-- With ResetAll set, the error that `Generate` returns does not depend on the
prior collection. -/
theorem Generate_reset_err (env : Env) (conf : Configuration) (P : List WgConfig)
    (hr : conf.GenerationParams.ResetAll = true) :
    (Generate env { conf with Peers := P }).map (fun r => r.err) =
      (Generate env { conf with Peers := [] }).map (fun r => r.err) := by
  cases hp : ParseCIDR conf.GenerationParams.CIDR with
  | none => unfold Generate; simp only [hp]; rfl
  | some r =>
    obtain ⟨firstIP, cidrNet⟩ := r
    by_cases ha : IPNetString cidrNet = conf.GenerationParams.CIDR
    · cases hs : ParseIP conf.GenerationParams.Server with
      | none => unfold Generate; simp only [hp, ha, hs, ne_eq, not_true_eq_false, if_false]; rfl
      | some srv =>
        by_cases hc : Contains cidrNet srv = true
        · rw [Generate_reset_valid env conf P hr firstIP cidrNet srv hp ha hs hc]
        · unfold Generate
          simp only [hp, ha, hs, hc, ne_eq, not_true_eq_false, if_false, not_false_eq_true,
            if_true]
          rfl
    · unfold Generate
      simp only [hp, ha, ne_eq, not_false_eq_true, if_true]
      rfl

/-- Claim C13: with ResetAll set, for every two prior collections the runs of
`Generate` with the same parameters and collaborators return the same error; a
successful run on one of them is matched by the same successful result on the
other and on the empty prior collection; and when the input passes the
validation the whole results are equal, so nothing of a prior record survives. -/
theorem Generate_resetAll (env : Env) (conf : Configuration) (P1 P2 : List WgConfig)
    (hr : conf.GenerationParams.ResetAll = true) :
    (Generate env { conf with Peers := P1 }).map (fun r => r.err) =
      (Generate env { conf with Peers := P2 }).map (fun r => r.err) ∧
    (∀ conf1, Generate env { conf with Peers := P1 } = some { conf := conf1, err := none } →
      Generate env { conf with Peers := P2 } = some { conf := conf1, err := none } ∧
      Generate env { conf with Peers := [] } = some { conf := conf1, err := none }) ∧
    ((∃ firstIP cidrNet srv,
        ParseCIDR conf.GenerationParams.CIDR = some (firstIP, cidrNet) ∧
        IPNetString cidrNet = conf.GenerationParams.CIDR ∧
        ParseIP conf.GenerationParams.Server = some srv ∧ Contains cidrNet srv = true) →
      Generate env { conf with Peers := P1 } = Generate env { conf with Peers := P2 } ∧
      Generate env { conf with Peers := P1 } = Generate env { conf with Peers := [] }) := by
  have valid : (∃ firstIP cidrNet srv,
        ParseCIDR conf.GenerationParams.CIDR = some (firstIP, cidrNet) ∧
        IPNetString cidrNet = conf.GenerationParams.CIDR ∧
        ParseIP conf.GenerationParams.Server = some srv ∧ Contains cidrNet srv = true) →
      Generate env { conf with Peers := P1 } = Generate env { conf with Peers := P2 } ∧
      Generate env { conf with Peers := P1 } = Generate env { conf with Peers := [] } := by
    rintro ⟨firstIP, cidrNet, srv, hp, ha, hs, hc⟩
    have h1 := Generate_reset_valid env conf P1 hr firstIP cidrNet srv hp ha hs hc
    have h2 := Generate_reset_valid env conf P2 hr firstIP cidrNet srv hp ha hs hc
    exact ⟨h1.trans h2.symm, h1⟩
  refine ⟨?_, ?_, valid⟩
  · rw [Generate_reset_err env conf P1 hr, Generate_reset_err env conf P2 hr]
  · intro conf1 h
    obtain ⟨firstIP, cidrNet, srv, _, _, hp, ha, hs, hc, _, _⟩ := Generate_ok_steps env _ _ h
    obtain ⟨e1, e2⟩ := valid ⟨firstIP, cidrNet, srv, hp, ha, hs, hc⟩
    exact ⟨e1 ▸ h, e2 ▸ h⟩

set_option maxRecDepth 100000 in
/-- Witness of C13: with ResetAll set, the run on the five prior records of
`longerConf` is the run on the empty collection, and its three records carry the
names of the template, not those of the prior records. -/
theorem Generate_resetAll_witness :
    Generate demoEnv { resetConf with Peers := longerConf.Peers } =
      Generate demoEnv { resetConf with Peers := [] } ∧
    (Generate demoEnv { resetConf with Peers := longerConf.Peers }).map
        (fun r => (r.err, r.conf.Peers.map (fun w => (w.ID, w.Name)))) =
      some (none, [(1, "device-1"), (2, "device-2"), (3, "device-3")]) :=
  ⟨((Generate_resetAll demoEnv resetConf longerConf.Peers [] rfl).2.2
      ⟨ip4in6 167772160, ⟨[10, 0, 0, 0], [255, 255, 255, 252]⟩, ip4in6 167772161,
        by decide, by decide, by decide, by decide⟩).1,
   by decide⟩

/-! ## A second run of `Generate` on the result of a first run -/

set_option maxRecDepth 100000 in
/-- Claim C11: two consecutive runs of `Generate` on `demoConf` (CIDR
`10.0.0.0/30`, server `10.0.0.1`, empty prior collection, ResetAll and
RegenerateKeys not set).  Both runs succeed; the first leaves three records and
the second, on these three records with the same parameters, leaves four: the
three rendered configs of the first run followed by the empty config of a record
with ID 0. -/
theorem Generate_second_run :
    demoConf.GenerationParams.ResetAll = false ∧
    demoConf.GenerationParams.RegenerateKeys = false ∧
    Generate demoEnv demoConf = some { conf := demoResult, err := none } ∧
    demoResult.GenerationParams = demoConf.GenerationParams ∧
    demoResult.Peers.map (fun w => w.ID) = [1, 2, 3] ∧
    (Generate demoEnv demoResult).map (fun r => (r.err, r.conf.Peers.map (fun w => w.ID))) =
      some (none, [1, 2, 3, 0]) ∧
    (Generate demoEnv demoResult).map (fun r => r.conf.Peers.map (fun w => w.Config)) =
      some (demoResult.Peers.map (fun w => w.Config) ++ [""]) ∧
    (Generate demoEnv demoResult).map (fun r => r.conf.Peers.map (fun w => w.Config)) ≠
      some (demoResult.Peers.map (fun w => w.Config)) := by
  decide

/-! ## The walk and the run on an IPv4 network -/

/-- The walk of `Generate` on an aligned IPv4 network ends and yields the usable
addresses of the network in increasing order. -/
theorem walk_ip4 (a p : Nat) (serverIP : List Nat) (hp : p ≤ 32) (ha : a < 2 ^ 32)
    (hal : a % 2 ^ (32 - p) = 0) :
    walk ⟨be4 a, CIDRMask p 32⟩ serverIP (ip4in6 a) =
      some (((List.range' a (2 ^ (32 - p))).filter usable).map (walkedIP serverIP),
        serverIndexAfter (((List.range' a (2 ^ (32 - p))).filter usable).map
          (walkedIP serverIP)) (-1) 0) := by
  have hend := aligned_end a p hp ha hal
  have hpow : 2 ^ (32 - p) ≤ 2 ^ 32 := by omega
  have hfuel : walkFuel = (2 ^ 128 - 2 ^ (32 - p) - 3) + 2 ^ (32 - p) + 3 := by
    unfold walkFuel
    have : (2 : Nat) ^ 32 + 3 ≤ 2 ^ 128 := by norm_num
    omega
  have hip : ip4in6 a = ipAt a := by unfold ipAt; rw [if_pos ha]
  unfold walk
  rw [hfuel, hip, walkLoop_range a p serverIP hp ha hal hend (2 ^ (32 - p)) a _ [] (-1) 0
    (Nat.le_refl a) rfl]
  simp

/-- The usable addresses of an aligned block of 256 addresses are the 254
addresses from the second to the last but one. -/
theorem usable_block (a : Nat) (hal : a % 256 = 0) :
    (List.range' a 256).filter usable = List.range' (a + 1) 254 := by
  have h1 : List.range' a 256 = a :: (List.range' (a + 1) 254 ++ [a + 255]) := by
    rw [show (256 : Nat) = 255 + 1 from rfl, List.range'_succ,
      show (255 : Nat) = 254 + 1 from rfl, List.range'_concat]
  have h2 : usable a = false := by simp [usable, hal]
  have h3 : usable (a + 255) = false := by
    have : (a + 255) % 256 = 255 := by omega
    simp [usable, this]
  have h4 : ∀ v ∈ List.range' (a + 1) 254, usable v = true := by
    intro v hv
    rw [List.mem_range'_1] at hv
    have h5 : v % 256 ≠ 0 := by omega
    have h6 : v % 256 ≠ 255 := by omega
    simp [usable, h5, h6]
  rw [h1, List.filter_cons, h2, List.filter_append, List.filter_eq_self.2 h4]
  simp [h3]

/-- The walk of `Generate` on an aligned IPv4 /24. -/
theorem walk_slash24 (a : Nat) (ha : a < 2 ^ 32) (hal : a % 256 = 0) (serverIP : List Nat) :
    walk ⟨be4 a, CIDRMask 24 32⟩ serverIP (ip4in6 a) =
      some ((List.range' (a + 1) 254).map (walkedIP serverIP),
        serverIndexAfter ((List.range' (a + 1) 254).map (walkedIP serverIP)) (-1) 0) := by
  have hal2 : a % 2 ^ (32 - 24) = 0 := hal
  have h := walk_ip4 a 24 serverIP (by norm_num) ha hal2
  rw [show (2 : Nat) ^ (32 - 24) = 256 from rfl, usable_block a hal] at h
  exact h

/-- Claim C14 (amended): for every aligned IPv4 /24 (base address value `a`, a
multiple of 256) and every server address, the walk of `Generate` ends and yields
the 254 addresses `.1` to `.254` in increasing order, and a successful run of
`Generate` that starts from an empty collection leaves 254 records. -/
theorem Generate_slash24 (a : Nat) (ha : a < 2 ^ 32) (hal : a % 256 = 0) :
    ParseCIDR (cidrText a 24) = some (ip4in6 a, ⟨be4 a, CIDRMask 24 32⟩) ∧
    (∀ serverIP : List Nat, ∃ allIPs idx,
      walk ⟨be4 a, CIDRMask 24 32⟩ serverIP (ip4in6 a) = some (allIPs, idx) ∧
      allIPs.length = 254 ∧
      allIPs.map (fun e => e.S) = (List.range' (a + 1) 254).map (fun v => string4 (be4 v))) ∧
    (∀ (env : Env) (conf conf2 : Configuration),
      conf.GenerationParams.CIDR = cidrText a 24 → conf.Peers = [] →
      Generate env conf = some { conf := conf2, err := none } → conf2.Peers.length = 254) := by
  have hal2 : a % 2 ^ (32 - 24) = 0 := hal
  have hparse := ParseCIDR_cidrText a 24 (by norm_num) ha hal2
  have hwalk := walk_slash24 a ha hal
  refine ⟨hparse, ?_, ?_⟩
  · intro serverIP
    refine ⟨_, _, hwalk serverIP, by simp, ?_⟩
    rw [List.map_map]
    rfl
  · intro env conf conf2 hc he h
    obtain ⟨firstIP, cidrNet, srv, allIPs, idx, hp, _, _, _, hw, hg⟩ :=
      Generate_ok_steps env conf conf2 h
    rw [hc, hparse] at hp
    simp only [Option.some.injEq, Prod.mk.injEq] at hp
    obtain ⟨rfl, rfl⟩ := hp
    have hw2 := hw
    rw [hwalk srv] at hw2
    simp only [Option.some.injEq, Prod.mk.injEq] at hw2
    obtain ⟨v, hv⟩ := ParseCIDR_as16 _ _ _ hparse
    rw [hv] at hw
    obtain ⟨_, w2, _⟩ := walk_result _ srv v allIPs idx hw
    obtain ⟨i0, _, _, _, _, _, hempty, _, _⟩ :=
      generateDevices_ok env _ _ allIPs idx conf2 (cleared_flags _) w2 hg
    rw [hempty (by simp [he]), ← hw2.1]
    simp

/-- A run that returns no error returns the collection it leaves. -/
theorem Generate_eq_of_err (env : Env) (conf : Configuration)
    (h : (Generate env conf).map (fun r => r.err) = some none) :
    Generate env conf =
      some { conf := ((Generate env conf).map (fun r => r.conf)).getD conf, err := none } := by
  cases hg : Generate env conf with
  | none => rw [hg] at h; cases h
  | some r =>
    rw [hg] at h
    simp only [Option.map_some', Option.some.injEq] at h
    cases r with
    | mk c e =>
      simp only at h
      subst h
      rfl

set_option maxRecDepth 1000000 in
/-- Witness of C14 as amended: the network `192.168.1.0/24` with server
`192.168.1.1`; the run of `Generate` from an empty collection succeeds and leaves
254 records. -/
theorem Generate_slash24_witness :
    cidrText 3232235776 24 = "192.168.1.0/24" ∧
    Generate demoEnv homeConf = some { conf := homeResult, err := none } ∧
    homeResult.Peers.length = 254 := by
  have h : Generate demoEnv homeConf = some { conf := homeResult, err := none } :=
    Generate_eq_of_err demoEnv homeConf (by decide!)
  exact ⟨by decide, h,
    (Generate_slash24 3232235776 (by decide) (by decide)).2.2 demoEnv homeConf homeResult
      (by decide) rfl h⟩

set_option maxRecDepth 1000000 in
/-- Counterexample to C14 as stated: on `192.168.1.0/24` with server
`192.168.1.1` the walk yields 254 addresses, not 253; the first one is
`192.168.1.1` and the last one is `192.168.1.254`. -/
theorem walk_slash24_count :
    ParseCIDR "192.168.1.0/24" =
      some (ip4in6 3232235776, ⟨[192, 168, 1, 0], [255, 255, 255, 0]⟩) ∧
    ParseIP "192.168.1.1" = some (ip4in6 3232235777) ∧
    (walk ⟨[192, 168, 1, 0], [255, 255, 255, 0]⟩ (ip4in6 3232235777)
        (ip4in6 3232235776)).map
      (fun r => (r.1.length, (r.1.getD 0 ⟨"", [], false⟩).S,
        (r.1.getD 253 ⟨"", [], false⟩).S)) =
      some (254, "192.168.1.1", "192.168.1.254") ∧
    (walk ⟨[192, 168, 1, 0], [255, 255, 255, 0]⟩ (ip4in6 3232235777)
        (ip4in6 3232235776)).map (fun r => r.1.length) ≠ some 253 := by
  have h := walk_slash24 3232235776 (by decide) (by decide) (ip4in6 3232235777)
  have e1 : be4 3232235776 = [192, 168, 1, 0] := by decide
  have e2 : CIDRMask 24 32 = [255, 255, 255, 0] := by decide
  rw [e1, e2] at h
  rw [h]
  exact ⟨by decide, by decide, by decide, by decide⟩

/-! ## The address walk ends -/

theorem leVal_inj : ∀ (l l2 : List Nat), l.length = l2.length → (∀ b ∈ l, b < 256) →
    (∀ b ∈ l2, b < 256) → leVal l = leVal l2 → l = l2 := by
  intro l
  induction l with
  | nil =>
    intro l2 hlen _ _ _
    cases l2 with
    | nil => rfl
    | cons c cs => simp at hlen
  | cons b bs ih =>
    intro l2 hlen h1 h2 hv
    cases l2 with
    | nil => simp at hlen
    | cons c cs =>
      have hb : b < 256 := h1 b (List.mem_cons_self _ _)
      have hc : c < 256 := h2 c (List.mem_cons_self _ _)
      simp only [leVal] at hv
      have e1 : b = c := by omega
      have e2 : leVal bs = leVal cs := by omega
      rw [e1, ih cs (by simpa using hlen) (fun x hx => h1 x (List.mem_cons_of_mem _ hx))
        (fun x hx => h2 x (List.mem_cons_of_mem _ hx)) e2]

theorem bytesVal_inj (l l2 : List Nat) (hlen : l.length = l2.length) (h1 : ∀ b ∈ l, b < 256)
    (h2 : ∀ b ∈ l2, b < 256) (hv : bytesVal l = bytesVal l2) : l = l2 := by
  rw [bytesVal_eq_leVal_reverse, bytesVal_eq_leVal_reverse l2] at hv
  have := leVal_inj l.reverse l2.reverse (by simp [hlen])
    (fun b hb => h1 b (List.mem_reverse.1 hb)) (fun b hb => h2 b (List.mem_reverse.1 hb)) hv
  exact List.reverse_injective this

theorem bytesVal_lt (l : List Nat) (h : ∀ b ∈ l, b < 256) : bytesVal l < 256 ^ l.length := by
  have := leVal_lt l.reverse (fun x hx => h x (List.mem_reverse.1 hx))
  rw [List.length_reverse, ← bytesVal_eq_leVal_reverse] at this
  exact this

/-- The steps of `NextIP` from a 16-byte address reach every 16-byte address in
fewer than `2 ^ 128` steps. -/
theorem NextIP_reaches (ip t : List Nat) (hl : ip.length = 16) (hb : ∀ b ∈ ip, b < 256)
    (tl : t.length = 16) (tb : ∀ b ∈ t, b < 256) :
    ∃ j, j < 2 ^ 128 ∧ NextIP^[j] ip = t := by
  have h1 := bytesVal_lt ip hb
  have h2 := bytesVal_lt t tb
  rw [hl] at h1
  rw [tl] at h2
  have hM : (256 : Nat) ^ 16 = 2 ^ 128 := by norm_num
  rw [hM] at h1 h2
  refine ⟨(bytesVal t + 2 ^ 128 - bytesVal ip) % 2 ^ 128, Nat.mod_lt _ (by norm_num), ?_⟩
  obtain ⟨i1, i2, i3⟩ := iterate_NextIP ip hb ((bytesVal t + 2 ^ 128 - bytesVal ip) % 2 ^ 128)
  apply bytesVal_inj _ _ (by rw [i1, hl, tl]) i2 tb
  rw [i3, hl, hM]
  generalize bytesVal t = T at *
  generalize bytesVal ip = B at *
  norm_num at h1 h2 ⊢
  omega

/-- For every network there is a 16-byte address that the walk does not pass
over and that is outside the network: `::` when the network number has fewer
than sixteen bytes, `0.0.0.1` when it has sixteen. -/
theorem stop_target (net : IPNet) :
    ∃ t : List Nat, t.length = 16 ∧ (∀ b ∈ t, b < 256) ∧ walkSkips t = false ∧
      Contains net t = false := by
  by_cases h : (networkNumberAndMask net).1.length = 16
  · refine ⟨[0, 0, 0, 0, 0, 0, 0, 0, 0, 0, 255, 255, 0, 0, 0, 1], rfl, by decide, by decide, ?_⟩
    have h4 : To4 [0, 0, 0, 0, 0, 0, 0, 0, 0, 0, 255, 255, 0, 0, 0, 1] = some [0, 0, 0, 1] := by
      decide
    unfold Contains
    simp only [h4, h]
    rfl
  · refine ⟨[0, 0, 0, 0, 0, 0, 0, 0, 0, 0, 0, 0, 0, 0, 0, 0], rfl, by decide, by decide, ?_⟩
    have h4 : To4 [0, 0, 0, 0, 0, 0, 0, 0, 0, 0, 0, 0, 0, 0, 0, 0] = none := by decide
    unfold Contains
    simp only [h4]
    rw [if_pos (by simpa using fun e => h e.symm)]

/-- One iteration of the walk loop, by the two tests on the address. -/
theorem walkLoop_succ (net : IPNet) (srv : List Nat) (fuel : Nat) (ip : List Nat)
    (acc : List IPAddress) (idx : Int) (k : Nat) :
    walkLoop net srv (fuel + 1) ip acc idx k =
      if walkSkips ip then walkLoop net srv fuel (NextIP ip) acc idx k
      else if Contains net ip = false then some (acc, idx)
      else if IPEqual ip srv then
        walkLoop net srv fuel (NextIP ip)
          (acc ++ [{ S := IPString ip, IP := ip, IsServerIP := true }]) (Int.ofNat k) (k + 1)
      else
        walkLoop net srv fuel (NextIP ip)
          (acc ++ [{ S := IPString ip, IP := ip, IsServerIP := false }]) idx (k + 1) := by
  rw [walkLoop]
  simp only [walkSkips]
  by_cases h1 : (HasSuffix (IPString ip) ".0" || HasSuffix (IPString ip) ".255") = true
  · simp only [h1, if_true]
  · by_cases h2 : Contains net ip = true
    · simp [h1, h2]
    · simp [h1, h2]

/-- If the `j`-th address after `ip` is one that the walk does not pass over and
that is outside the network, the loop started at `ip` leaves at such an address
after at most `j` steps of `NextIP`, with the same result for every bound on the
iterations above that number of steps. -/
theorem walkLoop_stops (net : IPNet) (srv : List Nat) :
    ∀ (j : Nat) (ip : List Nat) (acc : List IPAddress) (idx : Int) (k : Nat),
      walkSkips (NextIP^[j] ip) = false → Contains net (NextIP^[j] ip) = false →
      ∃ i r, i ≤ j ∧ walkSkips (NextIP^[i] ip) = false ∧
        Contains net (NextIP^[i] ip) = false ∧
        (∀ i2, i2 < i → walkSkips (NextIP^[i2] ip) = true ∨
          Contains net (NextIP^[i2] ip) = true) ∧
        ∀ fuel, i < fuel → walkLoop net srv fuel ip acc idx k = some r := by
  intro j
  induction j with
  | zero =>
    intro ip acc idx k hs hc
    refine ⟨0, (acc, idx), Nat.le_refl 0, hs, hc, fun i2 h => absurd h (Nat.not_lt_zero _), ?_⟩
    intro fuel hf
    obtain ⟨f, rfl⟩ : ∃ f, fuel = f + 1 := ⟨fuel - 1, by omega⟩
    simp only [Function.iterate_zero, id_eq] at hs hc
    rw [walkLoop_succ, hs, hc]
    simp
  | succ j ih =>
    intro ip acc idx k hs hc
    rw [Function.iterate_succ_apply] at hs hc
    have step : ∀ (acc2 : List IPAddress) (idx2 : Int) (k2 : Nat),
        (walkSkips ip = true ∨ Contains net ip = true) →
        (∀ fuel, walkLoop net srv (fuel + 1) ip acc idx k =
          walkLoop net srv fuel (NextIP ip) acc2 idx2 k2) →
        ∃ i r, i ≤ j + 1 ∧ walkSkips (NextIP^[i] ip) = false ∧
          Contains net (NextIP^[i] ip) = false ∧
          (∀ i2, i2 < i → walkSkips (NextIP^[i2] ip) = true ∨
            Contains net (NextIP^[i2] ip) = true) ∧
          ∀ fuel, i < fuel → walkLoop net srv fuel ip acc idx k = some r := by
      intro acc2 idx2 k2 h0 hstep
      obtain ⟨i, r, hi, h1, h2, h3, h4⟩ := ih (NextIP ip) acc2 idx2 k2 hs hc
      refine ⟨i + 1, r, by omega, ?_, ?_, ?_, ?_⟩
      · rw [Function.iterate_succ_apply]; exact h1
      · rw [Function.iterate_succ_apply]; exact h2
      · intro i2 hi2
        cases i2 with
        | zero => exact h0
        | succ i3 =>
          rw [Function.iterate_succ_apply]
          exact h3 i3 (by omega)
      · intro fuel hf
        obtain ⟨f, rfl⟩ : ∃ f, fuel = f + 1 := ⟨fuel - 1, by omega⟩
        rw [hstep f]
        exact h4 f (by omega)
    by_cases h1 : walkSkips ip = true
    · exact step acc idx k (Or.inl h1) (fun fuel => by rw [walkLoop_succ, if_pos h1])
    · by_cases h2 : Contains net ip = true
      · by_cases h3 : IPEqual ip srv = true
        · exact step _ _ _ (Or.inr h2) (fun fuel => by
            rw [walkLoop_succ, if_neg h1, if_neg (by simp [h2]), if_pos h3])
        · exact step _ _ _ (Or.inr h2) (fun fuel => by
            rw [walkLoop_succ, if_neg h1, if_neg (by simp [h2]), if_neg h3])
      · refine ⟨0, (acc, idx), Nat.zero_le _, by simpa using h1, by simpa using h2,
          fun i2 h => absurd h (Nat.not_lt_zero _), ?_⟩
        intro fuel hf
        obtain ⟨f, rfl⟩ : ∃ f, fuel = f + 1 := ⟨fuel - 1, by omega⟩
        rw [walkLoop_succ, if_neg h1, if_pos (by simpa using h2)]

/-- The walk from a 16-byte address ends, on every network. -/
theorem walk_ends (net : IPNet) (srv ip : List Nat) (hl : ip.length = 16)
    (hb : ∀ b ∈ ip, b < 256) :
    ∃ i r, i < walkFuel ∧ walk net srv ip = some r ∧
      (∀ fuel, i < fuel → walkLoop net srv fuel ip [] (-1) 0 = some r) ∧
      walkSkips (NextIP^[i] ip) = false ∧ Contains net (NextIP^[i] ip) = false ∧
      (∀ i2, i2 < i → walkSkips (NextIP^[i2] ip) = true ∨
        Contains net (NextIP^[i2] ip) = true) := by
  obtain ⟨t, tl, tb, ts, tc⟩ := stop_target net
  obtain ⟨j, hj, rfl⟩ := NextIP_reaches ip t hl hb tl tb
  obtain ⟨i, r, hi, h1, h2, h3, h4⟩ := walkLoop_stops net srv j ip [] (-1) 0 ts tc
  have hlt : i < walkFuel := by unfold walkFuel; omega
  exact ⟨i, r, hlt, h4 walkFuel hlt, h4, h1, h2, h3⟩

/-- A call of `Generate` returns: the walk never uses up its bound. -/
theorem Generate_returns (env : Env) (conf : Configuration) :
    ∃ r, Generate env conf = some r := by
  unfold Generate
  cases hp : ParseCIDR conf.GenerationParams.CIDR with
  | none => exact ⟨_, rfl⟩
  | some r =>
    obtain ⟨firstIP, cidrNet⟩ := r
    simp only []
    by_cases ha : IPNetString cidrNet ≠ conf.GenerationParams.CIDR
    · rw [if_pos ha]; exact ⟨_, rfl⟩
    · rw [if_neg ha]
      cases hs : ParseIP conf.GenerationParams.Server with
      | none => exact ⟨_, rfl⟩
      | some srv =>
        simp only []
        by_cases hc : ¬ Contains cidrNet srv = true
        · rw [if_pos hc]; exact ⟨_, rfl⟩
        · rw [if_neg hc]
          cases he : EstimateNetworkSize cidrNet with
          | error e => exact ⟨_, rfl⟩
          | ok n =>
            simp only []
            obtain ⟨v, rfl⟩ := ParseCIDR_as16 _ _ _ hp
            obtain ⟨i, r, _, hw, _⟩ :=
              walk_ends cidrNet srv (as16 v) (as16_length v) (as16_lt v)
            rw [hw]
            exact ⟨_, rfl⟩

/-- Claim C15: the address walk is finite.  From every 16-byte first address, on
every network and for every server address, the loop leaves after fewer than
`2 ^ 128` steps of `NextIP`, at the first address that it does not pass over and
that is outside the network, and every larger bound on the iterations gives the
same result; hence every call of `Generate` returns.  On an aligned IPv4 network
with prefix length `p`, prefix length 0 and the ranges that end at
`255.255.255.255` included, `2 ^ (32 - p) + 3` iterations are enough. -/
theorem walk_finite :
    (∀ (net : IPNet) (srv ip : List Nat), ip.length = 16 → (∀ b ∈ ip, b < 256) →
      ∃ i r, i < walkFuel ∧ walk net srv ip = some r ∧
        (∀ fuel, i < fuel → walkLoop net srv fuel ip [] (-1) 0 = some r) ∧
        walkSkips (NextIP^[i] ip) = false ∧ Contains net (NextIP^[i] ip) = false ∧
        (∀ i2, i2 < i → walkSkips (NextIP^[i2] ip) = true ∨
          Contains net (NextIP^[i2] ip) = true)) ∧
    (∀ (env : Env) (conf : Configuration), ∃ r, Generate env conf = some r) ∧
    (∀ (a p : Nat) (srv : List Nat), p ≤ 32 → a < 2 ^ 32 → a % 2 ^ (32 - p) = 0 →
      ∀ n, walkLoop ⟨be4 a, CIDRMask p 32⟩ srv (n + 2 ^ (32 - p) + 3) (ip4in6 a) [] (-1) 0 =
        walk ⟨be4 a, CIDRMask p 32⟩ srv (ip4in6 a) ∧
        (walk ⟨be4 a, CIDRMask p 32⟩ srv (ip4in6 a)).isSome = true) := by
  refine ⟨walk_ends, Generate_returns, ?_⟩
  intro a p srv hp ha hal n
  have hend := aligned_end a p hp ha hal
  have hip : ip4in6 a = ipAt a := by unfold ipAt; rw [if_pos ha]
  rw [walk_ip4 a p srv hp ha hal, hip,
    walkLoop_range a p srv hp ha hal hend (2 ^ (32 - p)) a n [] (-1) 0 (Nat.le_refl a) rfl]
  simp

set_option maxRecDepth 100000 in
/-- Witness of C15: the network `255.255.255.252/30`, whose range ends at
`255.255.255.255`, where the walk yields the addresses `.252`, `.253` and `.254`,
and the network `0.0.0.0/0`, where `2 ^ 32 + 3` iterations are enough. -/
theorem walk_finite_witness :
    (∃ i r, i < walkFuel ∧
      walk ⟨[255, 255, 255, 252], [255, 255, 255, 252]⟩ (ip4in6 4294967293)
        (ip4in6 4294967292) = some r ∧
      (∀ fuel, i < fuel →
        walkLoop ⟨[255, 255, 255, 252], [255, 255, 255, 252]⟩ (ip4in6 4294967293) fuel
          (ip4in6 4294967292) [] (-1) 0 = some r) ∧
      walkSkips (NextIP^[i] (ip4in6 4294967292)) = false ∧
      Contains ⟨[255, 255, 255, 252], [255, 255, 255, 252]⟩
        (NextIP^[i] (ip4in6 4294967292)) = false ∧
      (∀ i2, i2 < i → walkSkips (NextIP^[i2] (ip4in6 4294967292)) = true ∨
        Contains ⟨[255, 255, 255, 252], [255, 255, 255, 252]⟩
          (NextIP^[i2] (ip4in6 4294967292)) = true)) ∧
    (walk ⟨[255, 255, 255, 252], [255, 255, 255, 252]⟩ (ip4in6 4294967293)
        (ip4in6 4294967292)).map (fun r => (r.1.map (fun e => e.S), r.2)) =
      some (["255.255.255.252", "255.255.255.253", "255.255.255.254"], 1) ∧
    (walk ⟨be4 0, CIDRMask 0 32⟩ [] (ip4in6 0)).isSome = true :=
  ⟨walk_finite.1 _ _ (ip4in6 4294967292) (by decide) (by decide), by decide,
   (walk_finite.2.2 0 0 [] (by decide) (by decide) (by decide) 0).2⟩

/-! ## The spool of peer stanzas -/

/-- The loop over the spool appends the stanzas, whatever the way they were put
into the spool, as long as `GunzipString` undoes `GzipString` on them. -/
theorem spoolText_spooled (env : Env) (useGzip : Bool)
    (hrt : useGzip = true → ∀ s z, env.GzipString s = .ok z → env.GunzipString z = .ok s) :
    ∀ (ss zs : List String) (config : String), List.Forall₂ (spooled env useGzip) ss zs →
      spoolText env useGzip zs config = .ok (config ++ joinAll ss) := by
  intro ss
  induction ss with
  | nil =>
    intro zs config h
    cases h
    simp [spoolText, joinAll]
  | cons s ss ih =>
    intro zs config h
    cases zs with
    | nil => cases h
    | cons z zs =>
      rw [List.forall₂_cons] at h
      obtain ⟨hsz, hrest⟩ := h
      unfold spooled at hsz
      cases hg : useGzip with
      | false =>
        rw [hg] at hsz
        simp only [Bool.false_eq_true, if_false] at hsz
        subst hsz
        rw [spoolText]
        simp only [Bool.false_eq_true, if_false]
        rw [← hg, ih zs _ hrest, joinAll, String.append_assoc]
      | true =>
        rw [hg] at hsz
        simp only [if_true] at hsz
        rw [spoolText]
        simp only [if_true, hrt hg s z hsz]
        rw [← hg, ih zs _ hrest, joinAll, String.append_assoc]

/-- The loop of `GenerateServerConfig` over the spool, for a codec that is
assumed to undo itself: if `GunzipString (GzipString s)` returns `s` without
error for every string `s`, then every list of peer stanzas has a list of gzipped
stanzas, and `GenerateServerConfig` with UseGzipDuringProcessing set over the
gzipped stanzas returns the same text as without it over the raw stanzas, the
interface section followed by the stanzas.  Whether the codec of `compress/gzip`
undoes itself is not part of this development. -/
theorem GenerateServerConfig_codec_neutral (env : Env)
    (hrt : ∀ s, ∃ z, env.GzipString s = .ok z ∧ env.GunzipString z = .ok s)
    (stanzas : List String) :
    ∃ zs : List String, List.Forall₂ (fun s z => env.GzipString s = .ok z) stanzas zs ∧
      ∀ (w : WgConfig) (conf : Configuration) (network : IPNet),
        GenerateServerConfig env w { conf with UseGzipDuringProcessing := true } zs network =
          GenerateServerConfig env w { conf with UseGzipDuringProcessing := false } stanzas
            network ∧
        GenerateServerConfig env w { conf with UseGzipDuringProcessing := false } stanzas
            network =
          .ok (serverInterface w conf.GenerationParams network ++ joinAll stanzas) := by
  have hrt2 : ∀ s z, env.GzipString s = .ok z → env.GunzipString z = .ok s := by
    intro s z h
    obtain ⟨z2, h1, h2⟩ := hrt s
    rw [h1] at h
    simp only [Except.ok.injEq] at h
    rw [← h]
    exact h2
  have hzs : ∃ zs : List String,
      List.Forall₂ (fun s z => env.GzipString s = .ok z) stanzas zs := by
    induction stanzas with
    | nil => exact ⟨[], List.Forall₂.nil⟩
    | cons s rest ih =>
      obtain ⟨zs, h⟩ := ih
      obtain ⟨z, hz, _⟩ := hrt s
      exact ⟨z :: zs, List.Forall₂.cons hz h⟩
  obtain ⟨zs, hz⟩ := hzs
  refine ⟨zs, hz, ?_⟩
  intro w conf network
  have h1 : List.Forall₂ (spooled env true) stanzas zs := by
    refine List.Forall₂.imp ?_ hz
    intro s z h
    simpa [spooled] using h
  have h2 : List.Forall₂ (spooled env false) stanzas stanzas := by
    rw [List.forall₂_same]
    intro s _
    simp [spooled]
  have e1 := spoolText_spooled env true (fun _ => hrt2) stanzas zs
    (serverInterface w conf.GenerationParams network) h1
  have e2 := spoolText_spooled env false (fun h => by cases h) stanzas stanzas
    (serverInterface w conf.GenerationParams network) h2
  unfold GenerateServerConfig
  simp only []
  rw [e1, e2]
  exact ⟨rfl, rfl⟩

/-- The stand-in codec of `demoEnv` undoes itself. -/
theorem demoEnv_round_trip (s : String) :
    ∃ z, demoEnv.GzipString s = .ok z ∧ demoEnv.GunzipString z = .ok s :=
  ⟨"gz:" ++ s, rfl, rfl⟩

set_option maxRecDepth 100000 in
/-- An instance with the stand-in codec of `demoEnv` and two stanzas: the server
block made from the marked stanzas is the one made from the raw stanzas. -/
theorem GenerateServerConfig_codec_example :
    ∃ zs : List String,
      List.Forall₂ (fun s z => demoEnv.GzipString s = .ok z)
        [peerStanza demoRecord, peerStanza demoServer] zs ∧
      ∀ (w : WgConfig) (conf : Configuration) (network : IPNet),
        GenerateServerConfig demoEnv w { conf with UseGzipDuringProcessing := true } zs
            network =
          GenerateServerConfig demoEnv w { conf with UseGzipDuringProcessing := false }
            [peerStanza demoRecord, peerStanza demoServer] network ∧
        GenerateServerConfig demoEnv w { conf with UseGzipDuringProcessing := false }
            [peerStanza demoRecord, peerStanza demoServer] network =
          .ok (serverInterface w conf.GenerationParams network ++
            joinAll [peerStanza demoRecord, peerStanza demoServer]) :=
  GenerateServerConfig_codec_neutral demoEnv demoEnv_round_trip
    [peerStanza demoRecord, peerStanza demoServer]

/-! ## The server block that `Generate` leaves -/

/-- A task for an address that is not the server stores its record and appends
the stanza of that record to the spool. -/
theorem prepDevice_spool (env : Env) (conf : Configuration) (peersIn : List WgConfig)
    (srv : WgConfig) (i : Nat) (ip : IPAddress) (st st' : GenState)
    (h : prepDevice env conf peersIn (some srv) i ip st = .ok st')
    (hip : ip.IsServerIP = false) :
    ∃ w z, st'.peers = mapSet st.peers i w ∧ st'.spgz = st.spgz ++ [z] ∧
      spooled env conf.UseGzipDuringProcessing (peerStanza w) z := by
  unfold prepDevice at h
  simp only [] at h
  split at h
  · cases h
  · rename_i w rng hk
    obtain ⟨_, _, h3, _⟩ := applyKeyRules_frame _ _ _ _ _ _ hk
    rw [applyForcedRules_IsServer, applySoftRules_IsServer] at h3
    simp only [] at h3
    rw [hip] at h3
    simp only [GenerateConfig] at h
    have hs : ¬ w.IsServer = true := by simp [h3]
    rw [if_pos hs] at h
    by_cases hz : conf.UseGzipDuringProcessing = true
    · rw [if_pos hz] at h
      split at h
      · cases h
      · rename_i z hg
        simp only [Except.ok.injEq] at h
        subst h
        refine ⟨_, z, rfl, rfl, ?_⟩
        unfold spooled
        rw [if_pos hz]
        exact hg
    · rw [if_neg hz] at h
      simp only [Except.ok.injEq] at h
      subst h
      refine ⟨_, _, rfl, rfl, ?_⟩
      unfold spooled
      rw [if_neg hz]
      rfl

/-- The task of the server, which runs while the variable `server` is nil, leaves
the spool as it is. -/
theorem prepDevice_none_spgz (env : Env) (conf : Configuration) (peersIn : List WgConfig)
    (i : Nat) (ip : IPAddress) (st st' : GenState)
    (h : prepDevice env conf peersIn none i ip st = .ok st') : st'.spgz = st.spgz := by
  unfold prepDevice at h
  simp only [] at h
  split at h
  · cases h
  · simp only [Except.ok.injEq] at h
    subst h
    rfl

/-- The spool after a run of tasks with distinct ids for addresses that are not
the server: one entry for every task, in the order of the run, made of the stanza
of the record that the map holds under the id of the task. -/
theorem runTasks_spool (env : Env) (conf : Configuration) (peersIn : List WgConfig)
    (srv : WgConfig) :
    ∀ (tasks : List (Nat × IPAddress)) (st st' : GenState),
      runTasks env conf peersIn (some srv) tasks st = .ok st' →
      (∀ t ∈ tasks, t.2.IsServerIP = false) → (tasks.map Prod.fst).Nodup →
      ∃ zs, st'.spgz = st.spgz ++ zs ∧
        List.Forall₂ (fun t z => spooled env conf.UseGzipDuringProcessing
          (peerStanza (mapGet st'.peers (t.1 + 1))) z) tasks zs := by
  intro tasks
  induction tasks with
  | nil =>
    intro st st' h _ _
    simp only [runTasks, Except.ok.injEq] at h
    subst h
    exact ⟨[], by simp, List.Forall₂.nil⟩
  | cons t rest ih =>
    intro st st' h hns hnd
    rw [runTasks] at h
    split at h
    · cases h
    · rename_i st1 hp
      obtain ⟨w, z, hw, hz, hsp⟩ :=
        prepDevice_spool _ _ _ _ _ _ _ _ hp (hns t (List.mem_cons_self _ _))
      rw [List.map_cons, List.nodup_cons] at hnd
      obtain ⟨zs, hzs, hall⟩ := ih st1 st' h
        (fun t' ht' => hns t' (List.mem_cons_of_mem _ ht')) hnd.2
      obtain ⟨_, _, r3, _⟩ := runTasks_ok _ _ _ _ _ _ _ h
      have hkeep : mapGet st'.peers (t.1 + 1) = w := by
        rw [r3 (t.1 + 1) (fun t' ht' hc => hnd.1 (by
          have : t'.1 = t.1 := by omega
          rw [← this]
          exact List.mem_map_of_mem _ ht')), hw, mapGet_mapSet, if_pos rfl]
      refine ⟨z :: zs, by rw [hzs, hz, List.append_assoc]; rfl, List.Forall₂.cons ?_ hall⟩
      rw [hkeep]
      exact hsp

/-- A scheduler that always runs the first pending task runs the tasks of a batch
in the order in which the batch started them. -/
theorem pickOrder_first {α : Type} (sched : Nat → Nat) (h0 : ∀ n, sched n = 0) :
    ∀ (fuel n : Nat) (pending : List α), pending.length ≤ fuel →
      pickOrder sched fuel n pending = pending := by
  intro fuel
  induction fuel with
  | zero =>
    intro n pending h
    have : pending = [] := List.length_eq_zero.1 (Nat.le_zero.1 h)
    subst this
    simp [pickOrder]
  | succ fuel ih =>
    intro n pending h
    rw [pickOrder, h0 n]
    cases pending with
    | nil => simp
    | cons a l =>
      simp only [List.length_cons, Nat.zero_mod, List.getElem?_cons_zero, List.eraseIdx_cons_zero]
      rw [ih (n + 1) l (by simpa using h)]

theorem executionOrder_first (sched : Nat → Nat) (h0 : ∀ n, sched n = 0)
    (allIPs : List IPAddress) :
    ∀ (fuel j n : Nat), allIPs.length ≤ j + 1000 * fuel →
      executionOrder sched allIPs fuel j n =
        (allIPs.enum.drop j).filter (fun t => !t.2.IsServerIP) := by
  intro fuel
  induction fuel with
  | zero =>
    intro j n h
    have : allIPs.enum.drop j = [] := by
      apply List.drop_eq_nil_of_le
      rw [List.enum_length]
      omega
    simp [executionOrder, this]
  | succ fuel ih =>
    intro j n h
    rw [executionOrder]
    by_cases hj : j < allIPs.length
    · rw [if_pos hj]
      simp only []
      have hsplit : (allIPs.enum.drop j).filter (fun t => !t.2.IsServerIP) =
          batchTasks allIPs j ++ (allIPs.enum.drop (j + 1000)).filter (fun t => !t.2.IsServerIP) := by
        unfold batchTasks
        rw [← List.filter_append, ← List.drop_drop, List.take_append_drop]
      rw [hsplit, pickOrder_first sched h0 _ n _ (Nat.le_refl _), ih (j + 1000) _ (by omega)]
    · rw [if_neg hj]
      have : allIPs.enum.drop j = [] := by
        apply List.drop_eq_nil_of_le
        rw [List.enum_length]
        omega
      simp [this]

/-- The indices of the tasks that run are increasing in the list `allIPs`, so no
two tasks of a run have the same index. -/
theorem tasks_sorted (allIPs : List IPAddress) :
    ((allIPs.enum.filter (fun t => !t.2.IsServerIP)).map Prod.fst).Pairwise (· < ·) := by
  have h1 : ((allIPs.enum.filter (fun t => !t.2.IsServerIP)).map Prod.fst).Sublist
      (allIPs.enum.map Prod.fst) := List.Sublist.map _ (List.filter_sublist _)
  rw [List.enum_map_fst] at h1
  exact List.Pairwise.sublist h1 (List.pairwise_lt_range _)

theorem executionOrder_nodup (sched : Nat → Nat) (allIPs : List IPAddress) :
    ((executionOrder sched allIPs allIPs.length 0 0).map Prod.fst).Nodup := by
  have hp := (executionOrder_perm sched allIPs allIPs.length 0 0 (by omega)).map Prod.fst
  rw [List.drop_zero] at hp
  exact hp.nodup_iff.2 ((tasks_sorted allIPs).imp (fun h => Nat.ne_of_lt h))

/-- The server block that the part of `Generate` after the walk leaves when it
succeeds: the record at the position of the flagged address holds the interface
section followed by the stanzas of the records at the positions of the tasks, in
the order in which the tasks ran. -/
theorem generateDevices_server (env : Env) (conf : Configuration) (net : IPNet)
    (allIPs : List IPAddress) (idx : Int) (conf' : Configuration)
    (hclear : ∀ w ∈ conf.Peers, w.IsServer = false)
    (huniq : ∀ i j : Nat, ∀ hi : i < allIPs.length, ∀ hj : j < allIPs.length,
      (allIPs.get ⟨i, hi⟩).IsServerIP = true → (allIPs.get ⟨j, hj⟩).IsServerIP = true → i = j)
    (hrt : conf.UseGzipDuringProcessing = true →
      ∀ s z, env.GzipString s = .ok z → env.GunzipString z = .ok s)
    (h : generateDevices env conf net allIPs idx = { conf := conf', err := none }) :
    ∃ i0 : Nat, idx = Int.ofNat i0 ∧ i0 < allIPs.length ∧
      (conf'.Peers.getD i0 WgConfig.zero).Config =
        serverInterface (conf'.Peers.getD i0 WgConfig.zero) conf.GenerationParams net ++
          joinAll ((executionOrder env.sched allIPs allIPs.length 0 0).map
            (fun t => peerStanza (conf'.Peers.getD t.1 WgConfig.zero))) ∧
      ∀ t ∈ executionOrder env.sched allIPs allIPs.length 0 0, t.1 ≠ i0 := by
  obtain ⟨i0, hidxeq, hi0, hflag, _, hlen, _, _, _⟩ :=
    generateDevices_ok env conf net allIPs idx conf' hclear huniq h
  refine ⟨i0, hidxeq, hi0, ?_⟩
  have htaskmem : ∀ t ∈ executionOrder env.sched allIPs allIPs.length 0 0,
      t.1 < allIPs.length ∧ t.2.IsServerIP = false ∧ t.1 ≠ i0 := by
    intro t ht
    obtain ⟨ht1, ht2⟩ := (mem_executionOrder _ _ _).1 ht
    have hlt : t.1 < allIPs.length := by
      by_contra hc2
      rw [List.getElem?_eq_none_iff.2 (by omega)] at ht1
      cases ht1
    have heq : t.2 = allIPs.getD t.1 ⟨"", [], false⟩ := by
      simp [List.getD_eq_getElem?_getD, ht1]
    refine ⟨hlt, ht2, ?_⟩
    intro hc2
    rw [hc2] at heq
    rw [heq, hflag] at ht2
    cases ht2
  refine ⟨?_, fun t ht => (htaskmem t ht).2.2⟩
  have hi : idx.toNat = i0 := by rw [hidxeq]; rfl
  unfold generateDevices at h
  simp only [] at h
  rw [hi] at h
  rw [if_pos ⟨by rw [hidxeq]; exact Int.ofNat_nonneg _, hflag⟩] at h
  split at h
  · simp at h
  rename_i st1 hp
  have hsp1 : st1.spgz = [] := prepDevice_none_spgz _ _ _ _ _ _ _ hp
  obtain ⟨ws, hws, _, _, _⟩ := prepDevice_ok _ _ _ _ _ _ _ _ hp
  simp only [] at hws
  have hseed : ∀ e ∈ conf.Peers.enum, e.2.IsServer = false := fun e he =>
    hclear e.2 (List.snd_mem_of_mem_enum he)
  split at h
  · simp at h
  rename_i sI server hf
  have hfound := List.find?_some hf
  have hmem := List.mem_of_find?_eq_some hf
  simp only [] at hfound
  rw [hws] at hmem
  have hsrv : (sI, server) = (i0 + 1, ws) := by
    rcases mem_mapSet _ _ _ _ hmem with hm | hm
    · exact hm
    · have := hseed _ hm
      simp only [] at this
      rw [this] at hfound
      cases hfound
  simp only [Prod.mk.injEq] at hsrv
  obtain ⟨rfl, rfl⟩ := hsrv
  split at h
  · simp at h
  split at h
  · simp at h
  rename_i st2 hr
  obtain ⟨r1, _, r3, _⟩ := runTasks_ok _ _ _ _ _ _ _ hr
  obtain ⟨zs, hzs, hall⟩ := runTasks_spool _ _ _ _ _ _ _ hr
    (fun t ht => (htaskmem t ht).2.1) (executionOrder_nodup env.sched allIPs)
  rw [hsp1, List.nil_append] at hzs
  split at h
  · simp at h
  rename_i config hc
  simp only [GenResult.mk.injEq, and_true] at h
  subst h
  -- the text of the server block
  have hcfg : config = serverInterface server conf.GenerationParams net ++
      joinAll ((executionOrder env.sched allIPs allIPs.length 0 0).map
        (fun t => peerStanza (mapGet st2.peers (t.1 + 1)))) := by
    unfold GenerateServerConfig at hc
    rw [hzs, spoolText_spooled env conf.UseGzipDuringProcessing hrt _ zs _
      (List.forall₂_map_left_iff.2 hall)] at hc
    simp only [Except.ok.injEq] at hc
    exact hc.symm
  -- the records of the collection
  have hs1 : i0 + 1 ∈ st1.peers.map Prod.fst := by
    rw [hws, mem_mapSet_keys]
    exact Or.inl rfl
  have hs2 : i0 + 1 ∈ st2.peers.map Prod.fst := (r1 _).2 (Or.inl hs1)
  have hlenout : (mapSet st2.peers (i0 + 1) { server with Config := config }).length =
      st2.peers.length := mapSet_length_of_mem _ _ _ hs2
  simp only [List.length_map, List.length_range, hlenout] at hlen
  have hout : ∀ l, l < allIPs.length →
      ((List.range (mapSet st2.peers (i0 + 1) { server with Config := config }).length).map
        (fun i => mapGet (mapSet st2.peers (i0 + 1) { server with Config := config }) (i + 1))).getD l
          WgConfig.zero =
        if l = i0 then { server with Config := config } else mapGet st2.peers (l + 1) := by
    intro l hl
    rw [List.getD_eq_getElem?_getD, List.getElem?_map,
      List.getElem?_range (by rw [hlenout]; omega)]
    simp only [Option.map_some', Option.getD_some, mapGet_mapSet]
    by_cases hli : l = i0
    · simp [hli]
    · have : ¬ l + 1 = i0 + 1 := by omega
      simp [hli, this]
  simp only []
  rw [hout i0 hi0, if_pos rfl]
  have hmap : (executionOrder env.sched allIPs allIPs.length 0 0).map
      (fun t => peerStanza
        (((List.range (mapSet st2.peers (i0 + 1) { server with Config := config }).length).map
          (fun i => mapGet (mapSet st2.peers (i0 + 1) { server with Config := config })
            (i + 1))).getD t.1 WgConfig.zero)) =
      (executionOrder env.sched allIPs allIPs.length 0 0).map
        (fun t => peerStanza (mapGet st2.peers (t.1 + 1))) := by
    apply List.map_congr_left
    intro t ht
    obtain ⟨ht1, _, ht3⟩ := htaskmem t ht
    rw [hout t.1 ht1, if_neg ht3]
  rw [hmap]
  exact hcfg

/-- The positions of the tasks that run are all positions of `allIPs` other than
the flagged one, each once. -/
theorem executionOrder_ids (sched : Nat → Nat) (allIPs : List IPAddress) (i0 : Nat)
    (hi0 : i0 < allIPs.length)
    (hflag : (allIPs.getD i0 ⟨"", [], false⟩).IsServerIP = true)
    (huniq : ∀ i j : Nat, ∀ hi : i < allIPs.length, ∀ hj : j < allIPs.length,
      (allIPs.get ⟨i, hi⟩).IsServerIP = true → (allIPs.get ⟨j, hj⟩).IsServerIP = true → i = j) :
    ((executionOrder sched allIPs allIPs.length 0 0).map Prod.fst).Perm
      ((List.range allIPs.length).erase i0) := by
  have hnd2 : ((List.range allIPs.length).erase i0).Nodup :=
    List.Nodup.erase _ (List.nodup_range _)
  rw [List.perm_ext_iff_of_nodup (executionOrder_nodup sched allIPs) hnd2]
  intro l
  rw [List.Nodup.mem_erase_iff (List.nodup_range _), List.mem_range, List.mem_map]
  have hget : ∀ l (hl : l < allIPs.length), allIPs.getD l ⟨"", [], false⟩ = allIPs.get ⟨l, hl⟩ := by
    intro l hl
    simp [List.getD_eq_getElem?_getD, List.getElem?_eq_getElem hl]
  constructor
  · rintro ⟨t, ht, rfl⟩
    obtain ⟨ht1, ht2⟩ := (mem_executionOrder _ _ _).1 ht
    have hlt : t.1 < allIPs.length := by
      by_contra hc2
      rw [List.getElem?_eq_none_iff.2 (by omega)] at ht1
      cases ht1
    refine ⟨?_, hlt⟩
    intro hc2
    have heq : t.2 = allIPs.getD t.1 ⟨"", [], false⟩ := by
      simp [List.getD_eq_getElem?_getD, ht1]
    rw [hc2] at heq
    rw [heq, hflag] at ht2
    cases ht2
  · rintro ⟨hne, hlt⟩
    refine ⟨(l, allIPs.get ⟨l, hlt⟩), ?_, rfl⟩
    rw [mem_executionOrder]
    refine ⟨by simp [List.getElem?_eq_getElem hlt], ?_⟩
    by_contra hc
    have h1 : (allIPs.get ⟨l, hlt⟩).IsServerIP = true := by simpa using hc
    have h2 : (allIPs.get ⟨i0, hi0⟩).IsServerIP = true := by rw [← hget i0 hi0]; exact hflag
    exact hne (huniq l i0 hlt hi0 h1 h2)

/-- Claim C18 (amended): after a successful `Generate` (when gzip is in use, with
a `GunzipString` that undoes `GzipString`), the Config of the server record is
the interface section followed by exactly one compact stanza for every record at
the position of a walked address other than the server, `N - 1` stanzas and none
for the server, in the order in which the tasks ran: one batch of 1000 addresses
after the other and, within a batch, in the order of the scheduler.  The order is
the ascending order of the ids when the scheduler runs the tasks of a batch in
the order in which the batch started them. -/
theorem Generate_server_block (env : Env) (conf conf' : Configuration)
    (h : Generate env conf = some { conf := conf', err := none })
    (hrt : conf.UseGzipDuringProcessing = true →
      ∀ s z, env.GzipString s = .ok z → env.GunzipString z = .ok s) :
    ∃ (firstIP : List Nat) (cidrNet : IPNet) (srv : List Nat) (allIPs : List IPAddress)
      (idx : Int) (i0 : Nat) (ids : List Nat),
      ParseCIDR conf.GenerationParams.CIDR = some (firstIP, cidrNet) ∧
      ParseIP conf.GenerationParams.Server = some srv ∧
      walk cidrNet srv firstIP = some (allIPs, idx) ∧
      i0 < allIPs.length ∧
      (conf'.Peers.getD i0 WgConfig.zero).IsServer = true ∧
      ids = (executionOrder env.sched allIPs allIPs.length 0 0).map Prod.fst ∧
      ids.Perm ((List.range allIPs.length).erase i0) ∧
      ids.length = allIPs.length - 1 ∧
      ((∀ n, env.sched n = 0) → ids = (List.range allIPs.length).erase i0) ∧
      (conf'.Peers.getD i0 WgConfig.zero).Config =
        serverInterface (conf'.Peers.getD i0 WgConfig.zero) conf.GenerationParams cidrNet ++
          joinAll (ids.map (fun l => peerStanza (conf'.Peers.getD l WgConfig.zero))) := by
  obtain ⟨firstIP, cidrNet, srv, allIPs, idx, hp, _, hs, _, hw, hg⟩ :=
    Generate_ok_steps env conf conf' h
  obtain ⟨v, hv⟩ := ParseCIDR_as16 _ _ _ hp
  have hw2 := hw
  rw [hv] at hw2
  obtain ⟨_, w2, _⟩ := walk_result cidrNet srv v allIPs idx hw2
  obtain ⟨i0, hidx, hi0, hflag, _, hlen, _, _, hsrv⟩ :=
    generateDevices_ok env _ cidrNet allIPs idx conf' (cleared_flags _) w2 hg
  obtain ⟨i1, hidx1, _, hcfg, _⟩ :=
    generateDevices_server env
      { GenerationParams := conf.GenerationParams,
        UseGzipDuringProcessing := conf.UseGzipDuringProcessing,
        Peers := (if conf.GenerationParams.ResetAll then [] else conf.Peers).map
          (fun w => { w with IsServer := false }) }
      cidrNet allIPs idx conf' (cleared_flags _) w2 hrt hg
  have hi : i1 = i0 := by
    rw [hidx] at hidx1
    exact (Int.ofNat.inj hidx1).symm
  subst hi
  have hperm := executionOrder_ids env.sched allIPs i1 hi0 hflag w2
  refine ⟨firstIP, cidrNet, srv, allIPs, idx, i1, _, hp, hs, hw, hi0,
    (hsrv i1 (by omega)).2 rfl, rfl, hperm, ?_, ?_, ?_⟩
  · rw [hperm.length_eq, List.length_erase_of_mem (List.mem_range.2 hi0), List.length_range]
  · intro h0
    have hlt : IsAntisymm Nat (· < ·) := ⟨fun a b h1 h2 => absurd h1 (Nat.lt_asymm h2)⟩
    refine @List.eq_of_perm_of_sorted Nat (· < ·) hlt _ _ hperm ?_ ?_
    · rw [executionOrder_first env.sched h0 allIPs _ 0 0 (by omega), List.drop_zero]
      exact tasks_sorted allIPs
    · exact List.Pairwise.sublist (List.erase_sublist _ _) (List.pairwise_lt_range _)
  · rw [List.map_map]
    exact hcfg

theorem demoEnv_undo (s z : String) (h : demoEnv.GzipString s = .ok z) :
    demoEnv.GunzipString z = .ok s := by
  have h2 : (Except.ok ("gz:" ++ s) : Except String String) = .ok z := h
  simp only [Except.ok.injEq] at h2
  subst h2
  rfl

set_option maxRecDepth 100000 in
/-- Witness of C18 as amended: the run on `gzipConf`, with gzip in use and the
scheduler of `demoEnv`, which runs the tasks in the order in which they were
started; the server block holds the stanzas of the records 2 and 3 in this
order. -/
theorem Generate_server_block_witness :
    Generate demoEnv gzipConf = some { conf := gzipResult, err := none } ∧
    (∃ (firstIP : List Nat) (cidrNet : IPNet) (srv : List Nat) (allIPs : List IPAddress)
      (idx : Int) (i0 : Nat) (ids : List Nat),
      ParseCIDR gzipConf.GenerationParams.CIDR = some (firstIP, cidrNet) ∧
      ParseIP gzipConf.GenerationParams.Server = some srv ∧
      walk cidrNet srv firstIP = some (allIPs, idx) ∧
      i0 < allIPs.length ∧
      (gzipResult.Peers.getD i0 WgConfig.zero).IsServer = true ∧
      ids = (executionOrder demoEnv.sched allIPs allIPs.length 0 0).map Prod.fst ∧
      ids.Perm ((List.range allIPs.length).erase i0) ∧
      ids.length = allIPs.length - 1 ∧
      ((∀ n, demoEnv.sched n = 0) → ids = (List.range allIPs.length).erase i0) ∧
      (gzipResult.Peers.getD i0 WgConfig.zero).Config =
        serverInterface (gzipResult.Peers.getD i0 WgConfig.zero) gzipConf.GenerationParams
            cidrNet ++
          joinAll (ids.map (fun l => peerStanza (gzipResult.Peers.getD l WgConfig.zero)))) ∧
    (gzipResult.Peers.getD 0 WgConfig.zero).Config =
      serverInterface (gzipResult.Peers.getD 0 WgConfig.zero) demoForm
          ⟨[10, 0, 0, 0], [255, 255, 255, 252]⟩ ++
        (peerStanza (gzipResult.Peers.getD 1 WgConfig.zero) ++
          peerStanza (gzipResult.Peers.getD 2 WgConfig.zero)) :=
  ⟨by decide,
   Generate_server_block demoEnv gzipConf gzipResult (by decide) (fun _ => demoEnv_undo),
   by decide⟩

set_option maxRecDepth 100000 in
/-- Counterexample to C18 as stated: on `demoConf` with a scheduler that runs the
second pending task first, the run succeeds and the server block holds the stanza
of record 3 before the stanza of record 2, which is not the concatenation in
ascending id order. -/
theorem Generate_spool_order :
    Generate lifoEnv demoConf = some { conf := lifoResult, err := none } ∧
    lifoResult.Peers.map (fun w => (w.ID, w.IP, w.IsServer)) =
      [(1, "10.0.0.1", true), (2, "10.0.0.2", false), (3, "10.0.0.3", false)] ∧
    (lifoResult.Peers.getD 0 WgConfig.zero).Config =
      serverInterface (lifoResult.Peers.getD 0 WgConfig.zero) demoForm
          ⟨[10, 0, 0, 0], [255, 255, 255, 252]⟩ ++
        (peerStanza (lifoResult.Peers.getD 2 WgConfig.zero) ++
          peerStanza (lifoResult.Peers.getD 1 WgConfig.zero)) ∧
    (lifoResult.Peers.getD 0 WgConfig.zero).Config ≠
      specServerBlock (lifoResult.Peers.getD 0 WgConfig.zero) demoForm
        ⟨[10, 0, 0, 0], [255, 255, 255, 252]⟩ lifoResult.Peers ∧
    specServerBlock (lifoResult.Peers.getD 0 WgConfig.zero) demoForm
        ⟨[10, 0, 0, 0], [255, 255, 255, 252]⟩ lifoResult.Peers =
      serverInterface (lifoResult.Peers.getD 0 WgConfig.zero) demoForm
          ⟨[10, 0, 0, 0], [255, 255, 255, 252]⟩ ++
        (peerStanza (lifoResult.Peers.getD 1 WgConfig.zero) ++
          peerStanza (lifoResult.Peers.getD 2 WgConfig.zero)) := by
  decide

/-! ## `NextIP` on its two slices -/

theorem NextIP_loop_ip : ∀ (n : Nat) (s : NextIP.Slices), (NextIP.loop n s).ip = s.ip := by
  intro n
  induction n with
  | zero => intro s; rfl
  | succ i ih =>
    intro s
    rw [NextIP.loop]
    simp only []
    split
    · rfl
    · rw [ih]

/-- The loop over the bytes of `newIP` in front of `suf` is the carry over these
bytes from the last to the first. -/
theorem NextIP_loop_carry (ip : List Nat) : ∀ (rpre suf : List Nat),
    (NextIP.loop rpre.length { ip := ip, newIP := rpre.reverse ++ suf }).newIP =
      (NextIP.carry rpre).reverse ++ suf := by
  intro rpre
  induction rpre with
  | nil => intro suf; rfl
  | cons b bs ih =>
    intro suf
    have hlen : bs.reverse.length = bs.length := List.length_reverse bs
    have hget : (bs.reverse ++ b :: suf).getD bs.length 0 = b := by
      rw [List.getD_eq_getElem?_getD, List.getElem?_append_right (by omega)]
      simp [hlen]
    have hset : ∀ x, (bs.reverse ++ b :: suf).set bs.length x = bs.reverse ++ x :: suf := by
      intro x
      rw [List.set_append_right _ _ (by omega)]
      simp [hlen]
    have hget2 : ∀ x, (bs.reverse ++ x :: suf).getD bs.length 0 = x := by
      intro x
      rw [List.getD_eq_getElem?_getD, List.getElem?_append_right (by omega)]
      simp [hlen]
    rw [List.length_cons, NextIP.loop]
    simp only [List.reverse_cons, List.append_assoc, List.singleton_append, hget, hset, hget2]
    rw [NextIP.carry]
    by_cases hc : (b + 1) % 256 > 0
    · rw [if_pos hc, if_pos hc]
      simp
    · rw [if_neg hc, if_neg hc, ih]
      simp

theorem NextIP_run_newIP (ip : List Nat) : (NextIP.run ip).newIP = NextIP ip := by
  have h := NextIP_loop_carry ip ip.reverse []
  rw [List.length_reverse, List.reverse_reverse, List.append_nil, List.append_nil] at h
  exact h

theorem carry_all_ff (n : Nat) : NextIP.carry (List.replicate n 255) = List.replicate n 0 := by
  induction n with
  | zero => rfl
  | succ n ih =>
    rw [List.replicate_succ, NextIP.carry, if_neg (by decide), ih]
    rfl

/-- Claim C23: for every sequence `ip` of bytes, the call of `NextIP` leaves the
slice `ip` as it was and returns a slice of the same length whose bytes are the
bytes of `NextIP ip`; the value of the result as a big-endian number is the value
of `ip` plus one modulo `256 ^ len(ip)`, and the address of `n` bytes `0xFF`
wraps to `n` zero bytes. -/
theorem NextIP_spec (ip : List Nat) (hb : ∀ b ∈ ip, b < 256) :
    (NextIP.run ip).ip = ip ∧ (NextIP.run ip).newIP = NextIP ip ∧
    (NextIP.run ip).newIP.length = ip.length ∧
    (∀ b ∈ (NextIP.run ip).newIP, b < 256) ∧
    bytesVal (NextIP.run ip).newIP = (bytesVal ip + 1) % 256 ^ ip.length ∧
    (ip = List.replicate ip.length 255 →
      (NextIP.run ip).newIP = List.replicate ip.length 0) := by
  rw [NextIP_run_newIP]
  refine ⟨NextIP_loop_ip _ _, rfl, NextIP_length ip, NextIP_lt ip hb, NextIP_val ip hb, ?_⟩
  intro h
  rw [h]
  unfold NextIP
  rw [List.reverse_replicate, carry_all_ff, List.reverse_replicate, List.length_replicate]

/-- Witness of C23: the step from `10.0.0.255` to `10.0.1.0` and the wrap of
`255.255.255.255` to `0.0.0.0`. -/
theorem NextIP_spec_witness :
    (∀ b ∈ [10, 0, 0, 255], b < 256) ∧
    (NextIP.run [10, 0, 0, 255]).ip = [10, 0, 0, 255] ∧
    (NextIP.run [10, 0, 0, 255]).newIP = [10, 0, 1, 0] ∧
    bytesVal (NextIP.run [10, 0, 0, 255]).newIP =
      (bytesVal [10, 0, 0, 255] + 1) % 256 ^ [10, 0, 0, 255].length ∧
    NextIP.run [255, 255, 255, 255] =
      { ip := [255, 255, 255, 255], newIP := [0, 0, 0, 0] } :=
  ⟨by decide, (NextIP_spec [10, 0, 0, 255] (by decide)).1, by decide,
   (NextIP_spec [10, 0, 0, 255] (by decide)).2.2.2.2.1, by decide⟩

/-! ## The keepalive line of a peer block -/

theorem unlines_append (l m : List String) : unlines (l ++ m) = unlines l ++ unlines m := by
  induction l with
  | nil => simp [unlines]
  | cons a l ih => simp [unlines, ih, String.append_assoc]

theorem string_append_cancel (a b c : String) (h : a ++ b = a ++ c) : b = c := by
  have h2 := congrArg String.data h
  rw [String.data_append, String.data_append] at h2
  exact String.ext (List.append_cancel_left h2)

/-- Claim C24: the text of `GenerateConfig` depends on PersistentKeepAlive only
through whether it is greater than zero.  For every record and server and every
two positive values the two texts are the same text, whose last line is
`PersistentKeepAlive = 25`, and this text is not the one rendered for the value
0. -/
theorem keepalive_value_ignored (w server : WgConfig) (k1 k2 : Nat)
    (h1 : 0 < k1) (h2 : 0 < k2) :
    GenerateConfig { w with PersistentKeepAlive := k1 } server =
      GenerateConfig { w with PersistentKeepAlive := k2 } server ∧
    GenerateConfig { w with PersistentKeepAlive := k1 } server =
      .ok (unlines (["[Interface]"] ++ extraLines w ++ interfaceLines w ++ ["", "[Peer]"] ++
        ["PublicKey = " ++ server.PublicKey, "PresharedKey = " ++ w.PreSharedKey,
         "Endpoint = " ++ w.Endpoint ++ ":" ++ itoa w.EndpointPort,
         "AllowedIPs = " ++ w.AllowedIPs] ++ ["PersistentKeepAlive = 25"])) ∧
    GenerateConfig { w with PersistentKeepAlive := 0 } server ≠
      GenerateConfig { w with PersistentKeepAlive := k1 } server := by
  have hk : ∀ k, 0 < k → GenerateConfig { w with PersistentKeepAlive := k } server =
      .ok (unlines (["[Interface]"] ++ extraLines w ++ interfaceLines w ++ ["", "[Peer]"] ++
        ["PublicKey = " ++ server.PublicKey, "PresharedKey = " ++ w.PreSharedKey,
         "Endpoint = " ++ w.Endpoint ++ ":" ++ itoa w.EndpointPort,
         "AllowedIPs = " ++ w.AllowedIPs] ++ ["PersistentKeepAlive = 25"])) := by
    intro k hk
    rw [GenerateConfig_peerBlock]
    simp only [peerBlock, peerLines, keepaliveLines, extraLines, interfaceLines, gt_iff_lt, hk,
      if_true, List.append_assoc]
  have h0 : GenerateConfig { w with PersistentKeepAlive := 0 } server =
      .ok (unlines (["[Interface]"] ++ extraLines w ++ interfaceLines w ++ ["", "[Peer]"] ++
        ["PublicKey = " ++ server.PublicKey, "PresharedKey = " ++ w.PreSharedKey,
         "Endpoint = " ++ w.Endpoint ++ ":" ++ itoa w.EndpointPort,
         "AllowedIPs = " ++ w.AllowedIPs] ++ [])) := by
    rw [GenerateConfig_peerBlock]
    simp only [peerBlock, peerLines, keepaliveLines, extraLines, interfaceLines, gt_iff_lt,
      Nat.lt_irrefl, if_false, List.append_assoc]
  refine ⟨(hk k1 h1).trans (hk k2 h2).symm, hk k1 h1, ?_⟩
  rw [h0, hk k1 h1]
  intro h
  simp only [Except.ok.injEq] at h
  rw [unlines_append, unlines_append _ ["PersistentKeepAlive = 25"]] at h
  have h3 := string_append_cancel _ _ _ h
  revert h3
  decide

set_option maxRecDepth 100000 in
/-- Witness of C24: the record `demoRecord` with the keepalive values 25 and 30
renders the same text, with the line `PersistentKeepAlive = 25`. -/
theorem keepalive_value_ignored_witness :
    GenerateConfig { demoRecord with PersistentKeepAlive := 25 } demoServer =
      GenerateConfig { demoRecord with PersistentKeepAlive := 30 } demoServer ∧
    GenerateConfig { demoRecord with PersistentKeepAlive := 30 } demoServer =
      .ok ("[Interface]\nTable = auto\nPrivateKey = old-private\nAddress = 10.0.0.2/32" ++
        "\nDNS = 8.8.8.8\nMTU = 1420\n\n[Peer]\nPublicKey = old-public" ++
        "\nPresharedKey = old-psk\nEndpoint = old.example.com:4000" ++
        "\nAllowedIPs = 192.168.0.0/16\nPersistentKeepAlive = 25\n") :=
  ⟨(keepalive_value_ignored demoRecord demoServer 25 30 (by decide) (by decide)).1,
   by decide⟩

/-! ## The field merge applied twice -/

theorem toDigitsCore_ne_nil (b : Nat) : ∀ (fuel n : Nat) (ds : List Char), ds ≠ [] →
    Nat.toDigitsCore b fuel n ds ≠ [] := by
  intro fuel
  induction fuel with
  | zero => intro n ds h; simpa [Nat.toDigitsCore] using h
  | succ fuel ih =>
    intro n ds h
    by_cases hz : n / b = 0
    · simp [Nat.toDigitsCore, hz]
    · simp only [Nat.toDigitsCore, hz, if_false]
      exact ih _ _ (by simp)

theorem itoa_ne_empty (n : Nat) : itoa n ≠ "" := by
  intro h
  have h2 : Nat.toDigits 10 n = [] := congrArg String.data h
  revert h2
  unfold Nat.toDigits
  by_cases hz : n / 10 = 0
  · simp [Nat.toDigitsCore, hz]
  · simp only [Nat.toDigitsCore, hz, if_false]
    exact toDigitsCore_ne_nil 10 _ _ _ (by simp)

/-- A replacement gives the empty text only from the empty text or with the
empty text as the replacement. -/
theorem ReplaceAll_eq_empty (s old new : String) (h : ReplaceAll s old new = "") :
    s = "" ∨ new = "" := by
  have h2 : ReplaceAll.go old.data new.data 0 s.data = [] := congrArg String.data h
  cases hs : s.data with
  | nil => exact Or.inl (String.ext hs)
  | cons c cs =>
    right
    rw [hs, ReplaceAll.go] at h2
    split at h2
    · have h3 : new.data = [] := (List.append_eq_nil.1 h2).1
      exact String.ext h3
    · cases h2

theorem ReplaceAll_empty (old new : String) : ReplaceAll "" old new = "" :=
  String.ext (ReplaceAll_go_nil old.data new.data)

theorem WgConfig.ext_fields (a b : WgConfig) (h1 : a.ID = b.ID) (h2 : a.Config = b.Config)
    (h3 : a.Name = b.Name) (h4 : a.Description = b.Description) (h5 : a.Extra = b.Extra)
    (h6 : a.IP = b.IP) (h7 : a.AllowedIPs = b.AllowedIPs)
    (h8 : a.PersistentKeepAlive = b.PersistentKeepAlive) (h9 : a.MTU = b.MTU)
    (h10 : a.Endpoint = b.Endpoint) (h11 : a.EndpointPort = b.EndpointPort)
    (h12 : a.DNS = b.DNS) (h13 : a.IsServer = b.IsServer)
    (h14 : a.PrivateKey = b.PrivateKey) (h15 : a.PublicKey = b.PublicKey)
    (h16 : a.PreSharedKey = b.PreSharedKey) : a = b := by
  cases a
  cases b
  simp only [WgConfig.mk.injEq]
  exact ⟨h1, h2, h3, h4, h5, h6, h7, h8, h9, h10, h11, h12, h13, h14, h15, h16⟩

/-- A value that a soft rule has set or kept is kept by the same rule. -/
theorem ite_stable {α : Type} [DecidableEq α] (x0 e d x : α)
    (hx : x = if x0 = e then d else x0) : (if x = e then d else x) = x := by
  by_cases h : x0 = e
  · rw [if_pos h] at hx
    rw [hx, ite_self]
  · rw [if_neg h] at hx
    rw [hx, if_neg h]

/-- The name that the soft pass resolves for a record that holds the name
resolved for `w`. -/
theorem softName_stable (p : GenerationForm) (w w2 : WgConfig) (hid : w2.ID = w.ID)
    (hn : w2.Name = (applySoftRules p w).Name) :
    (applySoftRules p w2).Name = (applySoftRules p w).Name := by
  rw [applySoftRules_Name p w2, hid, hn]
  exact ite_stable w.Name "" _ _ (applySoftRules_Name p w)

/-- When the name resolved for `w` is empty, so is the name resolved for a
record that holds the Name template itself. -/
theorem softName_forced (p : GenerationForm) (w w2 : WgConfig)
    (hn : w2.Name = p.Name) (he : (applySoftRules p w).Name = "") :
    (applySoftRules p w2).Name = "" := by
  rw [applySoftRules_Name] at he
  by_cases hw : w.Name = ""
  · rw [if_pos hw] at he
    have hp : p.Name = "" := by
      rcases ReplaceAll_eq_empty _ _ _ he with h | h
      · exact h
      · exact absurd h (itoa_ne_empty _)
    rw [applySoftRules_Name, hn, hp, if_pos rfl]
    exact ReplaceAll_empty _ _
  · rw [if_neg hw] at he
    exact absurd he hw

/-- A template field (Description or Extra) that holds what the soft pass
resolved for `w` is resolved to the same text again. -/
theorem template_stable (tmpl n1 n2 x0 x : String)
    (hn : n1 = "" → n2 = "")
    (hx : x = if x0 = "" then ReplaceAll tmpl "${name}" n1 else x0) :
    (if x = "" then ReplaceAll tmpl "${name}" n2 else x) = x := by
  by_cases h : x = ""
  · rw [if_pos h]
    by_cases h0 : x0 = ""
    · rw [if_pos h0] at hx
      rw [h] at hx
      rcases ReplaceAll_eq_empty _ _ _ hx.symm with ht | hn1
      · rw [ht, h]
        exact ReplaceAll_empty _ _
      · rw [hn hn1, h]
        rw [hn1] at hx
        exact hx.symm
    · rw [if_neg h0] at hx
      exact absurd (hx ▸ h) h0
  · rw [if_neg h]

/-- The soft pass on a record that holds, in every field that the soft pass can
set, what the soft pass left for `w`, with the id and the server flag of `w` and
a resolved name that is empty when the name resolved for `w` is: each of these
fields is left as it is. -/
theorem applySoftRules_stable (p : GenerationForm) (w w2 : WgConfig) (hid : w2.ID = w.ID)
    (hsrv : w2.IsServer = w.IsServer)
    (hn : (applySoftRules p w).Name = "" → (applySoftRules p w2).Name = "") :
    (w2.Description = (applySoftRules p w).Description →
      (applySoftRules p w2).Description = (applySoftRules p w).Description) ∧
    (w2.Extra = (applySoftRules p w).Extra →
      (applySoftRules p w2).Extra = (applySoftRules p w).Extra) ∧
    (w2.AllowedIPs = (applySoftRules p w).AllowedIPs →
      (applySoftRules p w2).AllowedIPs = (applySoftRules p w).AllowedIPs) ∧
    (w2.DNS = (applySoftRules p w).DNS →
      (applySoftRules p w2).DNS = (applySoftRules p w).DNS) ∧
    (w2.PersistentKeepAlive = (applySoftRules p w).PersistentKeepAlive →
      (applySoftRules p w2).PersistentKeepAlive = (applySoftRules p w).PersistentKeepAlive) ∧
    (w2.MTU = (applySoftRules p w).MTU → (applySoftRules p w2).MTU = (applySoftRules p w).MTU) ∧
    (w2.Endpoint = (applySoftRules p w).Endpoint →
      (applySoftRules p w2).Endpoint = (applySoftRules p w).Endpoint) ∧
    (w2.EndpointPort = (applySoftRules p w).EndpointPort →
      (applySoftRules p w2).EndpointPort = (applySoftRules p w).EndpointPort) := by
  refine ⟨?_, ?_, ?_, ?_, ?_, ?_, ?_, ?_⟩
  · intro h
    rw [applySoftRules_Description p w2, hid, h]
    exact template_stable _ _ _ w.Description _ hn (applySoftRules_Description p w)
  · intro h
    rw [applySoftRules_Extra p w2, hid, h]
    exact template_stable _ _ _ w.Extra _ hn (applySoftRules_Extra p w)
  · intro h
    rw [applySoftRules_AllowedIPs p w2, h]
    exact ite_stable w.AllowedIPs "" _ _ (applySoftRules_AllowedIPs p w)
  · intro h
    rw [applySoftRules_DNS p w2, hsrv, h]
    have hd := applySoftRules_DNS p w
    by_cases hc : w.DNS = "" ∧ ¬ w.IsServer = true
    · rw [if_pos hc] at hd
      by_cases hc2 : (applySoftRules p w).DNS = "" ∧ ¬ w.IsServer = true
      · rw [if_pos hc2, hd]
      · rw [if_neg hc2]
    · rw [if_neg hc] at hd
      rw [hd, if_neg hc]
  · intro h
    rw [applySoftRules_PersistentKeepAlive p w2, h]
    exact ite_stable w.PersistentKeepAlive 0 _ _ (applySoftRules_PersistentKeepAlive p w)
  · intro h
    rw [applySoftRules_MTU p w2, h]
    exact ite_stable w.MTU 0 _ _ (applySoftRules_MTU p w)
  · intro h
    rw [applySoftRules_Endpoint p w2, h]
    exact ite_stable w.Endpoint "" _ _ (applySoftRules_Endpoint p w)
  · intro h
    rw [applySoftRules_EndpointPort p w2, h]
    exact ite_stable w.EndpointPort 0 _ _ (applySoftRules_EndpointPort p w)

/-- The soft pass applied to its own result changes nothing. -/
theorem applySoftRules_twice (p : GenerationForm) (w : WgConfig) :
    applySoftRules p (applySoftRules p w) = applySoftRules p w := by
  have hid := applySoftRules_ID p w
  have hn := softName_stable p w (applySoftRules p w) hid rfl
  obtain ⟨h4, h5, h7, h12, h8, h9, h10, h11⟩ :=
    applySoftRules_stable p w (applySoftRules p w) hid (applySoftRules_IsServer p w)
      (fun h => by rw [hn]; exact h)
  exact WgConfig.ext_fields _ _ (applySoftRules_ID p _) (applySoftRules_Config p _) hn (h4 rfl)
    (h5 rfl) (applySoftRules_IP p _) (h7 rfl) (h8 rfl) (h9 rfl) (h10 rfl) (h11 rfl) (h12 rfl)
    (applySoftRules_IsServer p _) (applySoftRules_PrivateKey p _) (applySoftRules_PublicKey p _)
    (applySoftRules_PreSharedKey p _)

/-- The soft pass followed by the forced pass, applied to its own result, changes
nothing. -/
theorem merge_twice (p : GenerationForm) (w : WgConfig) :
    applyForcedRules p (applySoftRules p (applyForcedRules p (applySoftRules p w))) =
      applyForcedRules p (applySoftRules p w) := by
  have hid : (applyForcedRules p (applySoftRules p w)).ID = w.ID := by
    rw [applyForcedRules_ID, applySoftRules_ID]
  have hsrv : (applyForcedRules p (applySoftRules p w)).IsServer = w.IsServer := by
    rw [applyForcedRules_IsServer, applySoftRules_IsServer]
  have hn : (applySoftRules p w).Name = "" →
      (applySoftRules p (applyForcedRules p (applySoftRules p w))).Name = "" := by
    intro he
    by_cases hf : p.ForceName = true
    · exact softName_forced p w _ (by rw [applyForcedRules_Name, if_pos hf]) he
    · rw [softName_stable p w _ hid (by rw [applyForcedRules_Name, if_neg hf])]
      exact he
  obtain ⟨h4, h5, h7, h12, h8, h9, h10, h11⟩ :=
    applySoftRules_stable p w (applyForcedRules p (applySoftRules p w)) hid hsrv hn
  apply WgConfig.ext_fields
  · simp only [applyForcedRules_ID, applySoftRules_ID]
  · simp only [applyForcedRules_Config, applySoftRules_Config]
  · rw [applyForcedRules_Name, applyForcedRules_Name p (applySoftRules p w)]
    by_cases hf : p.ForceName = true
    · rw [if_pos hf, if_pos hf]
    · rw [if_neg hf, if_neg hf]
      exact softName_stable p w _ hid (by rw [applyForcedRules_Name, if_neg hf])
  · rw [applyForcedRules_Description, applyForcedRules_Description p (applySoftRules p w)]
    by_cases hf : p.ForceDescription = true
    · rw [if_pos hf, if_pos hf]
    · rw [if_neg hf, if_neg hf]
      exact h4 (by rw [applyForcedRules_Description, if_neg hf])
  · rw [applyForcedRules_Extra, applyForcedRules_Extra p (applySoftRules p w)]
    by_cases hf : p.ForceExtra = true
    · rw [if_pos hf, if_pos hf]
    · rw [if_neg hf, if_neg hf]
      exact h5 (by rw [applyForcedRules_Extra, if_neg hf])
  · simp only [applyForcedRules_IP, applySoftRules_IP]
  · rw [applyForcedRules_AllowedIPs, applyForcedRules_AllowedIPs p (applySoftRules p w)]
    by_cases hf : p.ForceAllowedIPs = true
    · rw [if_pos hf, if_pos hf]
    · rw [if_neg hf, if_neg hf]
      exact h7 (by rw [applyForcedRules_AllowedIPs, if_neg hf])
  · rw [applyForcedRules_PersistentKeepAlive,
      applyForcedRules_PersistentKeepAlive p (applySoftRules p w)]
    by_cases hf : p.ForcePersistentKeepAlive = true
    · rw [if_pos hf, if_pos hf]
    · rw [if_neg hf, if_neg hf]
      exact h8 (by rw [applyForcedRules_PersistentKeepAlive, if_neg hf])
  · rw [applyForcedRules_MTU, applyForcedRules_MTU p (applySoftRules p w)]
    by_cases hf : p.ForceMTU = true
    · rw [if_pos hf, if_pos hf]
    · rw [if_neg hf, if_neg hf]
      exact h9 (by rw [applyForcedRules_MTU, if_neg hf])
  · rw [applyForcedRules_Endpoint, applyForcedRules_Endpoint p (applySoftRules p w)]
    by_cases hf : p.ForceEndpoint = true
    · rw [if_pos hf, if_pos hf]
    · rw [if_neg hf, if_neg hf]
      exact h10 (by rw [applyForcedRules_Endpoint, if_neg hf])
  · rw [applyForcedRules_EndpointPort, applyForcedRules_EndpointPort p (applySoftRules p w)]
    by_cases hf : p.ForceEndpointPort = true
    · rw [if_pos hf, if_pos hf]
    · rw [if_neg hf, if_neg hf]
      exact h11 (by rw [applyForcedRules_EndpointPort, if_neg hf])
  · rw [applyForcedRules_DNS, applyForcedRules_DNS p (applySoftRules p w), applySoftRules_IsServer,
      applySoftRules_IsServer, hsrv]
    by_cases hf : p.ForceDNS = true ∧ ¬ w.IsServer = true
    · rw [if_pos hf, if_pos hf]
    · rw [if_neg hf, if_neg hf]
      exact h12 (by rw [applyForcedRules_DNS, applySoftRules_IsServer, if_neg hf])
  · simp only [applyForcedRules_IsServer, applySoftRules_IsServer]
  · simp only [applyForcedRules_PrivateKey, applySoftRules_PrivateKey]
  · simp only [applyForcedRules_PublicKey, applySoftRules_PublicKey]
  · simp only [applyForcedRules_PreSharedKey, applySoftRules_PreSharedKey]

/-- Claim C22: the field merge is idempotent.  For every record and every
GenerationParams, `applySoftRules` followed by `applyForcedRules` on the result
of `applySoftRules` followed by `applyForcedRules` gives the record that one
application gives, and `applySoftRules` on the result of `applySoftRules` gives
the record that one application gives; templates and forced values are
arbitrary texts and numbers, empty and zero included. -/
theorem merge_idempotent (p : GenerationForm) (w : WgConfig) :
    applyForcedRules p (applySoftRules p (applyForcedRules p (applySoftRules p w))) =
      applyForcedRules p (applySoftRules p w) ∧
    applySoftRules p (applySoftRules p w) = applySoftRules p w :=
  ⟨merge_twice p w, applySoftRules_twice p w⟩

/-! ## A server address that the walk passes over -/

/-- Two addresses that `IP.Equal` finds equal have the same text. -/
theorem IPEqual_IPString (x y : List Nat) (h : IPEqual x y = true) : IPString x = IPString y := by
  unfold IPEqual at h
  by_cases h1 : x.length = y.length
  · rw [if_pos h1] at h
    rw [of_decide_eq_true h]
  · rw [if_neg h1] at h
    by_cases h2 : x.length = 4 ∧ y.length = 16
    · rw [if_pos h2] at h
      simp only [Bool.and_eq_true, decide_eq_true_eq] at h
      obtain ⟨hy, hx⟩ := h
      have t4 : To4 x = some x := by simp [To4, h2.1]
      have t16 : To4 y = some x := by simp [To4, h2.2, hy, hx]
      unfold IPString
      simp [h2.1, h2.2, t4, t16]
    · rw [if_neg h2] at h
      by_cases h3 : x.length = 16 ∧ y.length = 4
      · rw [if_pos h3] at h
        simp only [Bool.and_eq_true, decide_eq_true_eq] at h
        obtain ⟨hx, hy⟩ := h
        have t4 : To4 y = some y := by simp [To4, h3.2]
        have t16 : To4 x = some y := by simp [To4, h3.1, hx, hy]
        unfold IPString
        simp [h3.1, h3.2, t4, t16]
      · rw [if_neg h3] at h
        cases h

/-- When the walk passes over the server address, it flags no address and leaves
`serverIPIndex` as it was. -/
theorem walkLoop_noflag (net : IPNet) (srv : List Nat) (hk : walkSkips srv = true) :
    ∀ (fuel : Nat) (ip : List Nat) (acc : List IPAddress) (idx : Int) (k : Nat)
      (L : List IPAddress) (idx2 : Int),
      walkLoop net srv fuel ip acc idx k = some (L, idx2) →
      idx2 = idx ∧ ∃ new, L = acc ++ new ∧ ∀ e ∈ new, e.IsServerIP = false := by
  intro fuel
  induction fuel with
  | zero => intro ip acc idx k L idx2 h; simp [walkLoop] at h
  | succ fuel ih =>
    intro ip acc idx k L idx2 h
    rw [walkLoop_succ] at h
    by_cases h1 : walkSkips ip = true
    · rw [if_pos h1] at h
      exact ih _ _ _ _ _ _ h
    · rw [if_neg h1] at h
      by_cases h2 : Contains net ip = false
      · rw [if_pos h2] at h
        simp only [Option.some.injEq, Prod.mk.injEq] at h
        exact ⟨h.2.symm, [], by simp [h.1], by simp⟩
      · rw [if_neg h2] at h
        by_cases h3 : IPEqual ip srv = true
        · exfalso
          apply h1
          unfold walkSkips at hk ⊢
          rw [IPEqual_IPString ip srv h3]
          exact hk
        · rw [if_neg h3] at h
          obtain ⟨e1, new, e2, e3⟩ := ih _ _ _ _ _ _ h
          refine ⟨e1, _ :: new, by rw [e2, List.append_assoc]; rfl, ?_⟩
          intro e he
          rcases List.mem_cons.1 he with rfl | he
          · rfl
          · exact e3 e he

/-- Without a flagged address the part of `Generate` after the walk returns the
error of the invalid server index and touches no record. -/
theorem generateDevices_noserver (env : Env) (conf : Configuration) (net : IPNet)
    (allIPs : List IPAddress) :
    generateDevices env conf net allIPs (-1) =
      { conf := conf, err := some "index of server not valid: -1" } := by
  unfold generateDevices
  simp only []
  rw [if_neg (by intro h; exact absurd h.1 (by decide))]
  rfl

theorem serverIndexAfter_none : ∀ (l : List IPAddress) (idx : Int) (k : Nat),
    (∀ e ∈ l, e.IsServerIP = false) → serverIndexAfter l idx k = idx := by
  intro l
  induction l with
  | nil => intro idx k _; rfl
  | cons e rest ih =>
    intro idx k h
    rw [serverIndexAfter, h e (List.mem_cons_self _ _)]
    exact ih _ _ (fun x hx => h x (List.mem_cons_of_mem _ hx))

/-- With a flagged address in the list, `serverIPIndex` ends as the index of a
flagged address. -/
theorem serverIndexAfter_flag : ∀ (l : List IPAddress) (idx : Int) (k : Nat),
    (∃ e ∈ l, e.IsServerIP = true) →
    ∃ i, i < l.length ∧ (l.getD i ⟨"", [], false⟩).IsServerIP = true ∧
      serverIndexAfter l idx k = Int.ofNat (k + i) := by
  intro l
  induction l with
  | nil => intro idx k h; obtain ⟨e, he, _⟩ := h; cases he
  | cons e rest ih =>
    intro idx k h
    rw [serverIndexAfter]
    by_cases hr : ∃ x ∈ rest, x.IsServerIP = true
    · obtain ⟨i, h1, h2, h3⟩ := ih (if e.IsServerIP = true then Int.ofNat k else idx) (k + 1) hr
      refine ⟨i + 1, by simp; omega, by simpa using h2, ?_⟩
      rw [h3]
      congr 1
      omega
    · have hr2 : ∀ x ∈ rest, x.IsServerIP = false := by
        intro x hx
        by_contra hc
        exact hr ⟨x, hx, by simpa using hc⟩
      have he : e.IsServerIP = true := by
        obtain ⟨x, hx, hf⟩ := h
        rcases List.mem_cons.1 hx with rfl | hx
        · exact hf
        · rw [hr2 x hx] at hf; cases hf
      rw [serverIndexAfter_none rest _ _ hr2, if_pos he]
      exact ⟨0, by simp, by simpa using he, rfl⟩

/-! ## `EstimateNetworkSize` after the validation of `Generate` -/

theorem dispatch_bits (s : List Char) : ∀ (scan : List Char) (v b : Nat),
    ParseAddr.dispatch s scan = some (v, b) → b = 32 ∨ b = 128 := by
  intro scan
  induction scan with
  | nil => intro v b h; cases h
  | cons c scan ih =>
    intro v b h
    rw [ParseAddr.dispatch] at h
    split_ifs at h
    · cases hp : parseIPv4 s with
      | none => rw [hp] at h; cases h
      | some f =>
        rw [hp] at h
        simp only [Option.map_some', Option.some.injEq, Prod.mk.injEq] at h
        exact Or.inl h.2.symm
    · cases hp : parseIPv6 s with
      | none => rw [hp] at h; cases h
      | some f =>
        rw [hp] at h
        simp only [Option.map_some', Option.some.injEq, Prod.mk.injEq] at h
        exact Or.inr h.2.symm
    · exact ih v b h

theorem ParseAddr_bits (s : String) (v b : Nat) (h : ParseAddr s = some (v, b)) :
    b = 32 ∨ b = 128 := by
  unfold ParseAddr at h
  split_ifs at h
  exact dispatch_bits _ _ _ _ h

theorem shlInt_ok (x s : Int) (h : 0 ≤ s) : ∃ n, shlInt x s = .ok n := by
  unfold shlInt
  rw [if_neg (by omega)]
  exact ⟨_, rfl⟩

theorem andBytes_length : ∀ (a m : List Nat), a.length = m.length →
    (andBytes a m).length = a.length := by
  intro a
  induction a with
  | nil => intro m _; cases m <;> rfl
  | cons x a ih =>
    intro m h
    cases m with
    | nil => simp at h
    | cons y m =>
      simp only [andBytes, List.length_cons]
      rw [ih m (by simpa using h)]

theorem andBytes_lt : ∀ (a m : List Nat), (∀ b ∈ a, b < 256) → ∀ b ∈ andBytes a m, b < 256 := by
  intro a
  induction a with
  | nil => intro m _ b hb; cases m <;> simp [andBytes] at hb
  | cons x a ih =>
    intro m h b hb
    cases m with
    | nil => simp [andBytes] at hb
    | cons y m =>
      simp only [andBytes, List.mem_cons] at hb
      rcases hb with rfl | hb
      · exact Nat.lt_of_le_of_lt Nat.and_le_left (h x (List.mem_cons_self _ _))
      · exact ih m (fun z hz => h z (List.mem_cons_of_mem _ hz)) b hb

theorem list_of_length_four (q : List Nat) (h : q.length = 4) :
    ∃ a0 a1 a2 a3, q = [a0, a1, a2, a3] := by
  match q, h with
  | [a0, a1, a2, a3], _ => exact ⟨a0, a1, a2, a3, rfl⟩

/-- The text of an IPv4 address is read by `netip.ParseAddr` as an address of 32
bits. -/
theorem ParseAddr_string4_bits (a0 a1 a2 a3 : Nat) (h0 : a0 < 256) (h1 : a1 < 256)
    (h2 : a2 < 256) (h3 : a3 < 256) (v b : Nat)
    (h : ParseAddr ⟨(string4 [a0, a1, a2, a3]).data⟩ = some (v, b)) : b = 32 := by
  obtain ⟨hch, hdisp⟩ := string4_chars a0 a1 a2 a3 h0 h1 h2 h3
  unfold ParseAddr at h
  have hno : ¬ '%' ∈ (string4 [a0, a1, a2, a3]).data := fun hc => (hch _ hc).1 rfl
  simp only [hno, if_false] at h
  rw [hdisp] at h
  cases hp : parseIPv4 (string4 [a0, a1, a2, a3]).data with
  | none => rw [hp] at h; cases h
  | some f =>
    rw [hp] at h
    simp only [Option.map_some', Option.some.injEq, Prod.mk.injEq] at h
    exact h.2.symm

/-- What `net.ParseCIDR` returns: the network of an address value `v` of `bitLen`
bits, 32 or 128, and a prefix length `n` of at most `bitLen`, read from the text
in front of the first `/`. -/
theorem ParseCIDR_parts (s : String) (ip : List Nat) (net : IPNet)
    (h : ParseCIDR s = some (ip, net)) :
    ∃ v bitLen n, (bitLen = 32 ∨ bitLen = 128) ∧ n ≤ bitLen ∧
      ParseAddr ⟨s.data.takeWhile (fun c => c != '/')⟩ = some (v, bitLen) ∧
      net = { IP := IPMask (as16 v) (CIDRMask n bitLen), Mask := CIDRMask n bitLen } := by
  unfold ParseCIDR at h
  split_ifs at h
  simp only [] at h
  split at h
  · cases h
  · rename_i v bitLen hpa
    split at h
    · cases h
    · rename_i n i hd
      split_ifs at h with hc
      simp only [Option.some.injEq, Prod.mk.injEq] at h
      refine ⟨v, bitLen, n, ParseAddr_bits _ _ _ hpa, ?_, hpa, h.2.symm⟩
      by_contra hn
      exact hc (Or.inr (by omega))

/-- The network of a CIDR that passes the alignment test of `Generate` never
makes `EstimateNetworkSize` panic. -/
theorem EstimateNetworkSize_ok (s : String) (ip : List Nat) (net : IPNet)
    (h : ParseCIDR s = some (ip, net)) (ha : IPNetString net = s) :
    ∃ n, EstimateNetworkSize net = .ok n := by
  obtain ⟨v, bitLen, n, hb, hn, hpa, rfl⟩ := ParseCIDR_parts s ip net h
  have hms : maskSize (CIDRMask n bitLen) = n := by
    rcases hb with rfl | rfl
    · exact (maskSize_CIDRMask n (by omega)).2 (by omega)
    · exact (maskSize_CIDRMask n (by omega)).1
  unfold EstimateNetworkSize
  simp only [hms]
  by_cases h4 : (To4 (IPMask (as16 v) (CIDRMask n bitLen))).isSome = true
  swap
  · rw [if_neg h4]
    apply shlInt_ok
    simp only [Int.ofNat_eq_coe]
    rcases hb with rfl | rfl <;> omega
  rw [if_pos h4]
  by_cases hn32 : n ≤ 32
  · apply shlInt_ok
    simp only [Int.ofNat_eq_coe]
    omega
  exfalso
  have hbl : bitLen = 128 := by rcases hb with rfl | rfl <;> [omega; rfl]
  subst hbl
  -- the network number has sixteen bytes and is IPv4-mapped
  have hm : CIDRMask n 128 = CIDRMask.bytes 16 n := by
    unfold CIDRMask
    simp [Nat.not_lt.2 hn]
  have hml : (CIDRMask.bytes 16 n).length = 16 := CIDRMask_bytes_length 16 n
  have hip : IPMask (as16 v) (CIDRMask.bytes 16 n) = andBytes (as16 v) (CIDRMask.bytes 16 n) := by
    unfold IPMask
    simp [hml, as16_length]
  rw [hm, hip] at h4 ha
  have hql : (andBytes (as16 v) (CIDRMask.bytes 16 n)).length = 16 := by
    rw [andBytes_length _ _ (by rw [as16_length, hml]), as16_length]
  have hqb := andBytes_lt (as16 v) (CIDRMask.bytes 16 n) (as16_lt v)
  generalize andBytes (as16 v) (CIDRMask.bytes 16 n) = q16 at h4 ha hql hqb
  have ht4 : To4 q16 = some (q16.drop 12) := by
    unfold To4 at h4 ⊢
    rw [if_neg (by omega)] at h4 ⊢
    by_cases hc : q16.length = 16 ∧ q16.take 12 = v4InV6Prefix
    · rw [if_pos hc]
    · rw [if_neg hc] at h4
      cases h4
  have hq4 : (q16.drop 12).length = 4 := by rw [List.length_drop, hql]
  obtain ⟨a0, a1, a2, a3, hq⟩ := list_of_length_four _ hq4
  have hqb2 : ∀ b ∈ q16.drop 12, b < 256 := fun b hb => hqb b (List.mem_of_mem_drop hb)
  rw [hq] at hqb2 ht4
  have b0 : a0 < 256 := hqb2 a0 (by simp)
  have b1 : a1 < 256 := hqb2 a1 (by simp)
  have b2 : a2 < 256 := hqb2 a2 (by simp)
  have b3 : a3 < 256 := hqb2 a3 (by simp)
  -- the text of the network starts with the dotted decimal address
  have hnm : networkNumberAndMask ⟨q16, CIDRMask.bytes 16 n⟩ =
      ([a0, a1, a2, a3], (CIDRMask.bytes 16 n).drop 12) := by
    unfold networkNumberAndMask
    simp [ht4, hml]
  have hs4 : IPString [a0, a1, a2, a3] = string4 [a0, a1, a2, a3] := by
    unfold IPString To4
    simp
  have htext : ∃ rest : String, s.data = (string4 [a0, a1, a2, a3]).data ++ '/' :: rest.data := by
    unfold IPNetString at ha
    simp only [hnm] at ha
    have hne : ¬ (([a0, a1, a2, a3] : List Nat) = [] ∨ (CIDRMask.bytes 16 n).drop 12 = []) := by
      intro hc
      rcases hc with hc | hc
      · cases hc
      · have := congrArg List.length hc
        rw [List.length_drop, hml] at this
        cases this
    rw [if_neg hne, hs4] at ha
    split at ha
    · exact ⟨⟨hexString ((CIDRMask.bytes 16 n).drop 12)⟩, by
        rw [← ha]; simp [String.data_append]⟩
    · rename_i l _
      exact ⟨itoa l, by rw [← ha]; simp [String.data_append]⟩
  obtain ⟨rest, hdata⟩ := htext
  obtain ⟨hch, _⟩ := string4_chars a0 a1 a2 a3 b0 b1 b2 b3
  have hpos : ∀ x ∈ (string4 [a0, a1, a2, a3]).data, (fun c => c != '/') x = true := by
    intro x hx
    simpa using (hch x hx).2
  have htake : s.data.takeWhile (fun c => c != '/') = (string4 [a0, a1, a2, a3]).data := by
    rw [hdata, List.takeWhile_append_of_pos hpos]
    simp
  rw [htake] at hpa
  have := ParseAddr_string4_bits a0 a1 a2 a3 b0 b1 b2 b3 _ _ hpa
  cases this

/-- A run whose server address the walk passes over: the walk flags no address
and `Generate` returns the error of the invalid server index, with the
collection as the reset and the clearing of the server flags left it. -/
theorem Generate_skipped_server (env : Env) (conf : Configuration) (firstIP : List Nat)
    (net : IPNet) (srv : List Nat)
    (hp : ParseCIDR conf.GenerationParams.CIDR = some (firstIP, net))
    (ha : IPNetString net = conf.GenerationParams.CIDR)
    (hs : ParseIP conf.GenerationParams.Server = some srv)
    (hc : Contains net srv = true) (hk : walkSkips srv = true) :
    (∃ allIPs, walk net srv firstIP = some (allIPs, -1) ∧ ∀ e ∈ allIPs, e.IsServerIP = false) ∧
    Generate env conf =
      some { conf :=
               { GenerationParams := conf.GenerationParams,
                 UseGzipDuringProcessing := conf.UseGzipDuringProcessing,
                 Peers := (if conf.GenerationParams.ResetAll then [] else conf.Peers).map
                   (fun w => { w with IsServer := false }) },
             err := some "index of server not valid: -1" } := by
  obtain ⟨v, hv⟩ := ParseCIDR_as16 _ _ _ hp
  obtain ⟨n, he⟩ := EstimateNetworkSize_ok _ _ _ hp ha
  obtain ⟨_, r, _, hw, _⟩ := walk_ends net srv (as16 v) (as16_length v) (as16_lt v)
  rw [← hv] at hw
  obtain ⟨allIPs, idx⟩ := r
  have hw2 := hw
  unfold walk at hw2
  obtain ⟨hidx, new, hnew, hflag⟩ := walkLoop_noflag net srv hk _ _ _ _ _ _ _ hw2
  rw [List.nil_append] at hnew
  subst hidx
  subst hnew
  refine ⟨⟨allIPs, hw, hflag⟩, ?_⟩
  unfold Generate
  simp only [hp, ha, hs, hc, he, hw, ne_eq, not_true_eq_false, if_false, generateDevices_noserver]
  by_cases hr : conf.GenerationParams.ResetAll = true <;> simp [hr]

theorem ip4in6_inj (v s : Nat) (hv : v < 2 ^ 32) (hs : s < 2 ^ 32) (h : ip4in6 v = ip4in6 s) :
    v = s := by
  have h2 : be4 v = be4 s := List.append_cancel_left h
  rw [← bytesVal_be4 v hv, ← bytesVal_be4 s hs, h2]

theorem IPEqual_ip4in6 (v s : Nat) :
    IPEqual (ip4in6 v) (ip4in6 s) = decide (ip4in6 v = ip4in6 s) := by
  have h : (ip4in6 v).length = (ip4in6 s).length := rfl
  unfold IPEqual
  rw [if_pos h]

/-- On an aligned IPv4 network the walk flags exactly one address when the server
address is inside the network and its last octet is neither 0 nor 255. -/
theorem walk_flags_server (a p s : Nat) (hp : p ≤ 32) (ha : a < 2 ^ 32)
    (hal : a % 2 ^ (32 - p) = 0) (h1 : a ≤ s) (h2 : s < a + 2 ^ (32 - p))
    (hu : usable s = true) :
    ∃ allIPs i, walk ⟨be4 a, CIDRMask p 32⟩ (ip4in6 s) (ip4in6 a) = some (allIPs, Int.ofNat i) ∧
      i < allIPs.length ∧ allIPs.countP (fun e => e.IsServerIP) = 1 ∧
      (allIPs.getD i ⟨"", [], false⟩).IsServerIP = true ∧
      (allIPs.getD i ⟨"", [], false⟩).S = string4 (be4 s) := by
  have hend := aligned_end a p hp ha hal
  have hs32 : s < 2 ^ 32 := by omega
  have hmemL : s ∈ (List.range' a (2 ^ (32 - p))).filter usable := by
    rw [List.mem_filter, List.mem_range'_1]
    exact ⟨⟨h1, h2⟩, hu⟩
  have hself : (walkedIP (ip4in6 s) s).IsServerIP = true := by
    simp [walkedIP, IPEqual_ip4in6]
  have hex : ∃ e ∈ ((List.range' a (2 ^ (32 - p))).filter usable).map (walkedIP (ip4in6 s)),
      e.IsServerIP = true := ⟨_, List.mem_map_of_mem _ hmemL, hself⟩
  obtain ⟨i, hi, hfl, hidx⟩ := serverIndexAfter_flag _ (-1) 0 hex
  rw [Nat.zero_add] at hidx
  refine ⟨_, i, by rw [walk_ip4 a p (ip4in6 s) hp ha hal, hidx], hi, ?_, hfl, ?_⟩
  · rw [List.countP_map]
    have hnd : ((List.range' a (2 ^ (32 - p))).filter usable).Nodup :=
      List.Nodup.filter _ (List.nodup_range' a (2 ^ (32 - p)))
    refine Eq.trans ?_ (List.count_eq_one_of_mem hnd hmemL)
    rw [List.count]
    apply List.countP_congr
    intro v hv
    rw [List.mem_filter, List.mem_range'_1] at hv
    have hv32 : v < 2 ^ 32 := by omega
    simp only [Function.comp, walkedIP, IPEqual_ip4in6, decide_eq_true_eq, beq_iff_eq]
    exact ⟨ip4in6_inj v s hv32 hs32, fun e => by rw [e]⟩
  · rw [List.length_map] at hi
    rw [List.getD_eq_getElem?_getD, List.getElem?_map, List.getElem?_eq_getElem hi] at hfl ⊢
    simp only [Option.map_some', Option.getD_some, walkedIP, IPEqual_ip4in6,
      decide_eq_true_eq] at hfl ⊢
    have h3 : be4 (((List.range' a (2 ^ (32 - p))).filter usable)[i]) = be4 s :=
      List.append_cancel_left hfl
    rw [h3]

theorem walkSkips_ip4in6 (s : Nat) : walkSkips (ip4in6 s) = !usable s := by
  unfold walkSkips
  rw [IPString_ip4in6, hasSuffix_ip4]

/-- Claim C21: when the server address parses and lies inside the aligned CIDR
but its text ends in `.0` or `.255`, the walk flags no address, leaves
`serverIPIndex` at -1, and `Generate` returns the error `index of server not
valid: -1` with no record carrying the server flag; this is the case of every
server address of an aligned IPv4 network whose last octet is 0 or 255.  For
every other server address inside an aligned IPv4 network the walk flags exactly
one address, the one with the text of the server, and `serverIPIndex` is its
index. -/
theorem server_index :
    (∀ (env : Env) (conf : Configuration) (firstIP : List Nat) (net : IPNet) (srv : List Nat),
      ParseCIDR conf.GenerationParams.CIDR = some (firstIP, net) →
      IPNetString net = conf.GenerationParams.CIDR →
      ParseIP conf.GenerationParams.Server = some srv → Contains net srv = true →
      walkSkips srv = true →
      (∃ allIPs, walk net srv firstIP = some (allIPs, -1) ∧
        ∀ e ∈ allIPs, e.IsServerIP = false) ∧
      (∃ peers, (∀ w ∈ peers, w.IsServer = false) ∧
        Generate env conf =
          some { conf := { conf with Peers := peers },
                 err := some "index of server not valid: -1" })) ∧
    (∀ (a p s : Nat), p ≤ 32 → a < 2 ^ 32 → a % 2 ^ (32 - p) = 0 → a ≤ s →
      s < a + 2 ^ (32 - p) →
      Contains ⟨be4 a, CIDRMask p 32⟩ (ip4in6 s) = true ∧
      walkSkips (ip4in6 s) = (!usable s) ∧
      (usable s = false → ∀ (env : Env) (conf : Configuration),
        conf.GenerationParams.CIDR = cidrText a p →
        ParseIP conf.GenerationParams.Server = some (ip4in6 s) →
        ∃ peers, (∀ w ∈ peers, w.IsServer = false) ∧
          Generate env conf =
            some { conf := { conf with Peers := peers },
                   err := some "index of server not valid: -1" }) ∧
      (usable s = true →
        ∃ allIPs i,
          walk ⟨be4 a, CIDRMask p 32⟩ (ip4in6 s) (ip4in6 a) = some (allIPs, Int.ofNat i) ∧
          i < allIPs.length ∧ allIPs.countP (fun e => e.IsServerIP) = 1 ∧
          (allIPs.getD i ⟨"", [], false⟩).IsServerIP = true ∧
          (allIPs.getD i ⟨"", [], false⟩).S = string4 (be4 s))) := by
  have part1 : ∀ (env : Env) (conf : Configuration) (firstIP : List Nat) (net : IPNet)
      (srv : List Nat),
      ParseCIDR conf.GenerationParams.CIDR = some (firstIP, net) →
      IPNetString net = conf.GenerationParams.CIDR →
      ParseIP conf.GenerationParams.Server = some srv → Contains net srv = true →
      walkSkips srv = true →
      (∃ allIPs, walk net srv firstIP = some (allIPs, -1) ∧
        ∀ e ∈ allIPs, e.IsServerIP = false) ∧
      (∃ peers, (∀ w ∈ peers, w.IsServer = false) ∧
        Generate env conf =
          some { conf := { conf with Peers := peers },
                 err := some "index of server not valid: -1" }) := by
    intro env conf firstIP net srv hp ha hs hc hk
    obtain ⟨h1, h2⟩ := Generate_skipped_server env conf firstIP net srv hp ha hs hc hk
    exact ⟨h1, _, cleared_flags _, h2⟩
  refine ⟨part1, ?_⟩
  intro a p s hp ha hal h1 h2
  have hend := aligned_end a p hp ha hal
  have hs32 : s < 2 ^ 32 := by omega
  have hcont : Contains ⟨be4 a, CIDRMask p 32⟩ (ip4in6 s) = true := by
    rw [Contains_ip4 a p s hp ha hs32 hal]
    exact decide_eq_true ⟨h1, h2⟩
  refine ⟨hcont, walkSkips_ip4in6 s, ?_, walk_flags_server a p s hp ha hal h1 h2⟩
  intro hu env conf hcidr hsrv
  refine (part1 env conf (ip4in6 a) ⟨be4 a, CIDRMask p 32⟩ (ip4in6 s) ?_ ?_ hsrv hcont ?_).2
  · rw [hcidr]; exact ParseCIDR_cidrText a p hp ha hal
  · rw [hcidr]; exact IPNetString_ip4 a p hp
  · rw [walkSkips_ip4in6, hu]; rfl

set_option maxRecDepth 100000 in
/-- Witness of C21: the network `10.0.0.0/16` with the server `10.0.1.0` and the
network `10.0.0.0/24` with the server `10.0.0.255` and five prior records give
the error and no server record; on `10.0.0.0/30` with the server `10.0.0.1` the
walk flags the first of its three addresses. -/
theorem server_index_witness :
    (∃ peers, (∀ w ∈ peers, w.IsServer = false) ∧
      Generate demoEnv skippedConf =
        some { conf := { skippedConf with Peers := peers },
               err := some "index of server not valid: -1" }) ∧
    (Generate demoEnv lastServerConf).map
        (fun r => (r.err, r.conf.Peers.map (fun w => (w.Name, w.IsServer)))) =
      some (some "index of server not valid: -1",
        [("one", false), ("two", false), ("three", false), ("four", false), ("five", false)]) ∧
    (∃ allIPs i,
      walk ⟨be4 167772160, CIDRMask 30 32⟩ (ip4in6 167772161) (ip4in6 167772160) =
        some (allIPs, Int.ofNat i) ∧
      i < allIPs.length ∧ allIPs.countP (fun e => e.IsServerIP) = 1 ∧
      (allIPs.getD i ⟨"", [], false⟩).IsServerIP = true ∧
      (allIPs.getD i ⟨"", [], false⟩).S = string4 (be4 167772161)) := by
  refine ⟨?_, ?_, ?_⟩
  · exact (server_index.1 demoEnv skippedConf (ip4in6 167772160)
      ⟨[10, 0, 0, 0], [255, 255, 0, 0]⟩ (ip4in6 167772416) (by decide) (by decide) (by decide)
      (by decide) (by decide)).2
  · have h2 := (Generate_skipped_server demoEnv lastServerConf (ip4in6 167772160)
      ⟨[10, 0, 0, 0], [255, 255, 255, 0]⟩ (ip4in6 167772415) (by decide) (by decide) (by decide)
      (by decide) (by decide)).2
    rw [h2]
    decide
  · exact ((server_index.2 167772160 30 167772161 (by decide) (by decide) (by decide)
      (by decide) (by decide)).2.2.2) (by decide)

end WgNetLib
